import Mathlib

/-!
# ROM test harness: the comparison routines of `src/main.c`

The routines of `main.c` walk the ROM mapped at `0xFA0000` and the image loaded from
`TESTROM.BIN` in lock-step and report where they differ.  They are embedded here as pure
functions from the two memory regions (and, for the sampling routines, the values returned by
`rand()`) to an `Outcome`: the returned `int` and the list of observable events (console
output and the element indices read).

Conventions of the embedding:
* a region is the total map from byte offsets (relative to the pointer passed in) to bytes;
* a pointer bumped by `rombank * ROMBANK_SIZE_...` is the shifted view of the region;
* the macros are expanded textually, as the preprocessor does
  (`rombank * ROMBANK_SIZE_WORDS` is `rombank * 64 * 1024 / 2`);
* `for (int i = 0; i < N; i++)` is a recursion on the number of iterations left, carrying `i`;
* `unsigned long` is 32 bits wide (m68k), written with an explicit `% 2 ^ 32`;
* 16-bit words are big-endian (m68k).
-/

set_option autoImplicit false

namespace RomTest

/-! ## Data model -/

/-- A byte of memory, the C type `unsigned char`. -/
abbrev Byte := Fin 256

/-- A memory region seen through a pointer: the byte stored at every offset from it. -/
abbrev Region := Nat → Byte

/-- The nine comparison routines, used to tag the label line each one prints first. -/
inductive TestId
  | sequentialReadROM
  | sequentialReadROMStats
  | randomReadROM
  | randomReadROMStats
  | addressLinesSequentialReadROM
  | sequentialReadROMBytes
  | sequentialReadROMBytesStats
  | randomReadROMBytes
  | randomReadROMBytesStats
  deriving DecidableEq

/-- Observable events of one routine, in program order. -/
inductive Event
  /-- The label line: which routine, the ROM name printed (4 or 3), and `num_requests` when the
  routine prints it. -/
  | label (test : TestId) (romName : Nat) (num_requests : Option Int)
  /-- The pair of reads `rom[index]`, `file[index]` at one element index of the bank. -/
  | read (index : Nat)
  /-- One spinner glyph (its character code). -/
  | spin (glyph : Nat)
  /-- The line `Data mismatch at <address>. Expected: <expected>, got: <actual>`. -/
  | mismatch (address expected actual : Nat)
  /-- The line `Data mismatch at <address> with only A<line> high. Expected: ..., got: ...`. -/
  | lineMismatch (address line expected actual : Nat)
  /-- The line `Success.` -/
  | success
  /-- The line `Success: <successful>, Fail: <failed>`. -/
  | stats (successful failed : Nat)
  deriving DecidableEq

/-- What one routine does: the value it returns and the events it produced. -/
structure Outcome where
  ret : Nat
  out : List Event
  deriving DecidableEq

/-- Loop state of the stats routines: the two counters and the events so far. -/
structure Stats where
  successful_requests : Nat
  failed_requests : Nat
  out : List Event
  deriving DecidableEq

/-- Events `evs` happen, then the computation goes on as `o`. -/
def emit (evs : List Event) (o : Outcome) : Outcome :=
  ⟨o.ret, evs ++ o.out⟩

/-! ## Constants of `main.c` -/

/-- Value of `#define ROM_MEMORY_START 0xFA0000`. -/
def ROM_MEMORY_START : Nat := 0xFA0000

/-- Value of `#define ROM4_MEMORY_START ROM_MEMORY_START`. -/
def ROM4_MEMORY_START : Nat := ROM_MEMORY_START

/-- Value of `#define ROM4_BANK 0`. -/
def ROM4_BANK : Nat := 0

/-- Value of `#define ROM3_BANK 1`. -/
def ROM3_BANK : Nat := 1

/-- Value of `const int SPINNER_UPDATE_FREQUENCY = 4096`. -/
def SPINNER_UPDATE_FREQUENCY : Nat := 4096

/-- The array `char spinner[]`: backslash, bar, slash, dash, as character codes. -/
def spinner : List Nat := [92, 124, 47, 45]

/-! ## Shared pieces of the loop bodies -/

/-- Value kept by a 32-bit `unsigned long`. -/
def u32 (x : Nat) : Nat := x % 2 ^ 32

/-- The 16-bit word at word index `w` of a region (big-endian, as on the m68k). -/
def wordAt (mem : Region) (w : Nat) : Nat :=
  (mem (2 * w)).val * 256 + (mem (2 * w + 1)).val

/-- The 16-bit word at word index `w` of a region in the other byte order (little-endian);
used only to compare with `wordAt`. -/
def wordAtLittleEndian (mem : Region) (w : Nat) : Nat :=
  (mem (2 * w)).val + (mem (2 * w + 1)).val * 256

/-- The byte at offset `a` of a region, as a number. -/
def byteAt (mem : Region) (a : Nat) : Nat := (mem a).val

/-- The text chosen by `rombank == ROM4_BANK ? "4" : "3"`, as a number. -/
def romName (rombank : Nat) : Nat := if rombank = ROM4_BANK then 4 else 3

/-- The two statements
`unsigned long real_memory = rombank * ROMBANK_SIZE_BYTES + ROM4_MEMORY_START;`
`real_memory += delta;` with the macros expanded. -/
def real_memory (rombank delta : Nat) : Nat :=
  u32 (u32 (rombank * 64 * 1024 + ROM4_MEMORY_START) + u32 delta)

/-- The statement `if (i % SPINNER_UPDATE_FREQUENCY == 0) printf("\b%c", spinner[(i /
SPINNER_UPDATE_FREQUENCY) % 4]);`. -/
def spinnerUpdate (i : Nat) : List Event :=
  if i % SPINNER_UPDATE_FREQUENCY = 0 then
    [Event.spin (spinner.getD ((i / SPINNER_UPDATE_FREQUENCY) % 4) 0)]
  else []

/-- Both branches of `if (rom != file) failed_requests++; else successful_requests++;`. -/
def countRequest (st : Stats) (rom_unit file_unit : Nat) : Stats :=
  if rom_unit ≠ file_unit then
    { st with failed_requests := st.failed_requests + 1 }
  else
    { st with successful_requests := st.successful_requests + 1 }

/-- The end of every stats routine: print both counters, `return failed_requests > 0 ? 1 : 0`. -/
def reportStats (st : Stats) : Outcome :=
  ⟨if st.failed_requests > 0 then 1 else 0,
   st.out ++ [Event.stats st.successful_requests st.failed_requests]⟩

/-! ## Sequential routines, 16-bit words -/

/-- Loop of `testSequentialReadROM`: `n` iterations left, loop variable `i`. -/
def testSequentialReadROM_loop (rom_data_words file_data_words : Nat → Nat) (rombank : Nat) :
    Nat → Nat → Outcome
  | 0, _ => ⟨0, [Event.success]⟩
  | n + 1, i =>
    let rom_word := rom_data_words i
    let file_word := file_data_words i
    if rom_word ≠ file_word then
      ⟨1, [Event.read i, Event.mismatch (real_memory rombank (i * 2)) file_word rom_word]⟩
    else
      emit (Event.read i :: spinnerUpdate i)
        (testSequentialReadROM_loop rom_data_words file_data_words rombank n (i + 1))

/-- Embedding of `int testSequentialReadROM(rom_data, file_data, rombank)`. -/
def testSequentialReadROM (rom_data file_data : Region) (rombank : Nat) : Outcome :=
  let rom_data_words := fun j => wordAt rom_data (rombank * 64 * 1024 / 2 + j)
  let file_data_words := fun j => wordAt file_data (rombank * 64 * 1024 / 2 + j)
  emit [Event.label TestId.sequentialReadROM (romName rombank) none]
    (testSequentialReadROM_loop rom_data_words file_data_words rombank (64 * 1024 / 2) 0)

/-- Loop of `testSequentialReadROMStats`: `n` iterations left, loop variable `i`. -/
def testSequentialReadROMStats_loop (rom_data_words file_data_words : Nat → Nat) :
    Nat → Nat → Stats → Stats
  | 0, _, st => st
  | n + 1, i, st =>
    let rom_word := rom_data_words i
    let file_word := file_data_words i
    let st := countRequest st rom_word file_word
    testSequentialReadROMStats_loop rom_data_words file_data_words n (i + 1)
      { st with out := st.out ++ Event.read i :: spinnerUpdate i }

/-- Embedding of `int testSequentialReadROMStats(rom_data, file_data, rombank)`. -/
def testSequentialReadROMStats (rom_data file_data : Region) (rombank : Nat) : Outcome :=
  let rom_data_words := fun j => wordAt rom_data (rombank * 64 * 1024 / 2 + j)
  let file_data_words := fun j => wordAt file_data (rombank * 64 * 1024 / 2 + j)
  reportStats
    (testSequentialReadROMStats_loop rom_data_words file_data_words (64 * 1024 / 2) 0
      ⟨0, 0, [Event.label TestId.sequentialReadROMStats (romName rombank) none]⟩)

/-! ## Sampling routines, 16-bit words

`rand i` is the value returned by the call of `rand()` made in iteration `i` (each iteration
makes exactly one call, after the single `srand(Random())`).  A loop bounded by the `int`
`num_requests` runs `num_requests.toNat` times: not at all when `num_requests <= 0`. -/

/-- Loop of `testRandomReadROM`: `n` iterations left, loop variable `i`. -/
def testRandomReadROM_loop (rom_data_words file_data_words : Nat → Nat) (rombank : Nat)
    (rand : Nat → Nat) : Nat → Nat → Outcome
  | 0, _ => ⟨0, [Event.success]⟩
  | n + 1, i =>
    let random_position := u32 (rand i &&& 0x7FFF)
    let rom_word := rom_data_words random_position
    let file_word := file_data_words random_position
    if rom_word ≠ file_word then
      ⟨1, [Event.read random_position,
           Event.mismatch (real_memory rombank (random_position * 2)) file_word rom_word]⟩
    else
      emit (Event.read random_position :: spinnerUpdate i)
        (testRandomReadROM_loop rom_data_words file_data_words rombank rand n (i + 1))

/-- Embedding of `int testRandomReadROM(rom_data, file_data, rombank, num_requests)`. -/
def testRandomReadROM (rom_data file_data : Region) (rombank : Nat) (num_requests : Int)
    (rand : Nat → Nat) : Outcome :=
  let rom_data_words := fun j => wordAt rom_data (rombank * 64 * 1024 / 2 + j)
  let file_data_words := fun j => wordAt file_data (rombank * 64 * 1024 / 2 + j)
  emit [Event.label TestId.randomReadROM (romName rombank) (some num_requests)]
    (testRandomReadROM_loop rom_data_words file_data_words rombank rand num_requests.toNat 0)

/-- Loop of `testRandomReadROMStats`: `n` iterations left, loop variable `i`. -/
def testRandomReadROMStats_loop (rom_data_words file_data_words : Nat → Nat)
    (rand : Nat → Nat) : Nat → Nat → Stats → Stats
  | 0, _, st => st
  | n + 1, i, st =>
    let random_position := u32 (rand i &&& 0x7FFF)
    let rom_word := rom_data_words random_position
    let file_word := file_data_words random_position
    let st := countRequest st rom_word file_word
    testRandomReadROMStats_loop rom_data_words file_data_words rand n (i + 1)
      { st with out := st.out ++ Event.read random_position :: spinnerUpdate i }

/-- Embedding of `int testRandomReadROMStats(rom_data, file_data, rombank, num_requests)`. -/
def testRandomReadROMStats (rom_data file_data : Region) (rombank : Nat) (num_requests : Int)
    (rand : Nat → Nat) : Outcome :=
  let rom_data_words := fun j => wordAt rom_data (rombank * 64 * 1024 / 2 + j)
  let file_data_words := fun j => wordAt file_data (rombank * 64 * 1024 / 2 + j)
  reportStats
    (testRandomReadROMStats_loop rom_data_words file_data_words rand num_requests.toNat 0
      ⟨0, 0, [Event.label TestId.randomReadROMStats (romName rombank) (some num_requests)]⟩)

/-! ## Address-line routine -/

/-- Inner loop of `testAddressLinesSequentialReadROM` for one `line`, `n` requests left: the
events emitted, and whether the routine executed `return 1` inside the loop. -/
def testAddressLinesSequentialReadROM_requests (rom_data_words file_data_words : Nat → Nat)
    (rombank line : Nat) : Nat → List Event × Bool
  | 0 => ([], false)
  | n + 1 =>
    let address := 1 <<< line
    let rom_word := rom_data_words (address >>> 1)
    let file_word := file_data_words (address >>> 1)
    if rom_word ≠ file_word then
      ([Event.read (address >>> 1),
        Event.lineMismatch (real_memory rombank address) line file_word rom_word], true)
    else
      let rest :=
        testAddressLinesSequentialReadROM_requests rom_data_words file_data_words rombank line n
      (Event.read (address >>> 1) :: rest.1, rest.2)

/-- The spinner statement after the inner loop, on `line`:
`if (line % SPINNER_UPDATE_FREQUENCY == 0) printf(...)`. -/
def lineSpinnerUpdate (line : Nat) : List Event :=
  if line % SPINNER_UPDATE_FREQUENCY = 0 then
    [Event.spin (spinner.getD ((line / SPINNER_UPDATE_FREQUENCY) % 4) 0)]
  else []

/-- Outer loop of `testAddressLinesSequentialReadROM`: `n` lines left, loop variable `line`. -/
def testAddressLinesSequentialReadROM_lines (rom_data_words file_data_words : Nat → Nat)
    (rombank : Nat) (num_requests : Int) : Nat → Nat → Outcome
  | 0, _ => ⟨0, [Event.success]⟩
  | n + 1, line =>
    let inner :=
      testAddressLinesSequentialReadROM_requests rom_data_words file_data_words rombank line
        num_requests.toNat
    if inner.2 then
      ⟨1, inner.1⟩
    else
      emit (inner.1 ++ lineSpinnerUpdate line)
        (testAddressLinesSequentialReadROM_lines rom_data_words file_data_words rombank
          num_requests n (line + 1))

/-- Embedding of `int testAddressLinesSequentialReadROM(rom_data, file_data, rombank,
num_requests)`; the outer loop is `for (int line = 1; line < 15; line++)`. -/
def testAddressLinesSequentialReadROM (rom_data file_data : Region) (rombank : Nat)
    (num_requests : Int) : Outcome :=
  let rom_data_words := fun j => wordAt rom_data (rombank * 64 * 1024 / 2 + j)
  let file_data_words := fun j => wordAt file_data (rombank * 64 * 1024 / 2 + j)
  emit [Event.label TestId.addressLinesSequentialReadROM (romName rombank) (some num_requests)]
    (testAddressLinesSequentialReadROM_lines rom_data_words file_data_words rombank num_requests
      (15 - 1) 1)

/-! ## Sequential routines, bytes -/

/-- Loop of `testSequentialReadROMBytes`: `n` iterations left, loop variable `i`. -/
def testSequentialReadROMBytes_loop (rom_data file_data : Nat → Nat) (rombank : Nat) :
    Nat → Nat → Outcome
  | 0, _ => ⟨0, [Event.success]⟩
  | n + 1, i =>
    let rom_byte := rom_data i
    let file_byte := file_data i
    if rom_byte ≠ file_byte then
      ⟨1, [Event.read i, Event.mismatch (real_memory rombank i) file_byte rom_byte]⟩
    else
      emit (Event.read i :: spinnerUpdate i)
        (testSequentialReadROMBytes_loop rom_data file_data rombank n (i + 1))

/-- Embedding of `int testSequentialReadROMBytes(rom_data, file_data, rombank)`. -/
def testSequentialReadROMBytes (rom_data file_data : Region) (rombank : Nat) : Outcome :=
  let rom_bank := fun j => byteAt rom_data (rombank * 64 * 1024 + j)
  let file_bank := fun j => byteAt file_data (rombank * 64 * 1024 + j)
  emit [Event.label TestId.sequentialReadROMBytes (romName rombank) none]
    (testSequentialReadROMBytes_loop rom_bank file_bank rombank (64 * 1024) 0)

/-- Loop of `testSequentialReadROMBytesStats`: `n` iterations left, loop variable `i`. -/
def testSequentialReadROMBytesStats_loop (rom_data file_data : Nat → Nat) :
    Nat → Nat → Stats → Stats
  | 0, _, st => st
  | n + 1, i, st =>
    let rom_byte := rom_data i
    let file_byte := file_data i
    let st := countRequest st rom_byte file_byte
    testSequentialReadROMBytesStats_loop rom_data file_data n (i + 1)
      { st with out := st.out ++ Event.read i :: spinnerUpdate i }

/-- Embedding of `int testSequentialReadROMBytesStats(rom_data, file_data, rombank)`. -/
def testSequentialReadROMBytesStats (rom_data file_data : Region) (rombank : Nat) : Outcome :=
  let rom_bank := fun j => byteAt rom_data (rombank * 64 * 1024 + j)
  let file_bank := fun j => byteAt file_data (rombank * 64 * 1024 + j)
  reportStats
    (testSequentialReadROMBytesStats_loop rom_bank file_bank (64 * 1024) 0
      ⟨0, 0, [Event.label TestId.sequentialReadROMBytesStats (romName rombank) none]⟩)

/-! ## Sampling routines, bytes -/

/-- Loop of `testRandomReadROMBytes`: `n` iterations left, loop variable `i`. -/
def testRandomReadROMBytes_loop (rom_data file_data : Nat → Nat) (rombank : Nat)
    (rand : Nat → Nat) : Nat → Nat → Outcome
  | 0, _ => ⟨0, [Event.success]⟩
  | n + 1, i =>
    let random_position := u32 (rand i &&& (64 * 1024 - 1))
    let rom_byte := rom_data random_position
    let file_byte := file_data random_position
    if rom_byte ≠ file_byte then
      ⟨1, [Event.read random_position,
           Event.mismatch (real_memory rombank random_position) file_byte rom_byte]⟩
    else
      emit (Event.read random_position :: spinnerUpdate i)
        (testRandomReadROMBytes_loop rom_data file_data rombank rand n (i + 1))

/-- Embedding of `int testRandomReadROMBytes(rom_data, file_data, rombank, num_requests)`. -/
def testRandomReadROMBytes (rom_data file_data : Region) (rombank : Nat) (num_requests : Int)
    (rand : Nat → Nat) : Outcome :=
  let rom_bank := fun j => byteAt rom_data (rombank * 64 * 1024 + j)
  let file_bank := fun j => byteAt file_data (rombank * 64 * 1024 + j)
  emit [Event.label TestId.randomReadROMBytes (romName rombank) (some num_requests)]
    (testRandomReadROMBytes_loop rom_bank file_bank rombank rand num_requests.toNat 0)

/-- Loop of `testRandomReadROMBytesStats`: `n` iterations left, loop variable `i`. -/
def testRandomReadROMBytesStats_loop (rom_data file_data : Nat → Nat) (rand : Nat → Nat) :
    Nat → Nat → Stats → Stats
  | 0, _, st => st
  | n + 1, i, st =>
    let random_position := u32 (rand i &&& (64 * 1024 - 1))
    let rom_byte := rom_data random_position
    let file_byte := file_data random_position
    let st := countRequest st rom_byte file_byte
    testRandomReadROMBytesStats_loop rom_data file_data rand n (i + 1)
      { st with out := st.out ++ Event.read random_position :: spinnerUpdate i }

/-- Embedding of `int testRandomReadROMBytesStats(rom_data, file_data, rombank,
num_requests)`. -/
def testRandomReadROMBytesStats (rom_data file_data : Region) (rombank : Nat)
    (num_requests : Int) (rand : Nat → Nat) : Outcome :=
  let rom_bank := fun j => byteAt rom_data (rombank * 64 * 1024 + j)
  let file_bank := fun j => byteAt file_data (rombank * 64 * 1024 + j)
  reportStats
    (testRandomReadROMBytesStats_loop rom_bank file_bank rand num_requests.toNat 0
      ⟨0, 0, [Event.label TestId.randomReadROMBytesStats (romName rombank) (some num_requests)]⟩)

/-! ## Reading off an event list -/

/-- The element indices read, in order. -/
def readsOf : List Event → List Nat
  | [] => []
  | Event.read i :: es => i :: readsOf es
  | _ :: es => readsOf es

/-- The mismatch lines printed, in order, as (address, expected, actual). -/
def mismatchesOf : List Event → List (Nat × Nat × Nat)
  | [] => []
  | Event.mismatch a e g :: es => (a, e, g) :: mismatchesOf es
  | Event.lineMismatch a _ e g :: es => (a, e, g) :: mismatchesOf es
  | _ :: es => mismatchesOf es

/-- The address-line mismatch lines printed, in order, as (address, line, expected, actual). -/
def lineMismatchesOf : List Event → List (Nat × Nat × Nat × Nat)
  | [] => []
  | Event.lineMismatch a l e g :: es => (a, l, e, g) :: lineMismatchesOf es
  | _ :: es => lineMismatchesOf es

/-- The spinner glyphs printed, in order. -/
def spinsOf : List Event → List Nat
  | [] => []
  | Event.spin g :: es => g :: spinsOf es
  | _ :: es => spinsOf es

/-- The glyphs `spinner[(i / 4096) % 4]` of the iterations `i < n` that are multiples of
`SPINNER_UPDATE_FREQUENCY`, in order. -/
def spinnerGlyphs (n : Nat) : List Nat :=
  ((List.range n).filter (fun i => i % SPINNER_UPDATE_FREQUENCY = 0)).map
    (fun i => spinner.getD ((i / SPINNER_UPDATE_FREQUENCY) % 4) 0)

/-- The counter lines printed, in order, as (successful, failed). -/
def statsOf : List Event → List (Nat × Nat)
  | [] => []
  | Event.stats s f :: es => (s, f) :: statsOf es
  | _ :: es => statsOf es

/-- The events of iterations `i, i + 1, ..., i + n - 1` of a loop in which no iteration
returns, iteration `j` reading element `pos j`. -/
def visitEvents (pos : Nat → Nat) (i n : Nat) : List Event :=
  (List.range' i n).flatMap (fun j => Event.read (pos j) :: spinnerUpdate j)

/-- Element read in iteration `j` of the word sampling loops. -/
def randomWord (rand : Nat → Nat) (j : Nat) : Nat := u32 (rand j &&& 0x7FFF)

/-- Element read in iteration `j` of the byte sampling loops. -/
def randomByte (rand : Nat → Nat) (j : Nat) : Nat := u32 (rand j &&& (64 * 1024 - 1))

/-- A region filled with zero bytes. -/
def zeroRegion : Region := fun _ => 0

/-- The zero-filled region with the single byte at offset `65536 + 100` flipped to 1. -/
def flippedRegion : Region := fun a => if a = 65536 + 100 then 1 else 0

/-- The zero-filled region with the single byte at offset 1 (`1 << 0`) set to 1. -/
def lineZeroRegion : Region := fun a => if a = 1 then 1 else 0

/-- The zero-filled region with the single byte at offset 8 (`1 << 3`) set to 1. -/
def lineThreeRegion : Region := fun a => if a = 8 then 1 else 0

/-- Word index read by the address-line routine for `line`: `address >> 1` with
`address = 1 << line`. -/
def lineWord (line : Nat) : Nat := (1 <<< line) >>> 1

/-- The events of the lines `line, ..., line + n - 1` of the address-line routine when none of
them returns, each line making `reqs` requests. -/
def lineEvents (reqs line n : Nat) : List Event :=
  (List.range' line n).flatMap
    (fun l => List.replicate reqs (Event.read (lineWord l)) ++ lineSpinnerUpdate l)

/-! ## The version check

`VERSION` is a macro defined outside `main.c`; it is a parameter here: the characters of the
string literal.  `strcmp` is the C library function: two zero-terminated arrays compare equal
exactly when the strings before their first zero byte are the same. -/

/-- Events of `testDifferentVersions`. -/
inductive VersionEvent
  /-- The line `- Testing version string...`. -/
  | label
  /-- The line `Error: ROM version string mismatch. Expected: <expected>, got: <actual>`. -/
  | mismatch (expected actual : List Nat)
  /-- The line `Matches: <version>.` -/
  | matches (version : List Nat)
  deriving DecidableEq

/-- What `testDifferentVersions` does: the value returned and the lines printed. -/
structure VersionOutcome where
  ret : Nat
  out : List VersionEvent
  deriving DecidableEq

/-- The C string held in a `char` array: the characters before the first zero byte. -/
def cString : List Nat → List Nat
  | [] => []
  | c :: cs => if c = 0 then [] else c :: cString cs

/-- The test `strcmp(s1, s2) != 0` on two arrays. -/
def strcmp_differs (s1 s2 : List Nat) : Bool :=
  decide (cString s1 ≠ cString s2)

/-- Embedding of `int testDifferentVersions(unsigned char *rom_data)`: `rom_version` is the
copy of `rom_data[4..14]` followed by the zero terminator. -/
def testDifferentVersions (VERSION : List Nat) (rom_data : Region) : VersionOutcome :=
  let rom_version := (List.range 11).map (fun i => byteAt rom_data (4 + i)) ++ [0]
  if strcmp_differs rom_version (VERSION ++ [0]) then
    ⟨1, [VersionEvent.label,
         VersionEvent.mismatch (cString (VERSION ++ [0])) (cString rom_version)]⟩
  else
    ⟨0, [VersionEvent.label, VersionEvent.matches (cString (VERSION ++ [0]))]⟩

/-! ## Loading the image and the main program -/

/-- What `load_binary_file` finds: no readable file, or a file of `file_size` bytes with the
given content, and whether `malloc` and `fread` succeed. -/
inductive LoadEnv
  | cannotOpen
  | file (file_size : Nat) (content : Region) (mallocOk readOk : Bool)

/-- The three failures of `load_binary_file`, each with its line on `stderr`. -/
inductive LoadError
  | openFailed
  | allocFailed
  | readFailed
  deriving DecidableEq

/-- Embedding of `int load_binary_file(unsigned char **data, long *file_size)`: an error stands
for `return 1`, a value for `return 0` with `*data` and `*file_size`. -/
def load_binary_file : LoadEnv → Except LoadError (Region × Nat)
  | LoadEnv.cannotOpen => Except.error LoadError.openFailed
  | LoadEnv.file file_size content mallocOk readOk =>
    if !mallocOk then Except.error LoadError.allocFailed
    else if !readOk then Except.error LoadError.readFailed
    else Except.ok (content, file_size)

/-- Value of `RANDOM_ACCESS_ITERATIONS`, which depends on `_DEBUG`. -/
def RANDOM_ACCESS_ITERATIONS (debug : Bool) : Int := if debug then 1000 else 1000000

/-- Value of `ADDRESS_LINE_ITERATIONS`, which depends on `_DEBUG`. -/
def ADDRESS_LINE_ITERATIONS (debug : Bool) : Int := if debug then 1000 else 1000000

/-- Observable events of `run`, in program order. -/
inductive RunEvent
  /-- Screen set-up: `initHighResolution` or `initMedResolution`. -/
  | screenSetup (highRes : Bool)
  /-- The banner line with `VERSION`. -/
  | banner (version : List Nat)
  /-- The line `load_binary_file` writes to `stderr` when it fails. -/
  | loadError (e : LoadError)
  /-- The line `x Error: testrom.bin not found`. -/
  | notFound
  /-- The line `x Error: testrom.bin must be 128KB`. -/
  | wrongSize
  /-- The lines `- testrom.bin loaded` and `- testrom.bin size: <file_size> bytes`. -/
  | loaded (file_size : Nat)
  /-- The line `- ROM memory address final release: <address>`. -/
  | romAddress (address : Nat)
  /-- One call of `testDifferentVersions`. -/
  | version (o : VersionOutcome)
  /-- One call of a comparison routine. -/
  | test (o : Outcome)
  /-- The line `Press any key to exit...` and the wait for a key. -/
  | pressAnyKey
  /-- The call `restoreResolutionAndPalette`. -/
  | screenRestore

/-- The nineteen calls made by `run` once the image is loaded with the right size, in the order
of the source.  `rand t` is the sequence of values of `rand()` after the `t`-th call of
`srand(Random())`. -/
def runTests (VERSION : List Nat) (debug : Bool) (rom_memory data : Region)
    (rand : Nat → Nat → Nat) : List RunEvent :=
  [ RunEvent.version (testDifferentVersions VERSION rom_memory),
    RunEvent.test (testSequentialReadROM rom_memory data ROM4_BANK),
    RunEvent.test (testSequentialReadROM rom_memory data ROM3_BANK),
    RunEvent.test (testSequentialReadROMStats rom_memory data ROM4_BANK),
    RunEvent.test (testSequentialReadROMStats rom_memory data ROM3_BANK),
    RunEvent.test (testSequentialReadROMBytes rom_memory data ROM4_BANK),
    RunEvent.test (testSequentialReadROMBytes rom_memory data ROM3_BANK),
    RunEvent.test (testSequentialReadROMBytesStats rom_memory data ROM4_BANK),
    RunEvent.test (testSequentialReadROMBytesStats rom_memory data ROM3_BANK),
    RunEvent.test
      (testRandomReadROM rom_memory data ROM4_BANK (RANDOM_ACCESS_ITERATIONS debug) (rand 0)),
    RunEvent.test
      (testRandomReadROM rom_memory data ROM3_BANK (RANDOM_ACCESS_ITERATIONS debug) (rand 1)),
    RunEvent.test
      (testRandomReadROMStats rom_memory data ROM4_BANK (RANDOM_ACCESS_ITERATIONS debug)
        (rand 2)),
    RunEvent.test
      (testRandomReadROMStats rom_memory data ROM3_BANK (RANDOM_ACCESS_ITERATIONS debug)
        (rand 3)),
    RunEvent.test
      (testRandomReadROMBytes rom_memory data ROM4_BANK (RANDOM_ACCESS_ITERATIONS debug)
        (rand 4)),
    RunEvent.test
      (testRandomReadROMBytes rom_memory data ROM3_BANK (RANDOM_ACCESS_ITERATIONS debug)
        (rand 5)),
    RunEvent.test
      (testRandomReadROMBytesStats rom_memory data ROM4_BANK (RANDOM_ACCESS_ITERATIONS debug)
        (rand 6)),
    RunEvent.test
      (testRandomReadROMBytesStats rom_memory data ROM3_BANK (RANDOM_ACCESS_ITERATIONS debug)
        (rand 7)),
    RunEvent.test
      (testAddressLinesSequentialReadROM rom_memory data ROM4_BANK
        (ADDRESS_LINE_ITERATIONS debug)),
    RunEvent.test
      (testAddressLinesSequentialReadROM rom_memory data ROM3_BANK
        (ADDRESS_LINE_ITERATIONS debug)) ]

/-- Embedding of `int run()`.  `rom_memory` is the memory at `ROM_MEMORY_START`; `highRes` is
`screenContext.savedResolution == HIGH_RES`; `free(data)` leaves no trace. -/
def run (VERSION : List Nat) (debug highRes : Bool) (env : LoadEnv) (rom_memory : Region)
    (rand : Nat → Nat → Nat) : List RunEvent :=
  [RunEvent.screenSetup highRes, RunEvent.banner VERSION] ++
  (match load_binary_file env with
    | Except.ok (data, file_size) =>
      if file_size ≠ 128 * 1024 then
        [RunEvent.wrongSize]
      else
        [RunEvent.loaded file_size, RunEvent.romAddress ROM_MEMORY_START] ++
          runTests VERSION debug rom_memory data rand
    | Except.error e => [RunEvent.loadError e, RunEvent.notFound]) ++
  [RunEvent.pressAnyKey, RunEvent.screenRestore]

/-- One check made by `run`: the version check, or a comparison routine identified by the label
it prints (routine and ROM name, 4 for bank 0 and 3 for bank 1). -/
inductive Check
  | version
  | routine (test : TestId) (romName : Nat)
  | unlabelled
  deriving DecidableEq

/-- The check behind one event of `run`, if it is one. -/
def checkOf : RunEvent → Option Check
  | RunEvent.version _ => some Check.version
  | RunEvent.test o =>
    match o.out with
    | Event.label t r _ :: _ => some (Check.routine t r)
    | _ => some Check.unlabelled
  | _ => none

/-- The checks made during a run, in order. -/
def checksOf (es : List RunEvent) : List Check := es.filterMap checkOf

/-- The outcomes of the version checks made during a run, in order. -/
def versionOutcomesOf : List RunEvent → List VersionOutcome
  | [] => []
  | RunEvent.version o :: es => o :: versionOutcomesOf es
  | _ :: es => versionOutcomesOf es

/-- A device region whose bytes 4 to 14 are all the character `1`. -/
def versionOnesRegion : Region := fun a => if 4 ≤ a ∧ a < 15 then 49 else 0

/-- A device region holding the string `1.0` at offset 4 and zero bytes elsewhere. -/
def shortVersionRegion : Region :=
  fun a => if a = 4 then 49 else if a = 5 then 46 else if a = 6 then 48 else 0

/-! ## Basic facts about the shared pieces -/

theorem visitEvents_zero (pos : Nat → Nat) (i : Nat) : visitEvents pos i 0 = [] := rfl

theorem visitEvents_succ (pos : Nat → Nat) (i n : Nat) :
    visitEvents pos i (n + 1) =
      (Event.read (pos i) :: spinnerUpdate i) ++ visitEvents pos (i + 1) n := by
  simp [visitEvents, List.range'_succ]

theorem readsOf_append (xs ys : List Event) : readsOf (xs ++ ys) = readsOf xs ++ readsOf ys := by
  induction xs with
  | nil => rfl
  | cons e es ih => cases e <;> simp [readsOf, ih]

theorem mismatchesOf_append (xs ys : List Event) :
    mismatchesOf (xs ++ ys) = mismatchesOf xs ++ mismatchesOf ys := by
  induction xs with
  | nil => rfl
  | cons e es ih => cases e <;> simp [mismatchesOf, ih]

theorem statsOf_append (xs ys : List Event) : statsOf (xs ++ ys) = statsOf xs ++ statsOf ys := by
  induction xs with
  | nil => rfl
  | cons e es ih => cases e <;> simp [statsOf, ih]

theorem readsOf_spinnerUpdate (i : Nat) : readsOf (spinnerUpdate i) = [] := by
  unfold spinnerUpdate; split <;> rfl

theorem mismatchesOf_spinnerUpdate (i : Nat) : mismatchesOf (spinnerUpdate i) = [] := by
  unfold spinnerUpdate; split <;> rfl

theorem statsOf_spinnerUpdate (i : Nat) : statsOf (spinnerUpdate i) = [] := by
  unfold spinnerUpdate; split <;> rfl

theorem readsOf_visitEvents (pos : Nat → Nat) (i n : Nat) :
    readsOf (visitEvents pos i n) = (List.range' i n).map pos := by
  induction n generalizing i with
  | zero => rfl
  | succ n ih =>
    rw [visitEvents_succ, List.range'_succ]
    simp [readsOf, readsOf_append, readsOf_spinnerUpdate, ih]

theorem mismatchesOf_visitEvents (pos : Nat → Nat) (i n : Nat) :
    mismatchesOf (visitEvents pos i n) = [] := by
  induction n generalizing i with
  | zero => rfl
  | succ n ih =>
    rw [visitEvents_succ]
    simp [mismatchesOf, mismatchesOf_append, mismatchesOf_spinnerUpdate, ih]

theorem statsOf_visitEvents (pos : Nat → Nat) (i n : Nat) :
    statsOf (visitEvents pos i n) = [] := by
  induction n generalizing i with
  | zero => rfl
  | succ n ih =>
    rw [visitEvents_succ]
    simp [statsOf, statsOf_append, statsOf_spinnerUpdate, ih]

/-- Among the indices `i, ..., i + n - 1`, either all satisfy `P` or there is a least one that
does not. -/
theorem exists_first_failure (P : Nat → Prop) (i n : Nat)
    (h : ¬ ∀ j, i ≤ j → j < i + n → P j) :
    ∃ k, i ≤ k ∧ k < i + n ∧ ¬ P k ∧ ∀ j, i ≤ j → j < k → P j := by
  classical
  have hex : ∃ k, i ≤ k ∧ k < i + n ∧ ¬ P k := by
    by_contra hc
    exact h (fun j h1 h2 => by_contra (fun hne => hc ⟨j, h1, h2, hne⟩))
  refine ⟨Nat.find hex, (Nat.find_spec hex).1, (Nat.find_spec hex).2.1,
    (Nat.find_spec hex).2.2, fun j h1 h2 => ?_⟩
  by_contra hne
  exact Nat.find_min hex h2 ⟨h1, by have := (Nat.find_spec hex).2.1; omega, hne⟩

/-! ## The fail-fast loops -/

theorem testSequentialReadROM_loop_pass (rom file : Nat → Nat) (b : Nat) (n i : Nat)
    (h : ∀ j, i ≤ j → j < i + n → rom j = file j) :
    testSequentialReadROM_loop rom file b n i =
      ⟨0, visitEvents (fun j => j) i n ++ [Event.success]⟩ := by
  induction n generalizing i with
  | zero => rfl
  | succ n ih =>
    have h0 : rom i = file i := h i (Nat.le_refl i) (by omega)
    have hrest := ih (i + 1) (fun j h1 h2 => h j (by omega) (by omega))
    simp [testSequentialReadROM_loop, h0, hrest, emit, visitEvents_succ]

theorem testSequentialReadROM_loop_fail (rom file : Nat → Nat) (b : Nat) (n i k : Nat)
    (hik : i ≤ k) (hk : k < i + n) (hlt : ∀ j, i ≤ j → j < k → rom j = file j)
    (hne : rom k ≠ file k) :
    testSequentialReadROM_loop rom file b n i =
      ⟨1, visitEvents (fun j => j) i (k - i) ++
        [Event.read k, Event.mismatch (real_memory b (k * 2)) (file k) (rom k)]⟩ := by
  induction n generalizing i with
  | zero => omega
  | succ n ih =>
    by_cases hi : i = k
    · subst hi
      simp [testSequentialReadROM_loop, hne, visitEvents_zero]
    · have h0 : rom i = file i := hlt i (Nat.le_refl i) (by omega)
      have hrest := ih (i + 1) (by omega) (by omega) (fun j h1 h2 => hlt j (by omega) h2)
      have hk1 : k - i = (k - (i + 1)) + 1 := by omega
      simp [testSequentialReadROM_loop, h0, hrest, emit, hk1, visitEvents_succ]

theorem testSequentialReadROMBytes_loop_pass (rom file : Nat → Nat) (b : Nat) (n i : Nat)
    (h : ∀ j, i ≤ j → j < i + n → rom j = file j) :
    testSequentialReadROMBytes_loop rom file b n i =
      ⟨0, visitEvents (fun j => j) i n ++ [Event.success]⟩ := by
  induction n generalizing i with
  | zero => rfl
  | succ n ih =>
    have h0 : rom i = file i := h i (Nat.le_refl i) (by omega)
    have hrest := ih (i + 1) (fun j h1 h2 => h j (by omega) (by omega))
    simp [testSequentialReadROMBytes_loop, h0, hrest, emit, visitEvents_succ]

theorem testSequentialReadROMBytes_loop_fail (rom file : Nat → Nat) (b : Nat) (n i k : Nat)
    (hik : i ≤ k) (hk : k < i + n) (hlt : ∀ j, i ≤ j → j < k → rom j = file j)
    (hne : rom k ≠ file k) :
    testSequentialReadROMBytes_loop rom file b n i =
      ⟨1, visitEvents (fun j => j) i (k - i) ++
        [Event.read k, Event.mismatch (real_memory b k) (file k) (rom k)]⟩ := by
  induction n generalizing i with
  | zero => omega
  | succ n ih =>
    by_cases hi : i = k
    · subst hi
      simp [testSequentialReadROMBytes_loop, hne, visitEvents_zero]
    · have h0 : rom i = file i := hlt i (Nat.le_refl i) (by omega)
      have hrest := ih (i + 1) (by omega) (by omega) (fun j h1 h2 => hlt j (by omega) h2)
      have hk1 : k - i = (k - (i + 1)) + 1 := by omega
      simp [testSequentialReadROMBytes_loop, h0, hrest, emit, hk1, visitEvents_succ]

theorem testRandomReadROM_loop_pass (rom file : Nat → Nat) (b : Nat) (rand : Nat → Nat)
    (n i : Nat)
    (h : ∀ j, i ≤ j → j < i + n → rom (randomWord rand j) = file (randomWord rand j)) :
    testRandomReadROM_loop rom file b rand n i =
      ⟨0, visitEvents (randomWord rand) i n ++ [Event.success]⟩ := by
  induction n generalizing i with
  | zero => rfl
  | succ n ih =>
    have h0 := h i (Nat.le_refl i) (by omega)
    have hrest := ih (i + 1) (fun j h1 h2 => h j (by omega) (by omega))
    simp only [randomWord] at h0
    simp [testRandomReadROM_loop, h0, hrest, emit, visitEvents_succ, randomWord]

theorem testRandomReadROM_loop_fail (rom file : Nat → Nat) (b : Nat) (rand : Nat → Nat)
    (n i k : Nat) (hik : i ≤ k) (hk : k < i + n)
    (hlt : ∀ j, i ≤ j → j < k → rom (randomWord rand j) = file (randomWord rand j))
    (hne : rom (randomWord rand k) ≠ file (randomWord rand k)) :
    testRandomReadROM_loop rom file b rand n i =
      ⟨1, visitEvents (randomWord rand) i (k - i) ++
        [Event.read (randomWord rand k),
         Event.mismatch (real_memory b (randomWord rand k * 2))
           (file (randomWord rand k)) (rom (randomWord rand k))]⟩ := by
  induction n generalizing i with
  | zero => omega
  | succ n ih =>
    by_cases hi : i = k
    · subst hi
      simp only [randomWord] at hne
      simp [testRandomReadROM_loop, hne, visitEvents_zero, randomWord]
    · have h0 := hlt i (Nat.le_refl i) (by omega)
      have hrest := ih (i + 1) (by omega) (by omega) (fun j h1 h2 => hlt j (by omega) h2)
      have hk1 : k - i = (k - (i + 1)) + 1 := by omega
      simp only [randomWord] at h0
      simp [testRandomReadROM_loop, h0, hrest, emit, hk1, visitEvents_succ, randomWord]

theorem testRandomReadROMBytes_loop_pass (rom file : Nat → Nat) (b : Nat) (rand : Nat → Nat)
    (n i : Nat)
    (h : ∀ j, i ≤ j → j < i + n → rom (randomByte rand j) = file (randomByte rand j)) :
    testRandomReadROMBytes_loop rom file b rand n i =
      ⟨0, visitEvents (randomByte rand) i n ++ [Event.success]⟩ := by
  induction n generalizing i with
  | zero => rfl
  | succ n ih =>
    have h0 := h i (Nat.le_refl i) (by omega)
    have hrest := ih (i + 1) (fun j h1 h2 => h j (by omega) (by omega))
    simp only [randomByte] at h0
    simp [testRandomReadROMBytes_loop, h0, hrest, emit, visitEvents_succ, randomByte]

theorem testRandomReadROMBytes_loop_fail (rom file : Nat → Nat) (b : Nat) (rand : Nat → Nat)
    (n i k : Nat) (hik : i ≤ k) (hk : k < i + n)
    (hlt : ∀ j, i ≤ j → j < k → rom (randomByte rand j) = file (randomByte rand j))
    (hne : rom (randomByte rand k) ≠ file (randomByte rand k)) :
    testRandomReadROMBytes_loop rom file b rand n i =
      ⟨1, visitEvents (randomByte rand) i (k - i) ++
        [Event.read (randomByte rand k),
         Event.mismatch (real_memory b (randomByte rand k))
           (file (randomByte rand k)) (rom (randomByte rand k))]⟩ := by
  induction n generalizing i with
  | zero => omega
  | succ n ih =>
    by_cases hi : i = k
    · subst hi
      simp only [randomByte] at hne
      simp [testRandomReadROMBytes_loop, hne, visitEvents_zero, randomByte]
    · have h0 := hlt i (Nat.le_refl i) (by omega)
      have hrest := ih (i + 1) (by omega) (by omega) (fun j h1 h2 => hlt j (by omega) h2)
      have hk1 : k - i = (k - (i + 1)) + 1 := by omega
      simp only [randomByte] at h0
      simp [testRandomReadROMBytes_loop, h0, hrest, emit, hk1, visitEvents_succ, randomByte]

/-! ## The stats loops -/

theorem testSequentialReadROMStats_loop_spec (rom file : Nat → Nat) (n i : Nat) (st : Stats) :
    testSequentialReadROMStats_loop rom file n i st =
      ⟨st.successful_requests + (List.range' i n).countP (fun j => rom j = file j),
       st.failed_requests + (List.range' i n).countP (fun j => rom j ≠ file j),
       st.out ++ visitEvents (fun j => j) i n⟩ := by
  induction n generalizing i st with
  | zero => simp [testSequentialReadROMStats_loop, visitEvents_zero]
  | succ n ih =>
    rw [testSequentialReadROMStats_loop, ih, List.range'_succ, visitEvents_succ]
    by_cases h0 : rom i = file i
    · simp [countRequest, h0, Nat.add_assoc, Nat.add_comm 1]
    · simp [countRequest, h0, Nat.add_assoc, Nat.add_comm 1]

theorem testSequentialReadROMStats_loop_split (rom file : Nat → Nat) (m n i : Nat) (st : Stats) :
    testSequentialReadROMStats_loop rom file (m + n) i st =
      testSequentialReadROMStats_loop rom file n (i + m) (testSequentialReadROMStats_loop rom file m i st) := by
  induction m generalizing i st with
  | zero => simp [testSequentialReadROMStats_loop]
  | succ m ih =>
    have h : m + 1 + n = (m + n) + 1 := by omega
    have h2 : i + (m + 1) = i + 1 + m := by omega
    rw [h, h2, testSequentialReadROMStats_loop, testSequentialReadROMStats_loop, ih]

theorem testSequentialReadROMBytesStats_loop_spec (rom file : Nat → Nat) (n i : Nat) (st : Stats) :
    testSequentialReadROMBytesStats_loop rom file n i st =
      ⟨st.successful_requests + (List.range' i n).countP (fun j => rom j = file j),
       st.failed_requests + (List.range' i n).countP (fun j => rom j ≠ file j),
       st.out ++ visitEvents (fun j => j) i n⟩ := by
  induction n generalizing i st with
  | zero => simp [testSequentialReadROMBytesStats_loop, visitEvents_zero]
  | succ n ih =>
    rw [testSequentialReadROMBytesStats_loop, ih, List.range'_succ, visitEvents_succ]
    by_cases h0 : rom i = file i
    · simp [countRequest, h0, Nat.add_assoc, Nat.add_comm 1]
    · simp [countRequest, h0, Nat.add_assoc, Nat.add_comm 1]

theorem testSequentialReadROMBytesStats_loop_split (rom file : Nat → Nat) (m n i : Nat) (st : Stats) :
    testSequentialReadROMBytesStats_loop rom file (m + n) i st =
      testSequentialReadROMBytesStats_loop rom file n (i + m) (testSequentialReadROMBytesStats_loop rom file m i st) := by
  induction m generalizing i st with
  | zero => simp [testSequentialReadROMBytesStats_loop]
  | succ m ih =>
    have h : m + 1 + n = (m + n) + 1 := by omega
    have h2 : i + (m + 1) = i + 1 + m := by omega
    rw [h, h2, testSequentialReadROMBytesStats_loop, testSequentialReadROMBytesStats_loop, ih]

theorem testRandomReadROMStats_loop_spec (rom file : Nat → Nat) (rand : Nat → Nat) (n i : Nat) (st : Stats) :
    testRandomReadROMStats_loop rom file rand n i st =
      ⟨st.successful_requests + (List.range' i n).countP (fun j => rom (randomWord rand j) = file (randomWord rand j)),
       st.failed_requests + (List.range' i n).countP (fun j => rom (randomWord rand j) ≠ file (randomWord rand j)),
       st.out ++ visitEvents (randomWord rand) i n⟩ := by
  induction n generalizing i st with
  | zero => simp [testRandomReadROMStats_loop, visitEvents_zero]
  | succ n ih =>
    rw [testRandomReadROMStats_loop, ih, List.range'_succ, visitEvents_succ]
    by_cases h0 : rom (randomWord rand i) = file (randomWord rand i)
    · simp only [randomWord] at h0
      simp [countRequest, h0, randomWord, Nat.add_assoc, Nat.add_comm 1]
    · simp only [randomWord] at h0
      simp [countRequest, h0, randomWord, Nat.add_assoc, Nat.add_comm 1]

theorem testRandomReadROMStats_loop_split (rom file : Nat → Nat) (rand : Nat → Nat) (m n i : Nat) (st : Stats) :
    testRandomReadROMStats_loop rom file rand (m + n) i st =
      testRandomReadROMStats_loop rom file rand n (i + m) (testRandomReadROMStats_loop rom file rand m i st) := by
  induction m generalizing i st with
  | zero => simp [testRandomReadROMStats_loop]
  | succ m ih =>
    have h : m + 1 + n = (m + n) + 1 := by omega
    have h2 : i + (m + 1) = i + 1 + m := by omega
    rw [h, h2, testRandomReadROMStats_loop, testRandomReadROMStats_loop, ih]

theorem testRandomReadROMBytesStats_loop_spec (rom file : Nat → Nat) (rand : Nat → Nat) (n i : Nat) (st : Stats) :
    testRandomReadROMBytesStats_loop rom file rand n i st =
      ⟨st.successful_requests + (List.range' i n).countP (fun j => rom (randomByte rand j) = file (randomByte rand j)),
       st.failed_requests + (List.range' i n).countP (fun j => rom (randomByte rand j) ≠ file (randomByte rand j)),
       st.out ++ visitEvents (randomByte rand) i n⟩ := by
  induction n generalizing i st with
  | zero => simp [testRandomReadROMBytesStats_loop, visitEvents_zero]
  | succ n ih =>
    rw [testRandomReadROMBytesStats_loop, ih, List.range'_succ, visitEvents_succ]
    by_cases h0 : rom (randomByte rand i) = file (randomByte rand i)
    · simp only [randomByte] at h0
      simp [countRequest, h0, randomByte, Nat.add_assoc, Nat.add_comm 1]
    · simp only [randomByte] at h0
      simp [countRequest, h0, randomByte, Nat.add_assoc, Nat.add_comm 1]

theorem testRandomReadROMBytesStats_loop_split (rom file : Nat → Nat) (rand : Nat → Nat) (m n i : Nat) (st : Stats) :
    testRandomReadROMBytesStats_loop rom file rand (m + n) i st =
      testRandomReadROMBytesStats_loop rom file rand n (i + m) (testRandomReadROMBytesStats_loop rom file rand m i st) := by
  induction m generalizing i st with
  | zero => simp [testRandomReadROMBytesStats_loop]
  | succ m ih =>
    have h : m + 1 + n = (m + n) + 1 := by omega
    have h2 : i + (m + 1) = i + 1 + m := by omega
    rw [h, h2, testRandomReadROMBytesStats_loop, testRandomReadROMBytesStats_loop, ih]

/-! ## Where the loops read -/

theorem randomWord_lt (rand : Nat → Nat) (j : Nat) : randomWord rand j < 32768 := by
  have h : rand j &&& 0x7FFF ≤ 0x7FFF := Nat.and_le_right
  unfold randomWord u32
  omega

theorem randomByte_lt (rand : Nat → Nat) (j : Nat) : randomByte rand j < 65536 := by
  have h : rand j &&& (64 * 1024 - 1) ≤ 64 * 1024 - 1 := Nat.and_le_right
  unfold randomByte u32
  omega

/-- The word index read for address line `line` is `2 ^ (line - 1)`. -/
theorem lineWord_eq (line : Nat) (h1 : 1 ≤ line) : (1 <<< line) >>> 1 = 2 ^ (line - 1) := by
  obtain ⟨l, rfl⟩ : ∃ l, line = l + 1 := ⟨line - 1, by omega⟩
  rw [Nat.one_shiftLeft, Nat.shiftRight_eq_div_pow, Nat.pow_succ]
  simp

theorem lineWord_lt (line : Nat) (h1 : 1 ≤ line) (h2 : line ≤ 14) : (1 <<< line) >>> 1 < 32768 := by
  rw [lineWord_eq line h1]
  have h : 2 ^ (line - 1) ≤ 2 ^ 13 := Nat.pow_le_pow_right (by decide) (by omega)
  omega

theorem wordAt_window (rom rom2 : Region) (b j : Nat) (hj : j < 32768)
    (h : ∀ a, b * 65536 ≤ a → a < (b + 1) * 65536 → rom a = rom2 a) :
    wordAt rom (b * 64 * 1024 / 2 + j) = wordAt rom2 (b * 64 * 1024 / 2 + j) := by
  unfold wordAt
  rw [h (2 * (b * 64 * 1024 / 2 + j)) (by omega) (by omega),
    h (2 * (b * 64 * 1024 / 2 + j) + 1) (by omega) (by omega)]

theorem byteAt_window (rom rom2 : Region) (b j : Nat) (hj : j < 65536)
    (h : ∀ a, b * 65536 ≤ a → a < (b + 1) * 65536 → rom a = rom2 a) :
    byteAt rom (b * 64 * 1024 + j) = byteAt rom2 (b * 64 * 1024 + j) := by
  unfold byteAt
  rw [h (b * 64 * 1024 + j) (by omega) (by omega)]

/-- Two words are equal exactly when both of their bytes are. -/
theorem wordAt_eq_iff (rom file : Region) (w : Nat) :
    wordAt rom w = wordAt file w ↔
      rom (2 * w) = file (2 * w) ∧ rom (2 * w + 1) = file (2 * w + 1) := by
  unfold wordAt
  constructor
  · intro h
    have h1 := (rom (2 * w)).isLt
    have h2 := (rom (2 * w + 1)).isLt
    have h3 := (file (2 * w)).isLt
    have h4 := (file (2 * w + 1)).isLt
    exact ⟨Fin.ext (by omega), Fin.ext (by omega)⟩
  · rintro ⟨h1, h2⟩
    rw [h1, h2]

/-! ## Address arithmetic -/

theorem real_memory_eq (b delta : Nat) (hb : b ≤ 1) (hd : delta < 65536) :
    real_memory b delta = b * 65536 + 0xFA0000 + delta := by
  unfold real_memory u32 ROM4_MEMORY_START ROM_MEMORY_START
  omega

/-! ## The loops only depend on what they read -/

theorem testSequentialReadROM_loop_congr (rom file rom2 file2 : Nat → Nat) (b : Nat) (n i : Nat)
    (hr : ∀ j, i ≤ j → j < i + n → rom j = rom2 j)
    (hf : ∀ j, i ≤ j → j < i + n → file j = file2 j) :
    testSequentialReadROM_loop rom file b n i = testSequentialReadROM_loop rom2 file2 b n i := by
  induction n generalizing i with
  | zero => rfl
  | succ n ih =>
    simp only [testSequentialReadROM_loop]
    rw [hr i (Nat.le_refl i) (by omega), hf i (Nat.le_refl i) (by omega),
      ih (i + 1) (fun j h1 h2 => hr j (by omega) (by omega))
        (fun j h1 h2 => hf j (by omega) (by omega))]

theorem testSequentialReadROMBytes_loop_congr (rom file rom2 file2 : Nat → Nat) (b : Nat) (n i : Nat)
    (hr : ∀ j, i ≤ j → j < i + n → rom j = rom2 j)
    (hf : ∀ j, i ≤ j → j < i + n → file j = file2 j) :
    testSequentialReadROMBytes_loop rom file b n i = testSequentialReadROMBytes_loop rom2 file2 b n i := by
  induction n generalizing i with
  | zero => rfl
  | succ n ih =>
    simp only [testSequentialReadROMBytes_loop]
    rw [hr i (Nat.le_refl i) (by omega), hf i (Nat.le_refl i) (by omega),
      ih (i + 1) (fun j h1 h2 => hr j (by omega) (by omega))
        (fun j h1 h2 => hf j (by omega) (by omega))]

theorem testSequentialReadROMStats_loop_congr (rom file rom2 file2 : Nat → Nat) (n i : Nat) (st : Stats)
    (hr : ∀ j, i ≤ j → j < i + n → rom j = rom2 j)
    (hf : ∀ j, i ≤ j → j < i + n → file j = file2 j) :
    testSequentialReadROMStats_loop rom file n i st = testSequentialReadROMStats_loop rom2 file2 n i st := by
  induction n generalizing i st with
  | zero => rfl
  | succ n ih =>
    simp only [testSequentialReadROMStats_loop]
    rw [hr i (Nat.le_refl i) (by omega), hf i (Nat.le_refl i) (by omega),
      ih (i + 1) _ (fun j h1 h2 => hr j (by omega) (by omega))
        (fun j h1 h2 => hf j (by omega) (by omega))]

theorem testSequentialReadROMBytesStats_loop_congr (rom file rom2 file2 : Nat → Nat) (n i : Nat) (st : Stats)
    (hr : ∀ j, i ≤ j → j < i + n → rom j = rom2 j)
    (hf : ∀ j, i ≤ j → j < i + n → file j = file2 j) :
    testSequentialReadROMBytesStats_loop rom file n i st = testSequentialReadROMBytesStats_loop rom2 file2 n i st := by
  induction n generalizing i st with
  | zero => rfl
  | succ n ih =>
    simp only [testSequentialReadROMBytesStats_loop]
    rw [hr i (Nat.le_refl i) (by omega), hf i (Nat.le_refl i) (by omega),
      ih (i + 1) _ (fun j h1 h2 => hr j (by omega) (by omega))
        (fun j h1 h2 => hf j (by omega) (by omega))]

theorem testRandomReadROM_loop_congr (rom file rom2 file2 : Nat → Nat) (b : Nat) (rand : Nat → Nat)
    (n i : Nat) (hr : ∀ j, j < 32768 → rom j = rom2 j)
    (hf : ∀ j, j < 32768 → file j = file2 j) :
    testRandomReadROM_loop rom file b rand n i = testRandomReadROM_loop rom2 file2 b rand n i := by
  induction n generalizing i with
  | zero => rfl
  | succ n ih =>
    have hp := randomWord_lt rand i
    simp only [randomWord] at hp
    simp only [testRandomReadROM_loop]
    rw [hr _ hp, hf _ hp, ih (i + 1)]

theorem testRandomReadROMBytes_loop_congr (rom file rom2 file2 : Nat → Nat) (b : Nat) (rand : Nat → Nat)
    (n i : Nat) (hr : ∀ j, j < 65536 → rom j = rom2 j)
    (hf : ∀ j, j < 65536 → file j = file2 j) :
    testRandomReadROMBytes_loop rom file b rand n i = testRandomReadROMBytes_loop rom2 file2 b rand n i := by
  induction n generalizing i with
  | zero => rfl
  | succ n ih =>
    have hp := randomByte_lt rand i
    simp only [randomByte] at hp
    simp only [testRandomReadROMBytes_loop]
    rw [hr _ hp, hf _ hp, ih (i + 1)]

theorem testRandomReadROMStats_loop_congr (rom file rom2 file2 : Nat → Nat) (rand : Nat → Nat)
    (n i : Nat) (st : Stats) (hr : ∀ j, j < 32768 → rom j = rom2 j)
    (hf : ∀ j, j < 32768 → file j = file2 j) :
    testRandomReadROMStats_loop rom file rand n i st = testRandomReadROMStats_loop rom2 file2 rand n i st := by
  induction n generalizing i st with
  | zero => rfl
  | succ n ih =>
    have hp := randomWord_lt rand i
    simp only [randomWord] at hp
    simp only [testRandomReadROMStats_loop]
    rw [hr _ hp, hf _ hp, ih (i + 1)]

theorem testRandomReadROMBytesStats_loop_congr (rom file rom2 file2 : Nat → Nat) (rand : Nat → Nat)
    (n i : Nat) (st : Stats) (hr : ∀ j, j < 65536 → rom j = rom2 j)
    (hf : ∀ j, j < 65536 → file j = file2 j) :
    testRandomReadROMBytesStats_loop rom file rand n i st = testRandomReadROMBytesStats_loop rom2 file2 rand n i st := by
  induction n generalizing i st with
  | zero => rfl
  | succ n ih =>
    have hp := randomByte_lt rand i
    simp only [randomByte] at hp
    simp only [testRandomReadROMBytesStats_loop]
    rw [hr _ hp, hf _ hp, ih (i + 1)]

theorem testAddressLinesSequentialReadROM_requests_congr (rom file rom2 file2 : Nat → Nat)
    (b line n : Nat) (hr : rom ((1 <<< line) >>> 1) = rom2 ((1 <<< line) >>> 1))
    (hf : file ((1 <<< line) >>> 1) = file2 ((1 <<< line) >>> 1)) :
    testAddressLinesSequentialReadROM_requests rom file b line n =
      testAddressLinesSequentialReadROM_requests rom2 file2 b line n := by
  induction n with
  | zero => rfl
  | succ n ih =>
    simp only [testAddressLinesSequentialReadROM_requests]
    rw [hr, hf, ih]

theorem testAddressLinesSequentialReadROM_lines_congr (rom file rom2 file2 : Nat → Nat)
    (b : Nat) (num_requests : Int) (n line : Nat)
    (hr : ∀ l, line ≤ l → l < line + n → rom ((1 <<< l) >>> 1) = rom2 ((1 <<< l) >>> 1))
    (hf : ∀ l, line ≤ l → l < line + n → file ((1 <<< l) >>> 1) = file2 ((1 <<< l) >>> 1)) :
    testAddressLinesSequentialReadROM_lines rom file b num_requests n line =
      testAddressLinesSequentialReadROM_lines rom2 file2 b num_requests n line := by
  induction n generalizing line with
  | zero => rfl
  | succ n ih =>
    simp only [testAddressLinesSequentialReadROM_lines]
    rw [testAddressLinesSequentialReadROM_requests_congr rom file rom2 file2 b line _
        (hr line (Nat.le_refl line) (by omega)) (hf line (Nat.le_refl line) (by omega)),
      ih (line + 1) (fun l h1 h2 => hr l (by omega) (by omega))
        (fun l h1 h2 => hf l (by omega) (by omega))]

/-! ## The address-line loops -/

theorem lineEvents_zero (reqs line : Nat) : lineEvents reqs line 0 = [] := rfl

theorem lineEvents_succ (reqs line n : Nat) :
    lineEvents reqs line (n + 1) =
      (List.replicate reqs (Event.read (lineWord line)) ++ lineSpinnerUpdate line) ++
        lineEvents reqs (line + 1) n := by
  simp [lineEvents, List.range'_succ]

theorem testAddressLinesSequentialReadROM_requests_match (rom file : Nat → Nat)
    (b line n : Nat) (h : rom (lineWord line) = file (lineWord line)) :
    testAddressLinesSequentialReadROM_requests rom file b line n =
      (List.replicate n (Event.read (lineWord line)), false) := by
  induction n with
  | zero => rfl
  | succ n ih =>
    simp only [lineWord] at h
    simp [testAddressLinesSequentialReadROM_requests, h, ih, lineWord, List.replicate_succ]

theorem testAddressLinesSequentialReadROM_requests_differ (rom file : Nat → Nat)
    (b line n : Nat) (h : rom (lineWord line) ≠ file (lineWord line)) :
    testAddressLinesSequentialReadROM_requests rom file b line (n + 1) =
      ([Event.read (lineWord line),
        Event.lineMismatch (real_memory b (1 <<< line)) line
          (file (lineWord line)) (rom (lineWord line))], true) := by
  simp only [lineWord] at h
  simp [testAddressLinesSequentialReadROM_requests, h, lineWord]

theorem testAddressLinesSequentialReadROM_lines_pass (rom file : Nat → Nat) (b : Nat)
    (num_requests : Int) (n line : Nat)
    (h : ∀ l, line ≤ l → l < line + n → rom (lineWord l) = file (lineWord l)) :
    testAddressLinesSequentialReadROM_lines rom file b num_requests n line =
      ⟨0, lineEvents num_requests.toNat line n ++ [Event.success]⟩ := by
  induction n generalizing line with
  | zero => rfl
  | succ n ih =>
    have h0 := h line (Nat.le_refl line) (by omega)
    have hrest := ih (line + 1) (fun l h1 h2 => h l (by omega) (by omega))
    simp [testAddressLinesSequentialReadROM_lines,
      testAddressLinesSequentialReadROM_requests_match rom file b line _ h0, hrest, emit,
      lineEvents_succ]

theorem testAddressLinesSequentialReadROM_lines_idle (rom file : Nat → Nat) (b : Nat)
    (num_requests : Int) (n line : Nat) (h : num_requests.toNat = 0) :
    testAddressLinesSequentialReadROM_lines rom file b num_requests n line =
      ⟨0, lineEvents 0 line n ++ [Event.success]⟩ := by
  induction n generalizing line with
  | zero => rfl
  | succ n ih =>
    simp [testAddressLinesSequentialReadROM_lines, h,
      testAddressLinesSequentialReadROM_requests, ih, emit, lineEvents_succ]

theorem testAddressLinesSequentialReadROM_lines_fail (rom file : Nat → Nat) (b : Nat)
    (num_requests : Int) (n line k : Nat) (hreq : 0 < num_requests.toNat)
    (hk1 : line ≤ k) (hk2 : k < line + n)
    (hlt : ∀ l, line ≤ l → l < k → rom (lineWord l) = file (lineWord l))
    (hne : rom (lineWord k) ≠ file (lineWord k)) :
    testAddressLinesSequentialReadROM_lines rom file b num_requests n line =
      ⟨1, lineEvents num_requests.toNat line (k - line) ++
        [Event.read (lineWord k),
         Event.lineMismatch (real_memory b (1 <<< k)) k
           (file (lineWord k)) (rom (lineWord k))]⟩ := by
  obtain ⟨r, hr⟩ : ∃ r, num_requests.toNat = r + 1 := ⟨num_requests.toNat - 1, by omega⟩
  induction n generalizing line with
  | zero => omega
  | succ n ih =>
    by_cases hi : line = k
    · subst hi
      simp [testAddressLinesSequentialReadROM_lines, hr,
        testAddressLinesSequentialReadROM_requests_differ rom file b line r hne,
        lineEvents_zero]
    · have h0 := hlt line (Nat.le_refl line) (by omega)
      have hrest := ih (line + 1) (by omega) (by omega) (fun l h1 h2 => hlt l (by omega) h2)
      have hkk : k - line = (k - (line + 1)) + 1 := by omega
      simp [testAddressLinesSequentialReadROM_lines,
        testAddressLinesSequentialReadROM_requests_match rom file b line _ h0, hrest, emit,
        hkk, lineEvents_succ, hr]

theorem readsOf_lineSpinnerUpdate (l : Nat) : readsOf (lineSpinnerUpdate l) = [] := by
  unfold lineSpinnerUpdate; split <;> rfl

theorem mismatchesOf_lineSpinnerUpdate (l : Nat) : mismatchesOf (lineSpinnerUpdate l) = [] := by
  unfold lineSpinnerUpdate; split <;> rfl

theorem readsOf_replicate_read (r w : Nat) :
    readsOf (List.replicate r (Event.read w)) = List.replicate r w := by
  induction r with
  | zero => rfl
  | succ r ih => simp [List.replicate_succ, readsOf, ih]

theorem mismatchesOf_replicate_read (r w : Nat) :
    mismatchesOf (List.replicate r (Event.read w)) = [] := by
  induction r with
  | zero => rfl
  | succ r ih => simp [List.replicate_succ, mismatchesOf, ih]

theorem readsOf_lineEvents (reqs line n : Nat) :
    readsOf (lineEvents reqs line n) =
      (List.range' line n).flatMap (fun l => List.replicate reqs (lineWord l)) := by
  induction n generalizing line with
  | zero => rfl
  | succ n ih =>
    rw [lineEvents_succ, List.range'_succ]
    simp [readsOf_append, readsOf_replicate_read, readsOf_lineSpinnerUpdate, ih]

theorem mismatchesOf_lineEvents (reqs line n : Nat) :
    mismatchesOf (lineEvents reqs line n) = [] := by
  induction n generalizing line with
  | zero => rfl
  | succ n ih =>
    rw [lineEvents_succ]
    simp [mismatchesOf_append, mismatchesOf_replicate_read, mismatchesOf_lineSpinnerUpdate, ih]

/-! ## The sequential fail-fast routines as a whole -/

theorem testSequentialReadROM_pass (rom_data file_data : Region) (rombank : Nat)
    (h : ∀ w, w < 32768 →
      wordAt rom_data (rombank * 32768 + w) = wordAt file_data (rombank * 32768 + w)) :
    testSequentialReadROM rom_data file_data rombank =
      ⟨0, Event.label TestId.sequentialReadROM (romName rombank) none ::
        (visitEvents (fun j => j) 0 32768 ++ [Event.success])⟩ := by
  have e : rombank * 64 * 1024 / 2 = rombank * 32768 := by omega
  unfold testSequentialReadROM
  simp only [e]
  rw [testSequentialReadROM_loop_pass _ _ _ _ _ (fun j _ h2 => h j (by omega))]
  simp [emit]

theorem testSequentialReadROM_fail (rom_data file_data : Region) (rombank k : Nat)
    (hk : k < 32768)
    (hne : wordAt rom_data (rombank * 32768 + k) ≠ wordAt file_data (rombank * 32768 + k))
    (hlt : ∀ j, j < k →
      wordAt rom_data (rombank * 32768 + j) = wordAt file_data (rombank * 32768 + j)) :
    testSequentialReadROM rom_data file_data rombank =
      ⟨1, Event.label TestId.sequentialReadROM (romName rombank) none ::
        (visitEvents (fun j => j) 0 k ++
          [Event.read k,
           Event.mismatch (real_memory rombank (k * 2))
             (wordAt file_data (rombank * 32768 + k))
             (wordAt rom_data (rombank * 32768 + k))])⟩ := by
  have e : rombank * 64 * 1024 / 2 = rombank * 32768 := by omega
  unfold testSequentialReadROM
  simp only [e]
  rw [testSequentialReadROM_loop_fail _ _ _ _ 0 k (Nat.zero_le k) (by omega)
    (fun j _ h2 => hlt j h2) hne]
  simp [emit]

theorem testSequentialReadROMBytes_pass (rom_data file_data : Region) (rombank : Nat)
    (h : ∀ a, a < 65536 → rom_data (rombank * 65536 + a) = file_data (rombank * 65536 + a)) :
    testSequentialReadROMBytes rom_data file_data rombank =
      ⟨0, Event.label TestId.sequentialReadROMBytes (romName rombank) none ::
        (visitEvents (fun j => j) 0 65536 ++ [Event.success])⟩ := by
  have e : rombank * 64 * 1024 = rombank * 65536 := by omega
  unfold testSequentialReadROMBytes
  simp only [e]
  rw [testSequentialReadROMBytes_loop_pass _ _ _ _ _
    (fun j _ h2 => by simp only [byteAt]; rw [h j (by omega)])]
  simp [emit]

theorem testSequentialReadROMBytes_fail (rom_data file_data : Region) (rombank k : Nat)
    (hk : k < 65536)
    (hne : rom_data (rombank * 65536 + k) ≠ file_data (rombank * 65536 + k))
    (hlt : ∀ j, j < k → rom_data (rombank * 65536 + j) = file_data (rombank * 65536 + j)) :
    testSequentialReadROMBytes rom_data file_data rombank =
      ⟨1, Event.label TestId.sequentialReadROMBytes (romName rombank) none ::
        (visitEvents (fun j => j) 0 k ++
          [Event.read k,
           Event.mismatch (real_memory rombank k)
             (byteAt file_data (rombank * 65536 + k))
             (byteAt rom_data (rombank * 65536 + k))])⟩ := by
  have e : rombank * 64 * 1024 = rombank * 65536 := by omega
  unfold testSequentialReadROMBytes
  simp only [e]
  rw [testSequentialReadROMBytes_loop_fail _ _ _ _ 0 k (Nat.zero_le k) (by omega)
    (fun j _ h2 => by simp only [byteAt]; rw [hlt j h2])
    (fun hc => hne (Fin.ext hc))]
  simp [emit]

theorem testSequentialReadROM_ret_zero_iff (rom_data file_data : Region) (rombank : Nat) :
    (testSequentialReadROM rom_data file_data rombank).ret = 0 ↔
      ∀ w, w < 32768 →
        wordAt rom_data (rombank * 32768 + w) = wordAt file_data (rombank * 32768 + w) := by
  constructor
  · intro h0
    by_contra hall
    obtain ⟨k, _, hk, hne, hlt⟩ := exists_first_failure
      (fun w => wordAt rom_data (rombank * 32768 + w) = wordAt file_data (rombank * 32768 + w))
      0 32768 (fun hc => hall (fun w hw => hc w (Nat.zero_le w) (by omega)))
    rw [testSequentialReadROM_fail rom_data file_data rombank k (by omega) hne
      (fun j hj => hlt j (Nat.zero_le j) hj)] at h0
    simp at h0
  · intro h
    rw [testSequentialReadROM_pass rom_data file_data rombank h]

theorem testSequentialReadROM_ret_le_one (rom_data file_data : Region) (rombank : Nat) :
    (testSequentialReadROM rom_data file_data rombank).ret = 0 ∨
      (testSequentialReadROM rom_data file_data rombank).ret = 1 := by
  by_cases hall : ∀ w, w < 32768 →
      wordAt rom_data (rombank * 32768 + w) = wordAt file_data (rombank * 32768 + w)
  · left
    rw [testSequentialReadROM_pass rom_data file_data rombank hall]
  · right
    obtain ⟨k, _, hk, hne, hlt⟩ := exists_first_failure
      (fun w => wordAt rom_data (rombank * 32768 + w) = wordAt file_data (rombank * 32768 + w))
      0 32768 (fun hc => hall (fun w hw => hc w (Nat.zero_le w) (by omega)))
    rw [testSequentialReadROM_fail rom_data file_data rombank k (by omega) hne
      (fun j hj => hlt j (Nat.zero_le j) hj)]

theorem testSequentialReadROMBytes_ret_zero_iff (rom_data file_data : Region) (rombank : Nat) :
    (testSequentialReadROMBytes rom_data file_data rombank).ret = 0 ↔
      ∀ a, a < 65536 → rom_data (rombank * 65536 + a) = file_data (rombank * 65536 + a) := by
  constructor
  · intro h0
    by_contra hall
    obtain ⟨k, _, hk, hne, hlt⟩ := exists_first_failure
      (fun a => rom_data (rombank * 65536 + a) = file_data (rombank * 65536 + a))
      0 65536 (fun hc => hall (fun w hw => hc w (Nat.zero_le w) (by omega)))
    rw [testSequentialReadROMBytes_fail rom_data file_data rombank k (by omega) hne
      (fun j hj => hlt j (Nat.zero_le j) hj)] at h0
    simp at h0
  · intro h
    rw [testSequentialReadROMBytes_pass rom_data file_data rombank h]

theorem testSequentialReadROMBytes_ret_le_one (rom_data file_data : Region) (rombank : Nat) :
    (testSequentialReadROMBytes rom_data file_data rombank).ret = 0 ∨
      (testSequentialReadROMBytes rom_data file_data rombank).ret = 1 := by
  by_cases hall : ∀ a, a < 65536 →
      rom_data (rombank * 65536 + a) = file_data (rombank * 65536 + a)
  · left
    rw [testSequentialReadROMBytes_pass rom_data file_data rombank hall]
  · right
    obtain ⟨k, _, hk, hne, hlt⟩ := exists_first_failure
      (fun a => rom_data (rombank * 65536 + a) = file_data (rombank * 65536 + a))
      0 65536 (fun hc => hall (fun w hw => hc w (Nat.zero_le w) (by omega)))
    rw [testSequentialReadROMBytes_fail rom_data file_data rombank k (by omega) hne
      (fun j hj => hlt j (Nat.zero_le j) hj)]

/-! ## The stats routines as a whole -/

theorem countP_eq_add_countP_ne (f g : Nat → Nat) (l : List Nat) :
    l.countP (fun j => f j = g j) + l.countP (fun j => f j ≠ g j) = l.length := by
  induction l with
  | nil => rfl
  | cons a l ih =>
    by_cases h : f a = g a
    · simp [List.countP_cons, h]
      simp at ih
      omega
    · simp [List.countP_cons, h]
      simp at ih
      omega

theorem testSequentialReadROMStats_eq (rom_data file_data : Region) (rombank : Nat) :
    testSequentialReadROMStats rom_data file_data rombank =
      reportStats
        ⟨(List.range 32768).countP (fun w =>
            wordAt rom_data (rombank * 32768 + w) = wordAt file_data (rombank * 32768 + w)),
         (List.range 32768).countP (fun w =>
            wordAt rom_data (rombank * 32768 + w) ≠ wordAt file_data (rombank * 32768 + w)),
         Event.label TestId.sequentialReadROMStats (romName rombank) none ::
           visitEvents (fun j => j) 0 32768⟩ := by
  have e : rombank * 64 * 1024 / 2 = rombank * 32768 := by omega
  unfold testSequentialReadROMStats
  simp only [e]
  rw [testSequentialReadROMStats_loop_spec]
  simp [List.range_eq_range']

theorem testSequentialReadROMBytesStats_eq (rom_data file_data : Region) (rombank : Nat) :
    testSequentialReadROMBytesStats rom_data file_data rombank =
      reportStats
        ⟨(List.range 65536).countP (fun a =>
            byteAt rom_data (rombank * 65536 + a) = byteAt file_data (rombank * 65536 + a)),
         (List.range 65536).countP (fun a =>
            byteAt rom_data (rombank * 65536 + a) ≠ byteAt file_data (rombank * 65536 + a)),
         Event.label TestId.sequentialReadROMBytesStats (romName rombank) none ::
           visitEvents (fun j => j) 0 65536⟩ := by
  have e : rombank * 64 * 1024 = rombank * 65536 := by omega
  unfold testSequentialReadROMBytesStats
  simp only [e]
  rw [testSequentialReadROMBytesStats_loop_spec]
  simp [List.range_eq_range']

theorem testRandomReadROMStats_eq (rom_data file_data : Region) (rombank : Nat)
    (num_requests : Int) (rand : Nat → Nat) :
    testRandomReadROMStats rom_data file_data rombank num_requests rand =
      reportStats
        ⟨(List.range num_requests.toNat).countP (fun j =>
            wordAt rom_data (rombank * 32768 + randomWord rand j) =
              wordAt file_data (rombank * 32768 + randomWord rand j)),
         (List.range num_requests.toNat).countP (fun j =>
            wordAt rom_data (rombank * 32768 + randomWord rand j) ≠
              wordAt file_data (rombank * 32768 + randomWord rand j)),
         Event.label TestId.randomReadROMStats (romName rombank) (some num_requests) ::
           visitEvents (randomWord rand) 0 num_requests.toNat⟩ := by
  have e : rombank * 64 * 1024 / 2 = rombank * 32768 := by omega
  unfold testRandomReadROMStats
  simp only [e]
  rw [testRandomReadROMStats_loop_spec]
  simp [List.range_eq_range']

theorem testRandomReadROMBytesStats_eq (rom_data file_data : Region) (rombank : Nat)
    (num_requests : Int) (rand : Nat → Nat) :
    testRandomReadROMBytesStats rom_data file_data rombank num_requests rand =
      reportStats
        ⟨(List.range num_requests.toNat).countP (fun j =>
            byteAt rom_data (rombank * 65536 + randomByte rand j) =
              byteAt file_data (rombank * 65536 + randomByte rand j)),
         (List.range num_requests.toNat).countP (fun j =>
            byteAt rom_data (rombank * 65536 + randomByte rand j) ≠
              byteAt file_data (rombank * 65536 + randomByte rand j)),
         Event.label TestId.randomReadROMBytesStats (romName rombank) (some num_requests) ::
           visitEvents (randomByte rand) 0 num_requests.toNat⟩ := by
  have e : rombank * 64 * 1024 = rombank * 65536 := by omega
  unfold testRandomReadROMBytesStats
  simp only [e]
  rw [testRandomReadROMBytesStats_loop_spec]
  simp [List.range_eq_range']

theorem reportStats_ret (s f : Nat) (out : List Event) :
    (reportStats ⟨s, f, out⟩).ret = if f > 0 then 1 else 0 := rfl

theorem statsOf_reportStats (s f : Nat) (out : List Event) (h : statsOf out = []) :
    statsOf (reportStats ⟨s, f, out⟩).out = [(s, f)] := by
  simp [reportStats, statsOf_append, h, statsOf]

theorem readsOf_reportStats (s f : Nat) (out : List Event) :
    readsOf (reportStats ⟨s, f, out⟩).out = readsOf out := by
  simp [reportStats, readsOf_append, readsOf]

theorem statsOf_label_visitEvents (t : TestId) (r : Nat) (q : Option Int) (pos : Nat → Nat)
    (n : Nat) : statsOf (Event.label t r q :: visitEvents pos 0 n) = [] := by
  simp [statsOf, statsOf_visitEvents]

theorem readsOf_label_visitEvents_id (t : TestId) (r : Nat) (q : Option Int) (n : Nat) :
    readsOf (Event.label t r q :: visitEvents (fun j => j) 0 n) = List.range n := by
  simp [readsOf, readsOf_visitEvents, List.range_eq_range']

theorem length_readsOf_label_visitEvents (t : TestId) (r : Nat) (q : Option Int)
    (pos : Nat → Nat) (n : Nat) :
    (readsOf (Event.label t r q :: visitEvents pos 0 n)).length = n := by
  simp [readsOf, readsOf_visitEvents]

theorem readsOf_label_visitEvents (t : TestId) (r : Nat) (q : Option Int) (pos : Nat → Nat)
    (n : Nat) :
    readsOf (Event.label t r q :: visitEvents pos 0 n) = (List.range n).map pos := by
  simp [readsOf, readsOf_visitEvents, List.range_eq_range']

theorem countP_ne_eq_zero_iff (f g : Nat → Nat) (n : Nat) :
    (List.range n).countP (fun j => f j ≠ g j) = 0 ↔ ∀ j, j < n → f j = g j := by
  simp [List.countP_eq_zero]

theorem countP_eq_of_all_eq (f g : Nat → Nat) (n : Nat) (h : ∀ j, j < n → f j = g j) :
    (List.range n).countP (fun j => f j = g j) = n := by
  have h1 := countP_eq_add_countP_ne f g (List.range n)
  have h2 := (countP_ne_eq_zero_iff f g n).2 h
  rw [h2, List.length_range] at h1
  exact h1

theorem testSequentialReadROMStats_ret_zero_iff (rom_data file_data : Region) (rombank : Nat) :
    (testSequentialReadROMStats rom_data file_data rombank).ret = 0 ↔
      ∀ w, w < 32768 →
        wordAt rom_data (rombank * 32768 + w) = wordAt file_data (rombank * 32768 + w) := by
  rw [testSequentialReadROMStats_eq, reportStats_ret, ← countP_ne_eq_zero_iff]
  split <;> omega

theorem testSequentialReadROMBytesStats_ret_zero_iff (rom_data file_data : Region)
    (rombank : Nat) :
    (testSequentialReadROMBytesStats rom_data file_data rombank).ret = 0 ↔
      ∀ a, a < 65536 →
        byteAt rom_data (rombank * 65536 + a) = byteAt file_data (rombank * 65536 + a) := by
  rw [testSequentialReadROMBytesStats_eq, reportStats_ret, ← countP_ne_eq_zero_iff]
  split <;> omega

theorem byteAt_eq_iff (rom file : Region) (a : Nat) :
    byteAt rom a = byteAt file a ↔ rom a = file a := by
  unfold byteAt
  exact ⟨fun h => Fin.ext h, fun h => by rw [h]⟩

theorem statsOf_reportStats_sum (f g : Nat → Nat) (n : Nat) (out : List Event)
    (h : statsOf out = []) :
    (statsOf (reportStats ⟨(List.range n).countP (fun j => f j = g j),
      (List.range n).countP (fun j => f j ≠ g j), out⟩).out).map (fun c => c.1 + c.2) = [n] := by
  rw [statsOf_reportStats _ _ _ h]
  have h1 := countP_eq_add_countP_ne f g (List.range n)
  rw [List.length_range] at h1
  simp only [List.map_cons, List.map_nil, h1]

theorem testSequentialReadROMStats_loop_sum (rom file : Nat → Nat) (n i : Nat) (st : Stats) :
    (testSequentialReadROMStats_loop rom file n i st).successful_requests +
        (testSequentialReadROMStats_loop rom file n i st).failed_requests =
      st.successful_requests + st.failed_requests + n ∧
    (readsOf (testSequentialReadROMStats_loop rom file n i st).out).length = (readsOf st.out).length + n := by
  rw [testSequentialReadROMStats_loop_spec]
  have h1 := countP_eq_add_countP_ne (fun j => rom j) (fun j => file j) (List.range' i n)
  beta_reduce at h1
  rw [List.length_range'] at h1
  simp only [readsOf_append, readsOf_visitEvents, List.length_append, List.length_map,
    List.length_range']
  exact ⟨by omega, trivial⟩

theorem testSequentialReadROMBytesStats_loop_sum (rom file : Nat → Nat) (n i : Nat) (st : Stats) :
    (testSequentialReadROMBytesStats_loop rom file n i st).successful_requests +
        (testSequentialReadROMBytesStats_loop rom file n i st).failed_requests =
      st.successful_requests + st.failed_requests + n ∧
    (readsOf (testSequentialReadROMBytesStats_loop rom file n i st).out).length = (readsOf st.out).length + n := by
  rw [testSequentialReadROMBytesStats_loop_spec]
  have h1 := countP_eq_add_countP_ne (fun j => rom j) (fun j => file j) (List.range' i n)
  beta_reduce at h1
  rw [List.length_range'] at h1
  simp only [readsOf_append, readsOf_visitEvents, List.length_append, List.length_map,
    List.length_range']
  exact ⟨by omega, trivial⟩

theorem testRandomReadROMStats_loop_sum (rom file : Nat → Nat) (rand : Nat → Nat) (n i : Nat) (st : Stats) :
    (testRandomReadROMStats_loop rom file rand n i st).successful_requests +
        (testRandomReadROMStats_loop rom file rand n i st).failed_requests =
      st.successful_requests + st.failed_requests + n ∧
    (readsOf (testRandomReadROMStats_loop rom file rand n i st).out).length = (readsOf st.out).length + n := by
  rw [testRandomReadROMStats_loop_spec]
  have h1 := countP_eq_add_countP_ne (fun j => rom (randomWord rand j)) (fun j => file (randomWord rand j)) (List.range' i n)
  beta_reduce at h1
  rw [List.length_range'] at h1
  simp only [readsOf_append, readsOf_visitEvents, List.length_append, List.length_map,
    List.length_range']
  exact ⟨by omega, trivial⟩

theorem testRandomReadROMBytesStats_loop_sum (rom file : Nat → Nat) (rand : Nat → Nat) (n i : Nat) (st : Stats) :
    (testRandomReadROMBytesStats_loop rom file rand n i st).successful_requests +
        (testRandomReadROMBytesStats_loop rom file rand n i st).failed_requests =
      st.successful_requests + st.failed_requests + n ∧
    (readsOf (testRandomReadROMBytesStats_loop rom file rand n i st).out).length = (readsOf st.out).length + n := by
  rw [testRandomReadROMBytesStats_loop_spec]
  have h1 := countP_eq_add_countP_ne (fun j => rom (randomByte rand j)) (fun j => file (randomByte rand j)) (List.range' i n)
  beta_reduce at h1
  rw [List.length_range'] at h1
  simp only [readsOf_append, readsOf_visitEvents, List.length_append, List.length_map,
    List.length_range']
  exact ⟨by omega, trivial⟩

theorem reportStats_ret_le_one (st : Stats) :
    (reportStats st).ret = 0 ∨ (reportStats st).ret = 1 := by
  unfold reportStats
  by_cases h : st.failed_requests > 0
  · right; simp [h]
  · left; simp [h]

theorem testSequentialReadROMStats_ret_le_one (rom_data file_data : Region) (rombank : Nat) :
    (testSequentialReadROMStats rom_data file_data rombank).ret = 0 ∨
      (testSequentialReadROMStats rom_data file_data rombank).ret = 1 :=
  reportStats_ret_le_one _

theorem testSequentialReadROMBytesStats_ret_le_one (rom_data file_data : Region)
    (rombank : Nat) :
    (testSequentialReadROMBytesStats rom_data file_data rombank).ret = 0 ∨
      (testSequentialReadROMBytesStats rom_data file_data rombank).ret = 1 :=
  reportStats_ret_le_one _

theorem mismatchesOf_pass_events (t : TestId) (r : Nat) (q : Option Int) (pos : Nat → Nat)
    (n : Nat) :
    mismatchesOf (Event.label t r q :: (visitEvents pos 0 n ++ [Event.success])) = [] := by
  simp [mismatchesOf, mismatchesOf_append, mismatchesOf_visitEvents]

theorem readsOf_pass_events (t : TestId) (r : Nat) (q : Option Int) (n : Nat) :
    readsOf (Event.label t r q :: (visitEvents (fun j => j) 0 n ++ [Event.success])) =
      List.range n := by
  simp [readsOf, readsOf_append, readsOf_visitEvents, List.range_eq_range']

theorem testSequentialReadROMStats_same (rom_data file_data : Region) (rombank : Nat)
    (h : ∀ w, w < 32768 →
      wordAt rom_data (rombank * 32768 + w) = wordAt file_data (rombank * 32768 + w)) :
    statsOf (testSequentialReadROMStats rom_data file_data rombank).out = [(32768, 0)] := by
  rw [testSequentialReadROMStats_eq,
    statsOf_reportStats _ _ _ (statsOf_label_visitEvents _ _ _ _ _),
    countP_eq_of_all_eq _ _ _ h, (countP_ne_eq_zero_iff _ _ _).2 h]

theorem testSequentialReadROMBytesStats_same (rom_data file_data : Region) (rombank : Nat)
    (h : ∀ a, a < 65536 →
      byteAt rom_data (rombank * 65536 + a) = byteAt file_data (rombank * 65536 + a)) :
    statsOf (testSequentialReadROMBytesStats rom_data file_data rombank).out = [(65536, 0)] := by
  rw [testSequentialReadROMBytesStats_eq,
    statsOf_reportStats _ _ _ (statsOf_label_visitEvents _ _ _ _ _),
    countP_eq_of_all_eq _ _ _ h, (countP_ne_eq_zero_iff _ _ _).2 h]

/-! ## Each routine depends on the selected bank window only -/

theorem testSequentialReadROM_window (rom_data file_data rom_data2 file_data2 : Region) (rombank : Nat)
    (hrom : ∀ a, rombank * 65536 ≤ a → a < (rombank + 1) * 65536 → rom_data a = rom_data2 a)
    (hfile : ∀ a, rombank * 65536 ≤ a → a < (rombank + 1) * 65536 →
      file_data a = file_data2 a) :
    testSequentialReadROM rom_data file_data rombank =
      testSequentialReadROM rom_data2 file_data2 rombank := by
  unfold testSequentialReadROM
  have h := testSequentialReadROM_loop_congr 
    (fun j => wordAt rom_data (rombank * 64 * 1024 / 2 + j))
    (fun j => wordAt file_data (rombank * 64 * 1024 / 2 + j))
    (fun j => wordAt rom_data2 (rombank * 64 * 1024 / 2 + j))
    (fun j => wordAt file_data2 (rombank * 64 * 1024 / 2 + j)) rombank (64 * 1024 / 2) 0
    (fun j _ hj => wordAt_window _ _ _ _ (by omega) hrom)
    (fun j _ hj => wordAt_window _ _ _ _ (by omega) hfile)
  simp only [] at h ⊢
  rw [h]

theorem testSequentialReadROMStats_window (rom_data file_data rom_data2 file_data2 : Region) (rombank : Nat)
    (hrom : ∀ a, rombank * 65536 ≤ a → a < (rombank + 1) * 65536 → rom_data a = rom_data2 a)
    (hfile : ∀ a, rombank * 65536 ≤ a → a < (rombank + 1) * 65536 →
      file_data a = file_data2 a) :
    testSequentialReadROMStats rom_data file_data rombank =
      testSequentialReadROMStats rom_data2 file_data2 rombank := by
  unfold testSequentialReadROMStats
  have h := fun st => testSequentialReadROMStats_loop_congr 
    (fun j => wordAt rom_data (rombank * 64 * 1024 / 2 + j))
    (fun j => wordAt file_data (rombank * 64 * 1024 / 2 + j))
    (fun j => wordAt rom_data2 (rombank * 64 * 1024 / 2 + j))
    (fun j => wordAt file_data2 (rombank * 64 * 1024 / 2 + j)) (64 * 1024 / 2) 0 st
    (fun j _ hj => wordAt_window _ _ _ _ (by omega) hrom)
    (fun j _ hj => wordAt_window _ _ _ _ (by omega) hfile)
  simp only [] at h ⊢
  rw [h]

theorem testRandomReadROM_window (rom_data file_data rom_data2 file_data2 : Region) (rombank : Nat)
    (num_requests : Int) (rand : Nat → Nat)
    (hrom : ∀ a, rombank * 65536 ≤ a → a < (rombank + 1) * 65536 → rom_data a = rom_data2 a)
    (hfile : ∀ a, rombank * 65536 ≤ a → a < (rombank + 1) * 65536 →
      file_data a = file_data2 a) :
    testRandomReadROM rom_data file_data rombank num_requests rand =
      testRandomReadROM rom_data2 file_data2 rombank num_requests rand := by
  unfold testRandomReadROM
  have h := testRandomReadROM_loop_congr 
    (fun j => wordAt rom_data (rombank * 64 * 1024 / 2 + j))
    (fun j => wordAt file_data (rombank * 64 * 1024 / 2 + j))
    (fun j => wordAt rom_data2 (rombank * 64 * 1024 / 2 + j))
    (fun j => wordAt file_data2 (rombank * 64 * 1024 / 2 + j)) rombank rand num_requests.toNat 0
    (fun j hj => wordAt_window _ _ _ _ hj hrom)
    (fun j hj => wordAt_window _ _ _ _ hj hfile)
  simp only [] at h ⊢
  rw [h]

theorem testRandomReadROMStats_window (rom_data file_data rom_data2 file_data2 : Region) (rombank : Nat)
    (num_requests : Int) (rand : Nat → Nat)
    (hrom : ∀ a, rombank * 65536 ≤ a → a < (rombank + 1) * 65536 → rom_data a = rom_data2 a)
    (hfile : ∀ a, rombank * 65536 ≤ a → a < (rombank + 1) * 65536 →
      file_data a = file_data2 a) :
    testRandomReadROMStats rom_data file_data rombank num_requests rand =
      testRandomReadROMStats rom_data2 file_data2 rombank num_requests rand := by
  unfold testRandomReadROMStats
  have h := fun st => testRandomReadROMStats_loop_congr 
    (fun j => wordAt rom_data (rombank * 64 * 1024 / 2 + j))
    (fun j => wordAt file_data (rombank * 64 * 1024 / 2 + j))
    (fun j => wordAt rom_data2 (rombank * 64 * 1024 / 2 + j))
    (fun j => wordAt file_data2 (rombank * 64 * 1024 / 2 + j)) rand num_requests.toNat 0 st
    (fun j hj => wordAt_window _ _ _ _ hj hrom)
    (fun j hj => wordAt_window _ _ _ _ hj hfile)
  simp only [] at h ⊢
  rw [h]

theorem testAddressLinesSequentialReadROM_window (rom_data file_data rom_data2 file_data2 : Region) (rombank : Nat)
    (num_requests : Int)
    (hrom : ∀ a, rombank * 65536 ≤ a → a < (rombank + 1) * 65536 → rom_data a = rom_data2 a)
    (hfile : ∀ a, rombank * 65536 ≤ a → a < (rombank + 1) * 65536 →
      file_data a = file_data2 a) :
    testAddressLinesSequentialReadROM rom_data file_data rombank num_requests =
      testAddressLinesSequentialReadROM rom_data2 file_data2 rombank num_requests := by
  unfold testAddressLinesSequentialReadROM
  have h := testAddressLinesSequentialReadROM_lines_congr 
    (fun j => wordAt rom_data (rombank * 64 * 1024 / 2 + j))
    (fun j => wordAt file_data (rombank * 64 * 1024 / 2 + j))
    (fun j => wordAt rom_data2 (rombank * 64 * 1024 / 2 + j))
    (fun j => wordAt file_data2 (rombank * 64 * 1024 / 2 + j)) rombank num_requests (15 - 1) 1
    (fun l h1 h2 => wordAt_window _ _ _ _ (lineWord_lt l h1 (by omega)) hrom)
    (fun l h1 h2 => wordAt_window _ _ _ _ (lineWord_lt l h1 (by omega)) hfile)
  simp only [] at h ⊢
  rw [h]

theorem testSequentialReadROMBytes_window (rom_data file_data rom_data2 file_data2 : Region) (rombank : Nat)
    (hrom : ∀ a, rombank * 65536 ≤ a → a < (rombank + 1) * 65536 → rom_data a = rom_data2 a)
    (hfile : ∀ a, rombank * 65536 ≤ a → a < (rombank + 1) * 65536 →
      file_data a = file_data2 a) :
    testSequentialReadROMBytes rom_data file_data rombank =
      testSequentialReadROMBytes rom_data2 file_data2 rombank := by
  unfold testSequentialReadROMBytes
  have h := testSequentialReadROMBytes_loop_congr 
    (fun j => byteAt rom_data (rombank * 64 * 1024 + j))
    (fun j => byteAt file_data (rombank * 64 * 1024 + j))
    (fun j => byteAt rom_data2 (rombank * 64 * 1024 + j))
    (fun j => byteAt file_data2 (rombank * 64 * 1024 + j)) rombank (64 * 1024) 0
    (fun j _ hj => byteAt_window _ _ _ _ (by omega) hrom)
    (fun j _ hj => byteAt_window _ _ _ _ (by omega) hfile)
  simp only [] at h ⊢
  rw [h]

theorem testSequentialReadROMBytesStats_window (rom_data file_data rom_data2 file_data2 : Region) (rombank : Nat)
    (hrom : ∀ a, rombank * 65536 ≤ a → a < (rombank + 1) * 65536 → rom_data a = rom_data2 a)
    (hfile : ∀ a, rombank * 65536 ≤ a → a < (rombank + 1) * 65536 →
      file_data a = file_data2 a) :
    testSequentialReadROMBytesStats rom_data file_data rombank =
      testSequentialReadROMBytesStats rom_data2 file_data2 rombank := by
  unfold testSequentialReadROMBytesStats
  have h := fun st => testSequentialReadROMBytesStats_loop_congr 
    (fun j => byteAt rom_data (rombank * 64 * 1024 + j))
    (fun j => byteAt file_data (rombank * 64 * 1024 + j))
    (fun j => byteAt rom_data2 (rombank * 64 * 1024 + j))
    (fun j => byteAt file_data2 (rombank * 64 * 1024 + j)) (64 * 1024) 0 st
    (fun j _ hj => byteAt_window _ _ _ _ (by omega) hrom)
    (fun j _ hj => byteAt_window _ _ _ _ (by omega) hfile)
  simp only [] at h ⊢
  rw [h]

theorem testRandomReadROMBytes_window (rom_data file_data rom_data2 file_data2 : Region) (rombank : Nat)
    (num_requests : Int) (rand : Nat → Nat)
    (hrom : ∀ a, rombank * 65536 ≤ a → a < (rombank + 1) * 65536 → rom_data a = rom_data2 a)
    (hfile : ∀ a, rombank * 65536 ≤ a → a < (rombank + 1) * 65536 →
      file_data a = file_data2 a) :
    testRandomReadROMBytes rom_data file_data rombank num_requests rand =
      testRandomReadROMBytes rom_data2 file_data2 rombank num_requests rand := by
  unfold testRandomReadROMBytes
  have h := testRandomReadROMBytes_loop_congr 
    (fun j => byteAt rom_data (rombank * 64 * 1024 + j))
    (fun j => byteAt file_data (rombank * 64 * 1024 + j))
    (fun j => byteAt rom_data2 (rombank * 64 * 1024 + j))
    (fun j => byteAt file_data2 (rombank * 64 * 1024 + j)) rombank rand num_requests.toNat 0
    (fun j hj => byteAt_window _ _ _ _ hj hrom)
    (fun j hj => byteAt_window _ _ _ _ hj hfile)
  simp only [] at h ⊢
  rw [h]

theorem testRandomReadROMBytesStats_window (rom_data file_data rom_data2 file_data2 : Region) (rombank : Nat)
    (num_requests : Int) (rand : Nat → Nat)
    (hrom : ∀ a, rombank * 65536 ≤ a → a < (rombank + 1) * 65536 → rom_data a = rom_data2 a)
    (hfile : ∀ a, rombank * 65536 ≤ a → a < (rombank + 1) * 65536 →
      file_data a = file_data2 a) :
    testRandomReadROMBytesStats rom_data file_data rombank num_requests rand =
      testRandomReadROMBytesStats rom_data2 file_data2 rombank num_requests rand := by
  unfold testRandomReadROMBytesStats
  have h := fun st => testRandomReadROMBytesStats_loop_congr 
    (fun j => byteAt rom_data (rombank * 64 * 1024 + j))
    (fun j => byteAt file_data (rombank * 64 * 1024 + j))
    (fun j => byteAt rom_data2 (rombank * 64 * 1024 + j))
    (fun j => byteAt file_data2 (rombank * 64 * 1024 + j)) rand num_requests.toNat 0 st
    (fun j hj => byteAt_window _ _ _ _ hj hrom)
    (fun j hj => byteAt_window _ _ _ _ hj hfile)
  simp only [] at h ⊢
  rw [h]

/-! ## The sampling and address-line fail-fast routines as a whole -/

theorem testRandomReadROM_pass (rom_data file_data : Region) (rombank : Nat) (num_requests : Int)
    (rand : Nat → Nat)
    (h : ∀ j, j < num_requests.toNat →
      wordAt rom_data (rombank * 32768 + randomWord rand j) = wordAt file_data (rombank * 32768 + randomWord rand j)) :
    testRandomReadROM rom_data file_data rombank num_requests rand =
      ⟨0, Event.label TestId.randomReadROM (romName rombank) (some num_requests) ::
        (visitEvents (randomWord rand) 0 num_requests.toNat ++ [Event.success])⟩ := by
  have e : rombank * 64 * 1024 / 2 = rombank * 32768 := by omega
  unfold testRandomReadROM
  simp only [e]
  rw [testRandomReadROM_loop_pass _ _ _ _ _ _ (fun j _ h2 => h j (by omega))]
  simp [emit]

theorem testRandomReadROM_fail (rom_data file_data : Region) (rombank : Nat) (num_requests : Int)
    (rand : Nat → Nat) (k : Nat) (hk : k < num_requests.toNat)
    (hne : wordAt rom_data (rombank * 32768 + randomWord rand k) ≠ wordAt file_data (rombank * 32768 + randomWord rand k))
    (hlt : ∀ j, j < k →
      wordAt rom_data (rombank * 32768 + randomWord rand j) = wordAt file_data (rombank * 32768 + randomWord rand j)) :
    testRandomReadROM rom_data file_data rombank num_requests rand =
      ⟨1, Event.label TestId.randomReadROM (romName rombank) (some num_requests) ::
        (visitEvents (randomWord rand) 0 k ++
          [Event.read (randomWord rand k),
           Event.mismatch (real_memory rombank (randomWord rand k * 2))
             (wordAt file_data (rombank * 32768 + randomWord rand k))
             (wordAt rom_data (rombank * 32768 + randomWord rand k))])⟩ := by
  have e : rombank * 64 * 1024 / 2 = rombank * 32768 := by omega
  unfold testRandomReadROM
  simp only [e]
  rw [testRandomReadROM_loop_fail _ _ _ _ _ 0 k (Nat.zero_le k) (by omega)
    (fun j _ h2 => hlt j h2) hne]
  simp [emit]

theorem testRandomReadROMBytes_pass (rom_data file_data : Region) (rombank : Nat) (num_requests : Int)
    (rand : Nat → Nat)
    (h : ∀ j, j < num_requests.toNat →
      byteAt rom_data (rombank * 65536 + randomByte rand j) = byteAt file_data (rombank * 65536 + randomByte rand j)) :
    testRandomReadROMBytes rom_data file_data rombank num_requests rand =
      ⟨0, Event.label TestId.randomReadROMBytes (romName rombank) (some num_requests) ::
        (visitEvents (randomByte rand) 0 num_requests.toNat ++ [Event.success])⟩ := by
  have e : rombank * 64 * 1024 = rombank * 65536 := by omega
  unfold testRandomReadROMBytes
  simp only [e]
  rw [testRandomReadROMBytes_loop_pass _ _ _ _ _ _ (fun j _ h2 => h j (by omega))]
  simp [emit]

theorem testRandomReadROMBytes_fail (rom_data file_data : Region) (rombank : Nat) (num_requests : Int)
    (rand : Nat → Nat) (k : Nat) (hk : k < num_requests.toNat)
    (hne : byteAt rom_data (rombank * 65536 + randomByte rand k) ≠ byteAt file_data (rombank * 65536 + randomByte rand k))
    (hlt : ∀ j, j < k →
      byteAt rom_data (rombank * 65536 + randomByte rand j) = byteAt file_data (rombank * 65536 + randomByte rand j)) :
    testRandomReadROMBytes rom_data file_data rombank num_requests rand =
      ⟨1, Event.label TestId.randomReadROMBytes (romName rombank) (some num_requests) ::
        (visitEvents (randomByte rand) 0 k ++
          [Event.read (randomByte rand k),
           Event.mismatch (real_memory rombank (randomByte rand k))
             (byteAt file_data (rombank * 65536 + randomByte rand k))
             (byteAt rom_data (rombank * 65536 + randomByte rand k))])⟩ := by
  have e : rombank * 64 * 1024 = rombank * 65536 := by omega
  unfold testRandomReadROMBytes
  simp only [e]
  rw [testRandomReadROMBytes_loop_fail _ _ _ _ _ 0 k (Nat.zero_le k) (by omega)
    (fun j _ h2 => hlt j h2) hne]
  simp [emit]

theorem testAddressLinesSequentialReadROM_pass (rom_data file_data : Region) (rombank : Nat)
    (num_requests : Int)
    (h : ∀ l, 1 ≤ l → l ≤ 14 →
      wordAt rom_data (rombank * 32768 + lineWord l) =
        wordAt file_data (rombank * 32768 + lineWord l)) :
    testAddressLinesSequentialReadROM rom_data file_data rombank num_requests =
      ⟨0, Event.label TestId.addressLinesSequentialReadROM (romName rombank)
          (some num_requests) ::
        (lineEvents num_requests.toNat 1 14 ++ [Event.success])⟩ := by
  have e : rombank * 64 * 1024 / 2 = rombank * 32768 := by omega
  unfold testAddressLinesSequentialReadROM
  simp only [e]
  rw [testAddressLinesSequentialReadROM_lines_pass _ _ _ _ _ _
    (fun l h1 h2 => h l h1 (by omega))]
  simp [emit]

theorem testAddressLinesSequentialReadROM_idle (rom_data file_data : Region) (rombank : Nat)
    (num_requests : Int) (h : num_requests.toNat = 0) :
    testAddressLinesSequentialReadROM rom_data file_data rombank num_requests =
      ⟨0, Event.label TestId.addressLinesSequentialReadROM (romName rombank)
          (some num_requests) ::
        (lineEvents 0 1 14 ++ [Event.success])⟩ := by
  unfold testAddressLinesSequentialReadROM
  simp only []
  rw [testAddressLinesSequentialReadROM_lines_idle _ _ _ _ _ _ h]
  simp [emit]

theorem testAddressLinesSequentialReadROM_fail (rom_data file_data : Region) (rombank : Nat)
    (num_requests : Int) (k : Nat) (hreq : 0 < num_requests.toNat) (hk1 : 1 ≤ k)
    (hk2 : k ≤ 14)
    (hne : wordAt rom_data (rombank * 32768 + lineWord k) ≠
      wordAt file_data (rombank * 32768 + lineWord k))
    (hlt : ∀ l, 1 ≤ l → l < k →
      wordAt rom_data (rombank * 32768 + lineWord l) =
        wordAt file_data (rombank * 32768 + lineWord l)) :
    testAddressLinesSequentialReadROM rom_data file_data rombank num_requests =
      ⟨1, Event.label TestId.addressLinesSequentialReadROM (romName rombank)
          (some num_requests) ::
        (lineEvents num_requests.toNat 1 (k - 1) ++
          [Event.read (lineWord k),
           Event.lineMismatch (real_memory rombank (1 <<< k)) k
             (wordAt file_data (rombank * 32768 + lineWord k))
             (wordAt rom_data (rombank * 32768 + lineWord k))])⟩ := by
  have e : rombank * 64 * 1024 / 2 = rombank * 32768 := by omega
  unfold testAddressLinesSequentialReadROM
  simp only [e]
  rw [testAddressLinesSequentialReadROM_lines_fail _ _ _ _ _ 1 k hreq hk1 (by omega)
    (fun l h1 h2 => hlt l h1 h2) hne]
  simp [emit]

theorem one_shiftLeft_eq_lineWord (k : Nat) (hk : 1 ≤ k) : 1 <<< k = lineWord k * 2 := by
  obtain ⟨l, rfl⟩ : ∃ l, k = l + 1 := ⟨k - 1, by omega⟩
  unfold lineWord
  rw [lineWord_eq (l + 1) (by omega), Nat.one_shiftLeft, Nat.pow_succ]
  simp

/-! ## What the fail-fast routines print about a mismatch -/

theorem mismatchesOf_fail_events (t : TestId) (r : Nat) (q : Option Int) (pos : Nat → Nat)
    (k p a e g : Nat) :
    mismatchesOf (Event.label t r q ::
      (visitEvents pos 0 k ++ [Event.read p, Event.mismatch a e g])) = [(a, e, g)] := by
  simp [mismatchesOf, mismatchesOf_append, mismatchesOf_visitEvents]

theorem mismatchesOf_line_pass_events (t : TestId) (r : Nat) (q : Option Int)
    (reqs n : Nat) :
    mismatchesOf (Event.label t r q :: (lineEvents reqs 1 n ++ [Event.success])) = [] := by
  simp [mismatchesOf, mismatchesOf_append, mismatchesOf_lineEvents]

theorem mismatchesOf_line_fail_events (t : TestId) (r : Nat) (q : Option Int)
    (reqs n p a l e g : Nat) :
    mismatchesOf (Event.label t r q ::
      (lineEvents reqs 1 n ++ [Event.read p, Event.lineMismatch a l e g])) = [(a, e, g)] := by
  simp [mismatchesOf, mismatchesOf_append, mismatchesOf_lineEvents]

/-! ## What the address-line routine reads -/

theorem lineWord_pos (l : Nat) (h : 1 ≤ l) : 1 ≤ lineWord l := by
  unfold lineWord
  rw [lineWord_eq l h]
  exact Nat.one_le_two_pow

theorem lineWord_mono (l l2 : Nat) (h1 : 1 ≤ l) (h : l ≤ l2) : lineWord l ≤ lineWord l2 := by
  unfold lineWord
  rw [lineWord_eq l h1, lineWord_eq l2 (by omega)]
  exact Nat.pow_le_pow_right (by decide) (by omega)

/-- The word indices read while the lines `line, ..., line + n - 1` all pass. -/
theorem mem_readsOf_lineEvents (reqs line n w : Nat) (h : w ∈ readsOf (lineEvents reqs line n)) :
    ∃ l, line ≤ l ∧ l < line + n ∧ w = lineWord l := by
  rw [readsOf_lineEvents, List.mem_flatMap] at h
  obtain ⟨l, hl, hw⟩ := h
  rw [List.mem_range'_1] at hl
  rw [List.mem_replicate] at hw
  exact ⟨l, hl.1, hl.2, hw.2⟩

theorem pairwise_readsOf_lineEvents (reqs line n : Nat) (h1 : 1 ≤ line) :
    List.Pairwise (fun a b => a ≤ b) (readsOf (lineEvents reqs line n)) := by
  induction n generalizing line with
  | zero => simp [lineEvents_zero, readsOf]
  | succ n ih =>
    rw [lineEvents_succ, readsOf_append, readsOf_append, readsOf_replicate_read,
      readsOf_lineSpinnerUpdate, List.append_nil, List.pairwise_append]
    refine ⟨?_, ih (line + 1) (by omega), ?_⟩
    · rw [List.pairwise_replicate]
      right
      exact Nat.le_refl _
    · intro a ha b hb
      rw [List.mem_replicate] at ha
      obtain ⟨l, hl1, _, hl3⟩ := mem_readsOf_lineEvents _ _ _ _ hb
      rw [ha.2, hl3]
      exact lineWord_mono line l h1 (by omega)

/-- The reads of the address-line routine: all requests of the lines 1 to 14, or all requests
of the lines before `k` followed by the one failing request of line `k`. -/
theorem testAddressLinesSequentialReadROM_reads (rom_data file_data : Region) (rombank : Nat)
    (num_requests : Int) :
    readsOf (testAddressLinesSequentialReadROM rom_data file_data rombank num_requests).out =
        readsOf (lineEvents num_requests.toNat 1 14) ∨
    ∃ k, 1 ≤ k ∧ k ≤ 14 ∧
      readsOf (testAddressLinesSequentialReadROM rom_data file_data rombank num_requests).out =
        readsOf (lineEvents num_requests.toNat 1 (k - 1)) ++ [lineWord k] := by
  by_cases hreq : num_requests.toNat = 0
  · left
    rw [testAddressLinesSequentialReadROM_idle rom_data file_data rombank num_requests hreq,
      hreq]
    simp [readsOf, readsOf_append]
  by_cases hall : ∀ l, 1 ≤ l → l ≤ 14 →
      wordAt rom_data (rombank * 32768 + lineWord l) =
        wordAt file_data (rombank * 32768 + lineWord l)
  · left
    rw [testAddressLinesSequentialReadROM_pass rom_data file_data rombank num_requests hall]
    simp [readsOf, readsOf_append]
  · right
    obtain ⟨k, hk1, hk2, hne, hlt⟩ := exists_first_failure
      (fun l => wordAt rom_data (rombank * 32768 + lineWord l) =
        wordAt file_data (rombank * 32768 + lineWord l))
      1 14 (fun hc => hall (fun l h1 h2 => hc l h1 (by omega)))
    refine ⟨k, hk1, by omega, ?_⟩
    rw [testAddressLinesSequentialReadROM_fail rom_data file_data rombank num_requests k
      (by omega) hk1 (by omega) hne hlt]
    simp [readsOf, readsOf_append]

/-! ## When the address-line routine fails -/

theorem readsOf_line_pass_events (t : TestId) (r : Nat) (q : Option Int) (reqs n : Nat) :
    readsOf (Event.label t r q :: (lineEvents reqs 1 n ++ [Event.success])) =
      readsOf (lineEvents reqs 1 n) := by
  simp [readsOf, readsOf_append]

theorem testAddressLinesSequentialReadROM_ret_one_iff (rom_data file_data : Region)
    (rombank : Nat) (num_requests : Int) (hreq : 1 ≤ num_requests) :
    (testAddressLinesSequentialReadROM rom_data file_data rombank num_requests).ret = 1 ↔
      ∃ l, 1 ≤ l ∧ l ≤ 14 ∧
        wordAt rom_data (rombank * 32768 + lineWord l) ≠
          wordAt file_data (rombank * 32768 + lineWord l) := by
  have hn : 0 < num_requests.toNat := by omega
  by_cases hall : ∀ l, 1 ≤ l → l ≤ 14 →
      wordAt rom_data (rombank * 32768 + lineWord l) =
        wordAt file_data (rombank * 32768 + lineWord l)
  · rw [testAddressLinesSequentialReadROM_pass rom_data file_data rombank num_requests hall]
    constructor
    · intro h
      cases h
    · rintro ⟨l, h1, h2, h3⟩
      exact absurd (hall l h1 h2) h3
  · obtain ⟨k, hk1, hk2, hne, hlt⟩ := exists_first_failure
      (fun l => wordAt rom_data (rombank * 32768 + lineWord l) =
        wordAt file_data (rombank * 32768 + lineWord l))
      1 14 (fun hc => hall (fun l h1 h2 => hc l h1 (by omega)))
    rw [testAddressLinesSequentialReadROM_fail rom_data file_data rombank num_requests k
      hn hk1 (by omega) hne hlt]
    exact ⟨fun _ => ⟨k, hk1, by omega, hne⟩, fun _ => rfl⟩

theorem mem_readsOf_lineEvents_of_lt (reqs line n l : Nat) (hr : 0 < reqs) (h1 : line ≤ l)
    (h2 : l < line + n) : lineWord l ∈ readsOf (lineEvents reqs line n) := by
  rw [readsOf_lineEvents, List.mem_flatMap]
  exact ⟨l, List.mem_range'_1.2 ⟨h1, h2⟩, List.mem_replicate.2 ⟨by omega, rfl⟩⟩

theorem testAddressLinesSequentialReadROM_reads_line (rom_data file_data : Region)
    (rombank : Nat) (num_requests : Int) (L : Nat) (hreq : 1 ≤ num_requests) (hL1 : 1 ≤ L)
    (hL2 : L ≤ 14)
    (hbefore : ∀ l, 1 ≤ l → l < L →
      wordAt rom_data (rombank * 32768 + lineWord l) =
        wordAt file_data (rombank * 32768 + lineWord l)) :
    lineWord L ∈
      readsOf (testAddressLinesSequentialReadROM rom_data file_data rombank num_requests).out := by
  have hn : 0 < num_requests.toNat := by omega
  by_cases hall : ∀ l, 1 ≤ l → l ≤ 14 →
      wordAt rom_data (rombank * 32768 + lineWord l) =
        wordAt file_data (rombank * 32768 + lineWord l)
  · rw [testAddressLinesSequentialReadROM_pass rom_data file_data rombank num_requests hall]
    simp only [readsOf, readsOf_append, List.append_nil]
    exact mem_readsOf_lineEvents_of_lt _ 1 14 L hn hL1 (by omega)
  · obtain ⟨k, hk1, hk2, hne, hlt⟩ := exists_first_failure
      (fun l => wordAt rom_data (rombank * 32768 + lineWord l) =
        wordAt file_data (rombank * 32768 + lineWord l))
      1 14 (fun hc => hall (fun l h1 h2 => hc l h1 (by omega)))
    have hLk : L ≤ k := by
      by_contra hc
      exact hne (hbefore k hk1 (by omega))
    rw [testAddressLinesSequentialReadROM_fail rom_data file_data rombank num_requests k
      hn hk1 (by omega) hne hlt]
    simp only [readsOf, readsOf_append, List.mem_append, List.mem_singleton]
    by_cases hLk2 : L = k
    · right
      rw [hLk2]
    · left
      exact mem_readsOf_lineEvents_of_lt _ 1 (k - 1) L hn hL1 (by omega)

/-! ## What the sampling routines read -/

theorem visitEvents_congr (pos pos2 : Nat → Nat) (i n : Nat)
    (h : ∀ j, i ≤ j → j < i + n → pos j = pos2 j) :
    visitEvents pos i n = visitEvents pos2 i n := by
  induction n generalizing i with
  | zero => rfl
  | succ n ih =>
    rw [visitEvents_succ, visitEvents_succ, h i (Nat.le_refl i) (by omega),
      ih (i + 1) (fun j h1 h2 => h j (by omega) (by omega))]

theorem readsOf_pass_events_pos (t : TestId) (r : Nat) (q : Option Int) (pos : Nat → Nat)
    (n : Nat) :
    readsOf (Event.label t r q :: (visitEvents pos 0 n ++ [Event.success])) =
      (List.range n).map pos := by
  simp [readsOf, readsOf_append, readsOf_visitEvents, List.range_eq_range']

theorem readsOf_fail_events (t : TestId) (r : Nat) (q : Option Int) (pos : Nat → Nat)
    (k a e g : Nat) :
    readsOf (Event.label t r q ::
      (visitEvents pos 0 k ++ [Event.read (pos k), Event.mismatch a e g])) =
        (List.range (k + 1)).map pos := by
  simp [readsOf, readsOf_append, readsOf_visitEvents, List.range_eq_range',
    List.range'_concat]

theorem testRandomReadROM_reads (rom_data file_data : Region) (rombank : Nat)
    (num_requests : Int) (rand : Nat → Nat) :
    ∃ m, m ≤ num_requests.toNat ∧
      readsOf (testRandomReadROM rom_data file_data rombank num_requests rand).out =
        (List.range m).map (randomWord rand) := by
  by_cases hall : ∀ j, j < num_requests.toNat →
      wordAt rom_data (rombank * 32768 + randomWord rand j) =
        wordAt file_data (rombank * 32768 + randomWord rand j)
  · refine ⟨num_requests.toNat, Nat.le_refl _, ?_⟩
    rw [testRandomReadROM_pass rom_data file_data rombank num_requests rand hall,
      readsOf_pass_events_pos]
  · obtain ⟨k, _, hk, hne, hlt⟩ := exists_first_failure
      (fun j => wordAt rom_data (rombank * 32768 + randomWord rand j) =
        wordAt file_data (rombank * 32768 + randomWord rand j))
      0 num_requests.toNat (fun hc => hall (fun w hw => hc w (Nat.zero_le w) (by omega)))
    refine ⟨k + 1, by omega, ?_⟩
    rw [testRandomReadROM_fail rom_data file_data rombank num_requests rand k (by omega) hne
      (fun j hj => hlt j (Nat.zero_le j) hj), readsOf_fail_events]

theorem testRandomReadROMBytes_reads (rom_data file_data : Region) (rombank : Nat)
    (num_requests : Int) (rand : Nat → Nat) :
    ∃ m, m ≤ num_requests.toNat ∧
      readsOf (testRandomReadROMBytes rom_data file_data rombank num_requests rand).out =
        (List.range m).map (randomByte rand) := by
  by_cases hall : ∀ j, j < num_requests.toNat →
      byteAt rom_data (rombank * 65536 + randomByte rand j) =
        byteAt file_data (rombank * 65536 + randomByte rand j)
  · refine ⟨num_requests.toNat, Nat.le_refl _, ?_⟩
    rw [testRandomReadROMBytes_pass rom_data file_data rombank num_requests rand hall,
      readsOf_pass_events_pos]
  · obtain ⟨k, _, hk, hne, hlt⟩ := exists_first_failure
      (fun j => byteAt rom_data (rombank * 65536 + randomByte rand j) =
        byteAt file_data (rombank * 65536 + randomByte rand j))
      0 num_requests.toNat (fun hc => hall (fun w hw => hc w (Nat.zero_le w) (by omega)))
    refine ⟨k + 1, by omega, ?_⟩
    rw [testRandomReadROMBytes_fail rom_data file_data rombank num_requests rand k (by omega)
      hne (fun j hj => hlt j (Nat.zero_le j) hj), readsOf_fail_events]

theorem testRandomReadROMStats_reads (rom_data file_data : Region) (rombank : Nat)
    (num_requests : Int) (rand : Nat → Nat) :
    readsOf (testRandomReadROMStats rom_data file_data rombank num_requests rand).out =
      (List.range num_requests.toNat).map (randomWord rand) := by
  rw [testRandomReadROMStats_eq, readsOf_reportStats, readsOf_label_visitEvents]

theorem testRandomReadROMBytesStats_reads (rom_data file_data : Region) (rombank : Nat)
    (num_requests : Int) (rand : Nat → Nat) :
    readsOf (testRandomReadROMBytesStats rom_data file_data rombank num_requests rand).out =
      (List.range num_requests.toNat).map (randomByte rand) := by
  rw [testRandomReadROMBytesStats_eq, readsOf_reportStats, readsOf_label_visitEvents]

theorem mem_map_randomWord_lt (rand : Nat → Nat) (m p : Nat)
    (h : p ∈ (List.range m).map (randomWord rand)) : p < 32768 := by
  rw [List.mem_map] at h
  obtain ⟨j, _, hj⟩ := h
  rw [← hj]
  exact randomWord_lt rand j

theorem mem_map_randomByte_lt (rand : Nat → Nat) (m p : Nat)
    (h : p ∈ (List.range m).map (randomByte rand)) : p < 65536 := by
  rw [List.mem_map] at h
  obtain ⟨j, _, hj⟩ := h
  rw [← hj]
  exact randomByte_lt rand j

theorem and_word_mask (x : Nat) : x &&& 0x7FFF = x % 32768 :=
  Nat.and_pow_two_sub_one_eq_mod x 15

theorem and_byte_mask (x : Nat) : x &&& (64 * 1024 - 1) = x % 65536 :=
  Nat.and_pow_two_sub_one_eq_mod x 16

/-! ## The sampling fail-fast routines: return value and independence of later draws -/

theorem testRandomReadROM_ret_zero_iff (rom_data file_data : Region) (rombank : Nat)
    (num_requests : Int) (rand : Nat → Nat) :
    (testRandomReadROM rom_data file_data rombank num_requests rand).ret = 0 ↔
      ∀ j, j < num_requests.toNat →
        wordAt rom_data (rombank * 32768 + randomWord rand j) = wordAt file_data (rombank * 32768 + randomWord rand j) := by
  constructor
  · intro h0
    by_contra hall
    obtain ⟨k, _, hk, hne, hlt⟩ := exists_first_failure
      (fun j => wordAt rom_data (rombank * 32768 + randomWord rand j) = wordAt file_data (rombank * 32768 + randomWord rand j))
      0 num_requests.toNat (fun hc => hall (fun w hw => hc w (Nat.zero_le w) (by omega)))
    rw [testRandomReadROM_fail rom_data file_data rombank num_requests rand k (by omega) hne
      (fun j hj => hlt j (Nat.zero_le j) hj)] at h0
    simp at h0
  · intro h
    rw [testRandomReadROM_pass rom_data file_data rombank num_requests rand h]

theorem testRandomReadROM_ret_le_one (rom_data file_data : Region) (rombank : Nat)
    (num_requests : Int) (rand : Nat → Nat) :
    (testRandomReadROM rom_data file_data rombank num_requests rand).ret = 0 ∨
      (testRandomReadROM rom_data file_data rombank num_requests rand).ret = 1 := by
  by_cases hall : ∀ j, j < num_requests.toNat →
      wordAt rom_data (rombank * 32768 + randomWord rand j) = wordAt file_data (rombank * 32768 + randomWord rand j)
  · left
    rw [testRandomReadROM_pass rom_data file_data rombank num_requests rand hall]
  · right
    obtain ⟨k, _, hk, hne, hlt⟩ := exists_first_failure
      (fun j => wordAt rom_data (rombank * 32768 + randomWord rand j) = wordAt file_data (rombank * 32768 + randomWord rand j))
      0 num_requests.toNat (fun hc => hall (fun w hw => hc w (Nat.zero_le w) (by omega)))
    rw [testRandomReadROM_fail rom_data file_data rombank num_requests rand k (by omega) hne
      (fun j hj => hlt j (Nat.zero_le j) hj)]

theorem testRandomReadROM_fail_indep (rom_data file_data : Region) (rombank : Nat)
    (num_requests : Int) (rand rand2 : Nat → Nat) (k : Nat) (hk : k < num_requests.toNat)
    (hne : wordAt rom_data (rombank * 32768 + randomWord rand k) ≠ wordAt file_data (rombank * 32768 + randomWord rand k))
    (hlt : ∀ j, j < k →
      wordAt rom_data (rombank * 32768 + randomWord rand j) = wordAt file_data (rombank * 32768 + randomWord rand j))
    (hsame : ∀ j, j ≤ k → rand2 j = rand j) :
    testRandomReadROM rom_data file_data rombank num_requests rand2 =
      testRandomReadROM rom_data file_data rombank num_requests rand := by
  have hpos : ∀ j, j ≤ k → randomWord rand2 j = randomWord rand j := by
    intro j hj
    unfold randomWord
    rw [hsame j hj]
  have hne2 : wordAt rom_data (rombank * 32768 + randomWord rand2 k) ≠ wordAt file_data (rombank * 32768 + randomWord rand2 k) := by
    rw [hpos k (Nat.le_refl k)]
    exact hne
  have hlt2 : ∀ j, j < k →
      wordAt rom_data (rombank * 32768 + randomWord rand2 j) = wordAt file_data (rombank * 32768 + randomWord rand2 j) := by
    intro j hj
    rw [hpos j (by omega)]
    exact hlt j hj
  rw [testRandomReadROM_fail rom_data file_data rombank num_requests rand k hk hne hlt,
    testRandomReadROM_fail rom_data file_data rombank num_requests rand2 k hk hne2 hlt2,
    hpos k (Nat.le_refl k),
    visitEvents_congr (randomWord rand2) (randomWord rand) 0 k (fun j _ h2 => hpos j (by omega))]

theorem testRandomReadROMBytes_ret_zero_iff (rom_data file_data : Region) (rombank : Nat)
    (num_requests : Int) (rand : Nat → Nat) :
    (testRandomReadROMBytes rom_data file_data rombank num_requests rand).ret = 0 ↔
      ∀ j, j < num_requests.toNat →
        byteAt rom_data (rombank * 65536 + randomByte rand j) = byteAt file_data (rombank * 65536 + randomByte rand j) := by
  constructor
  · intro h0
    by_contra hall
    obtain ⟨k, _, hk, hne, hlt⟩ := exists_first_failure
      (fun j => byteAt rom_data (rombank * 65536 + randomByte rand j) = byteAt file_data (rombank * 65536 + randomByte rand j))
      0 num_requests.toNat (fun hc => hall (fun w hw => hc w (Nat.zero_le w) (by omega)))
    rw [testRandomReadROMBytes_fail rom_data file_data rombank num_requests rand k (by omega) hne
      (fun j hj => hlt j (Nat.zero_le j) hj)] at h0
    simp at h0
  · intro h
    rw [testRandomReadROMBytes_pass rom_data file_data rombank num_requests rand h]

theorem testRandomReadROMBytes_ret_le_one (rom_data file_data : Region) (rombank : Nat)
    (num_requests : Int) (rand : Nat → Nat) :
    (testRandomReadROMBytes rom_data file_data rombank num_requests rand).ret = 0 ∨
      (testRandomReadROMBytes rom_data file_data rombank num_requests rand).ret = 1 := by
  by_cases hall : ∀ j, j < num_requests.toNat →
      byteAt rom_data (rombank * 65536 + randomByte rand j) = byteAt file_data (rombank * 65536 + randomByte rand j)
  · left
    rw [testRandomReadROMBytes_pass rom_data file_data rombank num_requests rand hall]
  · right
    obtain ⟨k, _, hk, hne, hlt⟩ := exists_first_failure
      (fun j => byteAt rom_data (rombank * 65536 + randomByte rand j) = byteAt file_data (rombank * 65536 + randomByte rand j))
      0 num_requests.toNat (fun hc => hall (fun w hw => hc w (Nat.zero_le w) (by omega)))
    rw [testRandomReadROMBytes_fail rom_data file_data rombank num_requests rand k (by omega) hne
      (fun j hj => hlt j (Nat.zero_le j) hj)]

theorem testRandomReadROMBytes_fail_indep (rom_data file_data : Region) (rombank : Nat)
    (num_requests : Int) (rand rand2 : Nat → Nat) (k : Nat) (hk : k < num_requests.toNat)
    (hne : byteAt rom_data (rombank * 65536 + randomByte rand k) ≠ byteAt file_data (rombank * 65536 + randomByte rand k))
    (hlt : ∀ j, j < k →
      byteAt rom_data (rombank * 65536 + randomByte rand j) = byteAt file_data (rombank * 65536 + randomByte rand j))
    (hsame : ∀ j, j ≤ k → rand2 j = rand j) :
    testRandomReadROMBytes rom_data file_data rombank num_requests rand2 =
      testRandomReadROMBytes rom_data file_data rombank num_requests rand := by
  have hpos : ∀ j, j ≤ k → randomByte rand2 j = randomByte rand j := by
    intro j hj
    unfold randomByte
    rw [hsame j hj]
  have hne2 : byteAt rom_data (rombank * 65536 + randomByte rand2 k) ≠ byteAt file_data (rombank * 65536 + randomByte rand2 k) := by
    rw [hpos k (Nat.le_refl k)]
    exact hne
  have hlt2 : ∀ j, j < k →
      byteAt rom_data (rombank * 65536 + randomByte rand2 j) = byteAt file_data (rombank * 65536 + randomByte rand2 j) := by
    intro j hj
    rw [hpos j (by omega)]
    exact hlt j hj
  rw [testRandomReadROMBytes_fail rom_data file_data rombank num_requests rand k hk hne hlt,
    testRandomReadROMBytes_fail rom_data file_data rombank num_requests rand2 k hk hne2 hlt2,
    hpos k (Nat.le_refl k),
    visitEvents_congr (randomByte rand2) (randomByte rand) 0 k (fun j _ h2 => hpos j (by omega))]

/-! ## Repeating the requests of an address line -/

theorem lineMismatchesOf_append (xs ys : List Event) :
    lineMismatchesOf (xs ++ ys) = lineMismatchesOf xs ++ lineMismatchesOf ys := by
  induction xs with
  | nil => rfl
  | cons e es ih => cases e <;> simp [lineMismatchesOf, ih]

theorem lineMismatchesOf_lineSpinnerUpdate (l : Nat) :
    lineMismatchesOf (lineSpinnerUpdate l) = [] := by
  unfold lineSpinnerUpdate; split <;> rfl

theorem lineMismatchesOf_replicate_read (r w : Nat) :
    lineMismatchesOf (List.replicate r (Event.read w)) = [] := by
  induction r with
  | zero => rfl
  | succ r ih => simp [List.replicate_succ, lineMismatchesOf, ih]

theorem lineMismatchesOf_lineEvents (reqs line n : Nat) :
    lineMismatchesOf (lineEvents reqs line n) = [] := by
  induction n generalizing line with
  | zero => rfl
  | succ n ih =>
    rw [lineEvents_succ]
    simp [lineMismatchesOf_append, lineMismatchesOf_replicate_read,
      lineMismatchesOf_lineSpinnerUpdate, ih]

theorem lineMismatchesOf_line_pass_events (t : TestId) (r : Nat) (q : Option Int)
    (reqs n : Nat) :
    lineMismatchesOf (Event.label t r q :: (lineEvents reqs 1 n ++ [Event.success])) = [] := by
  simp [lineMismatchesOf, lineMismatchesOf_append, lineMismatchesOf_lineEvents]

theorem lineMismatchesOf_line_fail_events (t : TestId) (r : Nat) (q : Option Int)
    (reqs n p a l e g : Nat) :
    lineMismatchesOf (Event.label t r q ::
      (lineEvents reqs 1 n ++ [Event.read p, Event.lineMismatch a l e g])) =
        [(a, l, e, g)] := by
  simp [lineMismatchesOf, lineMismatchesOf_append, lineMismatchesOf_lineEvents]

theorem readsOf_line_fail_events (t : TestId) (r : Nat) (q : Option Int)
    (reqs n p a l e g : Nat) :
    readsOf (Event.label t r q ::
      (lineEvents reqs 1 n ++ [Event.read p, Event.lineMismatch a l e g])) =
        readsOf (lineEvents reqs 1 n) ++ [p] := by
  simp [readsOf, readsOf_append]

theorem mem_readsOf_lineEvents_iff (reqs line n w : Nat) (hr : 0 < reqs) :
    w ∈ readsOf (lineEvents reqs line n) ↔ ∃ l, line ≤ l ∧ l < line + n ∧ w = lineWord l := by
  constructor
  · exact mem_readsOf_lineEvents reqs line n w
  · rintro ⟨l, h1, h2, h3⟩
    rw [h3]
    exact mem_readsOf_lineEvents_of_lt reqs line n l hr h1 h2

/-! ## Words against bytes -/

theorem wordAtLittleEndian_eq_iff (rom file : Region) (w : Nat) :
    wordAtLittleEndian rom w = wordAtLittleEndian file w ↔
      rom (2 * w) = file (2 * w) ∧ rom (2 * w + 1) = file (2 * w + 1) := by
  unfold wordAtLittleEndian
  constructor
  · intro h
    have h1 := (rom (2 * w)).isLt
    have h2 := (rom (2 * w + 1)).isLt
    have h3 := (file (2 * w)).isLt
    have h4 := (file (2 * w + 1)).isLt
    exact ⟨Fin.ext (by omega), Fin.ext (by omega)⟩
  · rintro ⟨h1, h2⟩
    rw [h1, h2]

/-- A word of the bank differs exactly when one of its two bytes does. -/
theorem bank_word_ne_iff (rom file : Region) (b w : Nat) :
    wordAt rom (b * 32768 + w) ≠ wordAt file (b * 32768 + w) ↔
      (byteAt rom (b * 65536 + 2 * w) ≠ byteAt file (b * 65536 + 2 * w) ∨
        byteAt rom (b * 65536 + (2 * w + 1)) ≠ byteAt file (b * 65536 + (2 * w + 1))) := by
  have e1 : 2 * (b * 32768 + w) = b * 65536 + 2 * w := by omega
  have e2 : 2 * (b * 32768 + w) + 1 = b * 65536 + (2 * w + 1) := by omega
  rw [Ne, wordAt_eq_iff, e2, e1, Ne, Ne, byteAt_eq_iff, byteAt_eq_iff]
  constructor
  · intro h
    by_contra hc
    exact h ⟨by_contra (fun h1 => hc (Or.inl h1)), by_contra (fun h2 => hc (Or.inr h2))⟩
  · rintro (h | h) ⟨h1, h2⟩
    · exact h h1
    · exact h h2

theorem bank_words_eq_iff_bytes_eq (rom file : Region) (b : Nat) :
    (∀ w, w < 32768 → wordAt rom (b * 32768 + w) = wordAt file (b * 32768 + w)) ↔
      (∀ a, a < 65536 → rom (b * 65536 + a) = file (b * 65536 + a)) := by
  constructor
  · intro h a ha
    have hw := (wordAt_eq_iff rom file (b * 32768 + a / 2)).1 (h (a / 2) (by omega))
    rcases Nat.mod_two_eq_zero_or_one a with h0 | h1
    · have e : 2 * (b * 32768 + a / 2) = b * 65536 + a := by omega
      rw [e] at hw
      exact hw.1
    · have e : 2 * (b * 32768 + a / 2) + 1 = b * 65536 + a := by omega
      rw [e] at hw
      exact hw.2
  · intro h w hw
    rw [wordAt_eq_iff]
    have e1 : 2 * (b * 32768 + w) = b * 65536 + 2 * w := by omega
    have e2 : 2 * (b * 32768 + w) + 1 = b * 65536 + (2 * w + 1) := by omega
    rw [e2, e1]
    exact ⟨h _ (by omega), h _ (by omega)⟩

/-- Counting pairs: if `pw w` holds exactly when `pb (2 w)` or `pb (2 w + 1)` does, the count
of `pb` over the first `2 n` numbers lies between the count of `pw` over the first `n` and
twice that. -/
theorem countP_pairs (pw pb : Nat → Prop) [DecidablePred pw] [DecidablePred pb]
    (h : ∀ w, pw w ↔ (pb (2 * w) ∨ pb (2 * w + 1))) (n : Nat) :
    (List.range n).countP (fun w => pw w) ≤ (List.range (2 * n)).countP (fun a => pb a) ∧
    (List.range (2 * n)).countP (fun a => pb a) ≤
      2 * (List.range n).countP (fun w => pw w) := by
  induction n with
  | zero => simp
  | succ n ih =>
    have e : 2 * (n + 1) = 2 * n + 1 + 1 := by omega
    rw [e, List.range_succ, List.range_succ, List.range_succ, List.countP_append,
      List.countP_append, List.countP_append]
    have hn := h n
    by_cases h1 : pb (2 * n) <;> by_cases h2 : pb (2 * n + 1) <;> by_cases h3 : pw n <;>
      simp [List.countP_cons, h1, h2, h3] at hn ⊢ <;> omega

/-! ## Sampling against the exhaustive test -/

theorem testRandomReadROMStats_same (rom_data file_data : Region) (rombank : Nat)
    (num_requests : Int) (rand : Nat → Nat)
    (h : ∀ j, j < num_requests.toNat →
      wordAt rom_data (rombank * 32768 + randomWord rand j) =
        wordAt file_data (rombank * 32768 + randomWord rand j)) :
    statsOf (testRandomReadROMStats rom_data file_data rombank num_requests rand).out =
        [(num_requests.toNat, 0)] ∧
      (testRandomReadROMStats rom_data file_data rombank num_requests rand).ret = 0 := by
  rw [testRandomReadROMStats_eq,
    statsOf_reportStats _ _ _ (statsOf_label_visitEvents _ _ _ _ _), reportStats_ret,
    countP_eq_of_all_eq
      (fun j => wordAt rom_data (rombank * 32768 + randomWord rand j))
      (fun j => wordAt file_data (rombank * 32768 + randomWord rand j)) _ h,
    (countP_ne_eq_zero_iff
      (fun j => wordAt rom_data (rombank * 32768 + randomWord rand j))
      (fun j => wordAt file_data (rombank * 32768 + randomWord rand j)) _).2 h]
  exact ⟨rfl, rfl⟩

theorem testRandomReadROMBytesStats_same (rom_data file_data : Region) (rombank : Nat)
    (num_requests : Int) (rand : Nat → Nat)
    (h : ∀ j, j < num_requests.toNat →
      byteAt rom_data (rombank * 65536 + randomByte rand j) =
        byteAt file_data (rombank * 65536 + randomByte rand j)) :
    statsOf (testRandomReadROMBytesStats rom_data file_data rombank num_requests rand).out =
        [(num_requests.toNat, 0)] ∧
      (testRandomReadROMBytesStats rom_data file_data rombank num_requests rand).ret = 0 := by
  rw [testRandomReadROMBytesStats_eq,
    statsOf_reportStats _ _ _ (statsOf_label_visitEvents _ _ _ _ _), reportStats_ret,
    countP_eq_of_all_eq
      (fun j => byteAt rom_data (rombank * 65536 + randomByte rand j))
      (fun j => byteAt file_data (rombank * 65536 + randomByte rand j)) _ h,
    (countP_ne_eq_zero_iff
      (fun j => byteAt rom_data (rombank * 65536 + randomByte rand j))
      (fun j => byteAt file_data (rombank * 65536 + randomByte rand j)) _).2 h]
  exact ⟨rfl, rfl⟩

/-- When the sequential word test passes, every sampling test passes. -/
theorem sampling_passes_of_sequential_pass (rom_data file_data : Region) (rombank : Nat)
    (h : (testSequentialReadROM rom_data file_data rombank).ret = 0) (num_requests : Int)
    (rand : Nat → Nat) :
    (testRandomReadROM rom_data file_data rombank num_requests rand).ret = 0 ∧
    (testRandomReadROMBytes rom_data file_data rombank num_requests rand).ret = 0 ∧
    (testAddressLinesSequentialReadROM rom_data file_data rombank num_requests).ret = 0 ∧
    (statsOf (testRandomReadROMStats rom_data file_data rombank num_requests rand).out =
        [(num_requests.toNat, 0)] ∧
      (testRandomReadROMStats rom_data file_data rombank num_requests rand).ret = 0) ∧
    (statsOf (testRandomReadROMBytesStats rom_data file_data rombank num_requests rand).out =
        [(num_requests.toNat, 0)] ∧
      (testRandomReadROMBytesStats rom_data file_data rombank num_requests rand).ret = 0) := by
  have hw := (testSequentialReadROM_ret_zero_iff rom_data file_data rombank).1 h
  have hby := (bank_words_eq_iff_bytes_eq rom_data file_data rombank).1 hw
  have hrw : ∀ j, j < num_requests.toNat →
      wordAt rom_data (rombank * 32768 + randomWord rand j) =
        wordAt file_data (rombank * 32768 + randomWord rand j) :=
    fun j _ => hw _ (randomWord_lt rand j)
  have hrb : ∀ j, j < num_requests.toNat →
      byteAt rom_data (rombank * 65536 + randomByte rand j) =
        byteAt file_data (rombank * 65536 + randomByte rand j) :=
    fun j _ => (byteAt_eq_iff _ _ _).2 (hby _ (randomByte_lt rand j))
  refine ⟨?_, ?_, ?_, testRandomReadROMStats_same _ _ _ _ _ hrw,
    testRandomReadROMBytesStats_same _ _ _ _ _ hrb⟩
  · rw [testRandomReadROM_pass rom_data file_data rombank num_requests rand hrw]
  · rw [testRandomReadROMBytes_pass rom_data file_data rombank num_requests rand hrb]
  · rw [testAddressLinesSequentialReadROM_pass rom_data file_data rombank num_requests
      (fun l h1 h2 => hw _ (by have := lineWord_lt l h1 h2; unfold lineWord; omega))]

/-! ## The checks made by `run` -/

theorem versionOutcomesOf_append (xs ys : List RunEvent) :
    versionOutcomesOf (xs ++ ys) = versionOutcomesOf xs ++ versionOutcomesOf ys := by
  induction xs with
  | nil => rfl
  | cons e es ih => cases e <;> simp [versionOutcomesOf, ih]

theorem versionOutcomesOf_runTests (VERSION : List Nat) (debug : Bool)
    (rom_memory data : Region) (rand : Nat → Nat → Nat) :
    versionOutcomesOf (runTests VERSION debug rom_memory data rand) =
      [testDifferentVersions VERSION rom_memory] := rfl

/-- The run when the image is loaded and has the right size. -/
theorem run_loaded (VERSION : List Nat) (debug highRes : Bool) (env : LoadEnv)
    (data rom_memory : Region) (rand : Nat → Nat → Nat)
    (hload : load_binary_file env = Except.ok (data, 128 * 1024)) :
    run VERSION debug highRes env rom_memory rand =
      [RunEvent.screenSetup highRes, RunEvent.banner VERSION] ++
      ([RunEvent.loaded (128 * 1024), RunEvent.romAddress ROM_MEMORY_START] ++
        runTests VERSION debug rom_memory data rand) ++
      [RunEvent.pressAnyKey, RunEvent.screenRestore] := by
  unfold run
  rw [hload]
  rfl

/-- The run when the image is loaded and has the wrong size. -/
theorem run_wrong_size (VERSION : List Nat) (debug highRes : Bool) (env : LoadEnv)
    (data rom_memory : Region) (file_size : Nat) (rand : Nat → Nat → Nat)
    (hload : load_binary_file env = Except.ok (data, file_size))
    (h : file_size ≠ 128 * 1024) :
    run VERSION debug highRes env rom_memory rand =
      [RunEvent.screenSetup highRes, RunEvent.banner VERSION, RunEvent.wrongSize,
        RunEvent.pressAnyKey, RunEvent.screenRestore] := by
  unfold run
  rw [hload]
  simp [h]

/-- The run when loading fails. -/
theorem run_load_failed (VERSION : List Nat) (debug highRes : Bool) (env : LoadEnv)
    (rom_memory : Region) (rand : Nat → Nat → Nat) (e : LoadError)
    (h : load_binary_file env = Except.error e) :
    run VERSION debug highRes env rom_memory rand =
      [RunEvent.screenSetup highRes, RunEvent.banner VERSION, RunEvent.loadError e,
        RunEvent.notFound, RunEvent.pressAnyKey, RunEvent.screenRestore] := by
  unfold run
  rw [h]
  rfl

theorem versionOutcomesOf_run_loaded (VERSION : List Nat) (debug highRes : Bool)
    (env : LoadEnv) (data rom_memory : Region) (rand : Nat → Nat → Nat)
    (hload : load_binary_file env = Except.ok (data, 128 * 1024)) :
    versionOutcomesOf (run VERSION debug highRes env rom_memory rand) =
      [testDifferentVersions VERSION rom_memory] := by
  rw [run_loaded VERSION debug highRes env data rom_memory rand hload,
    versionOutcomesOf_append, versionOutcomesOf_append, versionOutcomesOf_append,
    versionOutcomesOf_runTests]
  rfl

/-! ## The version check -/

theorem cString_append_zero (l : List Nat) (h : ∀ c, c ∈ l → c ≠ 0) :
    cString (l ++ [0]) = l := by
  induction l with
  | nil => rfl
  | cons c cs ih =>
    have hc : c ≠ 0 := h c (List.mem_cons_self c cs)
    have hcs : ∀ d, d ∈ cs → d ≠ 0 := fun d hd => h d (List.mem_cons_of_mem c hd)
    simp [cString, hc, ih hcs]

theorem cString_length_le (l : List Nat) : (cString (l ++ [0])).length ≤ l.length := by
  induction l with
  | nil => simp [cString]
  | cons c cs ih =>
    by_cases hc : c = 0
    · simp [cString, hc]
    · simp [cString, hc]
      exact ih

theorem cString_eq_of_length (l : List Nat) (h : (cString (l ++ [0])).length = l.length) :
    cString (l ++ [0]) = l := by
  induction l with
  | nil => rfl
  | cons c cs ih =>
    by_cases hc : c = 0
    · simp [cString, hc] at h
    · simp [cString, hc] at h ⊢
      exact ih h

theorem testDifferentVersions_ret_zero_iff (VERSION : List Nat) (rom_data : Region) :
    (testDifferentVersions VERSION rom_data).ret = 0 ↔
      cString ((List.range 11).map (fun i => byteAt rom_data (4 + i)) ++ [0]) =
        cString (VERSION ++ [0]) := by
  unfold testDifferentVersions strcmp_differs
  by_cases h : cString ((List.range 11).map (fun i => byteAt rom_data (4 + i)) ++ [0]) =
      cString (VERSION ++ [0])
  · simp [h]
  · simp [h]

theorem testDifferentVersions_ret_le_one (VERSION : List Nat) (rom_data : Region) :
    (testDifferentVersions VERSION rom_data).ret = 0 ∨
      (testDifferentVersions VERSION rom_data).ret = 1 := by
  unfold testDifferentVersions
  by_cases h : strcmp_differs ((List.range 11).map (fun i => byteAt rom_data (4 + i)) ++ [0])
      (VERSION ++ [0]) = true
  · right; simp [h]
  · left; simp [h]

theorem testDifferentVersions_congr (VERSION : List Nat) (rom_data rom_data2 : Region)
    (h : ∀ i, i < 11 → rom_data2 (4 + i) = rom_data (4 + i)) :
    testDifferentVersions VERSION rom_data2 = testDifferentVersions VERSION rom_data := by
  have e : (List.range 11).map (fun i => byteAt rom_data2 (4 + i)) =
      (List.range 11).map (fun i => byteAt rom_data (4 + i)) := by
    apply List.map_congr_left
    intro i hi
    rw [List.mem_range] at hi
    unfold byteAt
    rw [h i hi]
  unfold testDifferentVersions
  rw [e]

/-! ## No request at all -/

theorem readsOf_lineEvents_idle (line n : Nat) : readsOf (lineEvents 0 line n) = [] := by
  induction n generalizing line with
  | zero => rfl
  | succ n ih =>
    rw [lineEvents_succ]
    simp [readsOf_append, readsOf_lineSpinnerUpdate, ih, readsOf]

theorem toNat_eq_zero_of_nonpos (num_requests : Int) (h : num_requests ≤ 0) :
    num_requests.toNat = 0 := by
  omega

/-! ## The progress spinner -/

theorem spinsOf_append (xs ys : List Event) : spinsOf (xs ++ ys) = spinsOf xs ++ spinsOf ys := by
  induction xs with
  | nil => rfl
  | cons e es ih => cases e <;> simp [spinsOf, ih]

theorem spinsOf_spinnerUpdate (i : Nat) :
    spinsOf (spinnerUpdate i) =
      if i % SPINNER_UPDATE_FREQUENCY = 0 then
        [spinner.getD ((i / SPINNER_UPDATE_FREQUENCY) % 4) 0]
      else [] := by
  unfold spinnerUpdate
  split <;> rfl

theorem spinsOf_visitEvents (pos : Nat → Nat) (i n : Nat) :
    spinsOf (visitEvents pos i n) =
      ((List.range' i n).filter (fun j => j % SPINNER_UPDATE_FREQUENCY = 0)).map
        (fun j => spinner.getD ((j / SPINNER_UPDATE_FREQUENCY) % 4) 0) := by
  induction n generalizing i with
  | zero => rfl
  | succ n ih =>
    rw [visitEvents_succ, List.range'_succ, spinsOf_append, ih]
    by_cases h : i % SPINNER_UPDATE_FREQUENCY = 0
    · simp [spinsOf, spinsOf_append, spinsOf_spinnerUpdate, h, List.filter_cons]
    · simp [spinsOf, spinsOf_append, spinsOf_spinnerUpdate, h, List.filter_cons]

theorem spinsOf_pass_events (t : TestId) (r : Nat) (q : Option Int) (pos : Nat → Nat)
    (n : Nat) :
    spinsOf (Event.label t r q :: (visitEvents pos 0 n ++ [Event.success])) =
      spinnerGlyphs n := by
  simp [spinsOf, spinsOf_append, spinsOf_visitEvents, spinnerGlyphs, List.range_eq_range']

theorem spinsOf_fail_events (t : TestId) (r : Nat) (q : Option Int) (pos : Nat → Nat)
    (k p a e g : Nat) :
    spinsOf (Event.label t r q ::
      (visitEvents pos 0 k ++ [Event.read p, Event.mismatch a e g])) = spinnerGlyphs k := by
  simp [spinsOf, spinsOf_append, spinsOf_visitEvents, spinnerGlyphs, List.range_eq_range']

theorem spinsOf_reportStats (s f : Nat) (t : TestId) (r : Nat) (q : Option Int)
    (pos : Nat → Nat) (n : Nat) :
    spinsOf (reportStats ⟨s, f, Event.label t r q :: visitEvents pos 0 n⟩).out =
      spinnerGlyphs n := by
  simp [reportStats, spinsOf, spinsOf_append, spinsOf_visitEvents, spinnerGlyphs,
    List.range_eq_range']

theorem lineSpinnerUpdate_eq_nil (line : Nat) (h1 : 1 ≤ line) (h2 : line < 4096) :
    lineSpinnerUpdate line = [] := by
  unfold lineSpinnerUpdate SPINNER_UPDATE_FREQUENCY
  have h : ¬ line % 4096 = 0 := by omega
  simp [h]

theorem spinsOf_replicate_read (r w : Nat) :
    spinsOf (List.replicate r (Event.read w)) = [] := by
  induction r with
  | zero => rfl
  | succ r ih => simp [List.replicate_succ, spinsOf, ih]

theorem spinsOf_lineEvents (reqs line n : Nat) (h1 : 1 ≤ line) (h2 : line + n ≤ 4096) :
    spinsOf (lineEvents reqs line n) = [] := by
  induction n generalizing line with
  | zero => rfl
  | succ n ih =>
    rw [lineEvents_succ, spinsOf_append, spinsOf_append, spinsOf_replicate_read,
      lineSpinnerUpdate_eq_nil line h1 (by omega), ih (line + 1) (by omega) (by omega)]
    rfl

theorem spinsOf_line_pass_events (t : TestId) (r : Nat) (q : Option Int) (reqs n : Nat)
    (h : 1 + n ≤ 4096) :
    spinsOf (Event.label t r q :: (lineEvents reqs 1 n ++ [Event.success])) = [] := by
  simp [spinsOf, spinsOf_append, spinsOf_lineEvents reqs 1 n (Nat.le_refl 1) h]

theorem spinsOf_line_fail_events (t : TestId) (r : Nat) (q : Option Int)
    (reqs n p a l e g : Nat) (h : 1 + n ≤ 4096) :
    spinsOf (Event.label t r q ::
      (lineEvents reqs 1 n ++ [Event.read p, Event.lineMismatch a l e g])) = [] := by
  simp [spinsOf, spinsOf_append, spinsOf_lineEvents reqs 1 n (Nat.le_refl 1) h]

theorem testAddressLinesSequentialReadROM_spins (rom_data file_data : Region) (rombank : Nat)
    (num_requests : Int) :
    spinsOf (testAddressLinesSequentialReadROM rom_data file_data rombank num_requests).out =
      [] := by
  by_cases hreq : num_requests.toNat = 0
  · rw [testAddressLinesSequentialReadROM_idle rom_data file_data rombank num_requests hreq]
    exact spinsOf_line_pass_events _ _ _ _ _ (by omega)
  by_cases hall : ∀ l, 1 ≤ l → l ≤ 14 →
      wordAt rom_data (rombank * 32768 + lineWord l) =
        wordAt file_data (rombank * 32768 + lineWord l)
  · rw [testAddressLinesSequentialReadROM_pass rom_data file_data rombank num_requests hall]
    exact spinsOf_line_pass_events _ _ _ _ _ (by omega)
  · obtain ⟨k, hk1, hk2, hne, hlt⟩ := exists_first_failure
      (fun l => wordAt rom_data (rombank * 32768 + lineWord l) =
        wordAt file_data (rombank * 32768 + lineWord l))
      1 14 (fun hc => hall (fun l h1 h2 => hc l h1 (by omega)))
    rw [testAddressLinesSequentialReadROM_fail rom_data file_data rombank num_requests k
      (by omega) hk1 (by omega) hne hlt]
    exact spinsOf_line_fail_events _ _ _ _ _ _ _ _ _ _ (by omega)

theorem spinner_index_lt (i : Nat) : (i / SPINNER_UPDATE_FREQUENCY) % 4 < spinner.length := by
  have h : spinner.length = 4 := rfl
  rw [h]
  exact Nat.mod_lt _ (by decide)

theorem spinner_getD_mem (k : Nat) (h : k < spinner.length) : spinner.getD k 0 ∈ spinner := by
  have h4 : spinner.length = 4 := rfl
  rw [h4] at h
  interval_cases k <;> decide

/-! ## The complete report of a fail-fast routine -/

theorem readsOf_fail_events_concat (t : TestId) (r : Nat) (q : Option Int) (pos : Nat → Nat)
    (k a e g : Nat) :
    readsOf (Event.label t r q ::
      (visitEvents pos 0 k ++ [Event.read (pos k), Event.mismatch a e g])) =
        (List.range k).map pos ++ [pos k] := by
  simp [readsOf, readsOf_append, readsOf_visitEvents, List.range_eq_range']

theorem testSequentialReadROM_report (rom_data file_data : Region) (rombank : Nat) :
    ((testSequentialReadROM rom_data file_data rombank).ret = 0 ∧
      mismatchesOf (testSequentialReadROM rom_data file_data rombank).out = []) ∨
    ((testSequentialReadROM rom_data file_data rombank).ret = 1 ∧
      ∃ off, off < 32768 ∧
        wordAt rom_data (rombank * 32768 + off) ≠ wordAt file_data (rombank * 32768 + off) ∧
        (∃ earlier, readsOf (testSequentialReadROM rom_data file_data rombank).out = earlier ++ [off]) ∧
        mismatchesOf (testSequentialReadROM rom_data file_data rombank).out =
          [(real_memory rombank (off * 2), wordAt file_data (rombank * 32768 + off),
            wordAt rom_data (rombank * 32768 + off))]) := by
  by_cases hall : ∀ w, w < 32768 →
      wordAt rom_data (rombank * 32768 + w) = wordAt file_data (rombank * 32768 + w)
  · left
    rw [testSequentialReadROM_pass rom_data file_data rombank hall]
    exact ⟨rfl, mismatchesOf_pass_events _ _ _ _ _⟩
  · right
    obtain ⟨k, _, hk, hne, hlt⟩ := exists_first_failure
      (fun j => wordAt rom_data (rombank * 32768 + j) = wordAt file_data (rombank * 32768 + j))
      0 32768 (fun hc => hall (fun w hw => hc w (Nat.zero_le w) (by omega)))
    have hf := testSequentialReadROM_fail rom_data file_data rombank k (by omega) hne
      (fun j hj => hlt j (Nat.zero_le j) hj)
    rw [hf]
    refine ⟨rfl, k, by omega, hne, ⟨(List.range k).map (fun j => j), ?_⟩, ?_⟩
    · exact readsOf_fail_events_concat _ _ _ (fun j => j) k _ _ _
    · exact mismatchesOf_fail_events _ _ _ _ _ _ _ _ _

theorem testSequentialReadROMBytes_report (rom_data file_data : Region) (rombank : Nat) :
    ((testSequentialReadROMBytes rom_data file_data rombank).ret = 0 ∧
      mismatchesOf (testSequentialReadROMBytes rom_data file_data rombank).out = []) ∨
    ((testSequentialReadROMBytes rom_data file_data rombank).ret = 1 ∧
      ∃ off, off < 65536 ∧
        byteAt rom_data (rombank * 65536 + off) ≠ byteAt file_data (rombank * 65536 + off) ∧
        (∃ earlier, readsOf (testSequentialReadROMBytes rom_data file_data rombank).out = earlier ++ [off]) ∧
        mismatchesOf (testSequentialReadROMBytes rom_data file_data rombank).out =
          [(real_memory rombank (off), byteAt file_data (rombank * 65536 + off),
            byteAt rom_data (rombank * 65536 + off))]) := by
  by_cases hall : ∀ a, a < 65536 →
      rom_data (rombank * 65536 + a) = file_data (rombank * 65536 + a)
  · left
    rw [testSequentialReadROMBytes_pass rom_data file_data rombank hall]
    exact ⟨rfl, mismatchesOf_pass_events _ _ _ _ _⟩
  · right
    obtain ⟨k, _, hk, hne, hlt⟩ := exists_first_failure
      (fun j => rom_data (rombank * 65536 + j) = file_data (rombank * 65536 + j))
      0 65536 (fun hc => hall (fun w hw => hc w (Nat.zero_le w) (by omega)))
    have hf := testSequentialReadROMBytes_fail rom_data file_data rombank k (by omega) hne
      (fun j hj => hlt j (Nat.zero_le j) hj)
    rw [hf]
    refine ⟨rfl, k, by omega, fun h => hne (Fin.ext h), ⟨(List.range k).map (fun j => j), ?_⟩, ?_⟩
    · exact readsOf_fail_events_concat _ _ _ (fun j => j) k _ _ _
    · exact mismatchesOf_fail_events _ _ _ _ _ _ _ _ _

theorem testRandomReadROM_report (rom_data file_data : Region) (rombank : Nat)
    (num_requests : Int) (rand : Nat → Nat) :
    ((testRandomReadROM rom_data file_data rombank num_requests rand).ret = 0 ∧
      mismatchesOf (testRandomReadROM rom_data file_data rombank num_requests rand).out = []) ∨
    ((testRandomReadROM rom_data file_data rombank num_requests rand).ret = 1 ∧
      ∃ off, off < 32768 ∧
        wordAt rom_data (rombank * 32768 + off) ≠ wordAt file_data (rombank * 32768 + off) ∧
        (∃ earlier, readsOf (testRandomReadROM rom_data file_data rombank num_requests rand).out = earlier ++ [off]) ∧
        mismatchesOf (testRandomReadROM rom_data file_data rombank num_requests rand).out =
          [(real_memory rombank (off * 2), wordAt file_data (rombank * 32768 + off),
            wordAt rom_data (rombank * 32768 + off))]) := by
  by_cases hall : ∀ j, j < num_requests.toNat →
      wordAt rom_data (rombank * 32768 + randomWord rand j) =
        wordAt file_data (rombank * 32768 + randomWord rand j)
  · left
    rw [testRandomReadROM_pass rom_data file_data rombank num_requests rand hall]
    exact ⟨rfl, mismatchesOf_pass_events _ _ _ _ _⟩
  · right
    obtain ⟨k, _, hk, hne, hlt⟩ := exists_first_failure
      (fun j => wordAt rom_data (rombank * 32768 + randomWord rand j) = wordAt file_data (rombank * 32768 + randomWord rand j))
      0 num_requests.toNat (fun hc => hall (fun w hw => hc w (Nat.zero_le w) (by omega)))
    have hf := testRandomReadROM_fail rom_data file_data rombank num_requests rand k (by omega) hne
      (fun j hj => hlt j (Nat.zero_le j) hj)
    rw [hf]
    refine ⟨rfl, randomWord rand k, randomWord_lt rand k, hne, ⟨(List.range k).map (randomWord rand), ?_⟩, ?_⟩
    · exact readsOf_fail_events_concat _ _ _ (randomWord rand) k _ _ _
    · exact mismatchesOf_fail_events _ _ _ _ _ _ _ _ _

theorem testRandomReadROMBytes_report (rom_data file_data : Region) (rombank : Nat)
    (num_requests : Int) (rand : Nat → Nat) :
    ((testRandomReadROMBytes rom_data file_data rombank num_requests rand).ret = 0 ∧
      mismatchesOf (testRandomReadROMBytes rom_data file_data rombank num_requests rand).out = []) ∨
    ((testRandomReadROMBytes rom_data file_data rombank num_requests rand).ret = 1 ∧
      ∃ off, off < 65536 ∧
        byteAt rom_data (rombank * 65536 + off) ≠ byteAt file_data (rombank * 65536 + off) ∧
        (∃ earlier, readsOf (testRandomReadROMBytes rom_data file_data rombank num_requests rand).out = earlier ++ [off]) ∧
        mismatchesOf (testRandomReadROMBytes rom_data file_data rombank num_requests rand).out =
          [(real_memory rombank (off), byteAt file_data (rombank * 65536 + off),
            byteAt rom_data (rombank * 65536 + off))]) := by
  by_cases hall : ∀ j, j < num_requests.toNat →
      byteAt rom_data (rombank * 65536 + randomByte rand j) =
        byteAt file_data (rombank * 65536 + randomByte rand j)
  · left
    rw [testRandomReadROMBytes_pass rom_data file_data rombank num_requests rand hall]
    exact ⟨rfl, mismatchesOf_pass_events _ _ _ _ _⟩
  · right
    obtain ⟨k, _, hk, hne, hlt⟩ := exists_first_failure
      (fun j => byteAt rom_data (rombank * 65536 + randomByte rand j) = byteAt file_data (rombank * 65536 + randomByte rand j))
      0 num_requests.toNat (fun hc => hall (fun w hw => hc w (Nat.zero_le w) (by omega)))
    have hf := testRandomReadROMBytes_fail rom_data file_data rombank num_requests rand k (by omega) hne
      (fun j hj => hlt j (Nat.zero_le j) hj)
    rw [hf]
    refine ⟨rfl, randomByte rand k, randomByte_lt rand k, hne, ⟨(List.range k).map (randomByte rand), ?_⟩, ?_⟩
    · exact readsOf_fail_events_concat _ _ _ (randomByte rand) k _ _ _
    · exact mismatchesOf_fail_events _ _ _ _ _ _ _ _ _

theorem testAddressLinesSequentialReadROM_report (rom_data file_data : Region)
    (rombank : Nat) (num_requests : Int) :
    ((testAddressLinesSequentialReadROM rom_data file_data rombank num_requests).ret = 0 ∧
      mismatchesOf (testAddressLinesSequentialReadROM rom_data file_data rombank
        num_requests).out = [] ∧
      lineMismatchesOf (testAddressLinesSequentialReadROM rom_data file_data rombank
        num_requests).out = []) ∨
    ((testAddressLinesSequentialReadROM rom_data file_data rombank num_requests).ret = 1 ∧
      ∃ line, 1 ≤ line ∧ line ≤ 14 ∧
        wordAt rom_data (rombank * 32768 + lineWord line) ≠
          wordAt file_data (rombank * 32768 + lineWord line) ∧
        (∃ earlier,
          readsOf (testAddressLinesSequentialReadROM rom_data file_data rombank
            num_requests).out = earlier ++ [lineWord line]) ∧
        mismatchesOf (testAddressLinesSequentialReadROM rom_data file_data rombank
          num_requests).out =
          [(real_memory rombank (1 <<< line),
            wordAt file_data (rombank * 32768 + lineWord line),
            wordAt rom_data (rombank * 32768 + lineWord line))] ∧
        lineMismatchesOf (testAddressLinesSequentialReadROM rom_data file_data rombank
          num_requests).out =
          [(real_memory rombank (1 <<< line), line,
            wordAt file_data (rombank * 32768 + lineWord line),
            wordAt rom_data (rombank * 32768 + lineWord line))]) := by
  by_cases hreq : num_requests.toNat = 0
  · left
    rw [testAddressLinesSequentialReadROM_idle rom_data file_data rombank num_requests hreq]
    exact ⟨rfl, mismatchesOf_line_pass_events _ _ _ _ _,
      lineMismatchesOf_line_pass_events _ _ _ _ _⟩
  by_cases hall : ∀ l, 1 ≤ l → l ≤ 14 →
      wordAt rom_data (rombank * 32768 + lineWord l) =
        wordAt file_data (rombank * 32768 + lineWord l)
  · left
    rw [testAddressLinesSequentialReadROM_pass rom_data file_data rombank num_requests hall]
    exact ⟨rfl, mismatchesOf_line_pass_events _ _ _ _ _,
      lineMismatchesOf_line_pass_events _ _ _ _ _⟩
  · right
    obtain ⟨k, hk1, hk2, hne, hlt⟩ := exists_first_failure
      (fun l => wordAt rom_data (rombank * 32768 + lineWord l) =
        wordAt file_data (rombank * 32768 + lineWord l))
      1 14 (fun hc => hall (fun l h1 h2 => hc l h1 (by omega)))
    rw [testAddressLinesSequentialReadROM_fail rom_data file_data rombank num_requests k
      (by omega) hk1 (by omega) hne hlt]
    exact ⟨rfl, k, hk1, by omega, hne, ⟨_, readsOf_line_fail_events _ _ _ _ _ _ _ _ _ _⟩,
      mismatchesOf_line_fail_events _ _ _ _ _ _ _ _ _ _,
      lineMismatchesOf_line_fail_events _ _ _ _ _ _ _ _ _ _⟩

/-! ## Facts about the two sample regions -/

theorem lineZeroRegion_agrees (a : Nat) (h : a ≠ 1) : lineZeroRegion a = zeroRegion a := by
  simp [lineZeroRegion, zeroRegion, h]

theorem lineZeroRegion_word_agrees (w : Nat) (h : 1 ≤ w) :
    wordAt lineZeroRegion w = wordAt zeroRegion w := by
  rw [wordAt_eq_iff]
  exact ⟨lineZeroRegion_agrees _ (by omega), lineZeroRegion_agrees _ (by omega)⟩

theorem flippedRegion_byte_differs :
    flippedRegion (1 * 65536 + 100) ≠ zeroRegion (1 * 65536 + 100) := by decide

theorem flippedRegion_byte_agrees (a : Nat) (h : a ≠ 65536 + 100) :
    flippedRegion a = zeroRegion a := by
  simp [flippedRegion, zeroRegion, h]

theorem flippedRegion_word_differs :
    wordAt flippedRegion (1 * 32768 + 50) ≠ wordAt zeroRegion (1 * 32768 + 50) := by decide

theorem flippedRegion_word_agrees (w : Nat) (h : w ≠ 32768 + 50) :
    wordAt flippedRegion w = wordAt zeroRegion w := by
  rw [wordAt_eq_iff]
  exact ⟨flippedRegion_byte_agrees _ (by omega), flippedRegion_byte_agrees _ (by omega)⟩

/-! ## Claims -/

/-- C1: the fail-fast sequential routines return 0 exactly when every unit of the bank's
64 KiB window (32768 words for `testSequentialReadROM`, 65536 bytes for
`testSequentialReadROMBytes`) is equal in the device and the reference region, and return 1
otherwise. -/
theorem sequential_failfast_zero_iff_window_equal (rom_data file_data : Region)
    (rombank : Nat) :
    ((testSequentialReadROM rom_data file_data rombank).ret = 0 ↔
      ∀ w, w < 32768 →
        wordAt rom_data (rombank * 32768 + w) = wordAt file_data (rombank * 32768 + w)) ∧
    ((testSequentialReadROM rom_data file_data rombank).ret = 1 ↔
      ¬ ∀ w, w < 32768 →
        wordAt rom_data (rombank * 32768 + w) = wordAt file_data (rombank * 32768 + w)) ∧
    ((testSequentialReadROMBytes rom_data file_data rombank).ret = 0 ↔
      ∀ a, a < 65536 → rom_data (rombank * 65536 + a) = file_data (rombank * 65536 + a)) ∧
    ((testSequentialReadROMBytes rom_data file_data rombank).ret = 1 ↔
      ¬ ∀ a, a < 65536 → rom_data (rombank * 65536 + a) = file_data (rombank * 65536 + a)) := by
  have hw := testSequentialReadROM_ret_zero_iff rom_data file_data rombank
  have hw1 := testSequentialReadROM_ret_le_one rom_data file_data rombank
  have hb := testSequentialReadROMBytes_ret_zero_iff rom_data file_data rombank
  have hb1 := testSequentialReadROMBytes_ret_le_one rom_data file_data rombank
  refine ⟨hw, ?_, hb, ?_⟩
  · rw [← hw]; omega
  · rw [← hb]; omega

/-- C2: when the bank window differs, with `k` the least differing index, the fail-fast
sequential routines return 1, print exactly one mismatch line, whose address is
`rombank * 65536 + 0xFA0000 + k * unit size`, whose expected value is the reference unit at `k`
and whose actual value is the device unit at `k`, and read the positions `0, ..., k` only. -/
theorem sequential_failfast_reports_first_difference (rom_data file_data : Region)
    (rombank : Nat) (hb : rombank ≤ 1) :
    (∀ k, k < 32768 →
      wordAt rom_data (rombank * 32768 + k) ≠ wordAt file_data (rombank * 32768 + k) →
      (∀ j, j < k →
        wordAt rom_data (rombank * 32768 + j) = wordAt file_data (rombank * 32768 + j)) →
      (testSequentialReadROM rom_data file_data rombank).ret = 1 ∧
      mismatchesOf (testSequentialReadROM rom_data file_data rombank).out =
        [(rombank * 65536 + 0xFA0000 + k * 2, wordAt file_data (rombank * 32768 + k),
          wordAt rom_data (rombank * 32768 + k))] ∧
      readsOf (testSequentialReadROM rom_data file_data rombank).out = List.range (k + 1) ∧
      ∀ p, p ∈ readsOf (testSequentialReadROM rom_data file_data rombank).out → p ≤ k) ∧
    (∀ k, k < 65536 →
      rom_data (rombank * 65536 + k) ≠ file_data (rombank * 65536 + k) →
      (∀ j, j < k → rom_data (rombank * 65536 + j) = file_data (rombank * 65536 + j)) →
      (testSequentialReadROMBytes rom_data file_data rombank).ret = 1 ∧
      mismatchesOf (testSequentialReadROMBytes rom_data file_data rombank).out =
        [(rombank * 65536 + 0xFA0000 + k, byteAt file_data (rombank * 65536 + k),
          byteAt rom_data (rombank * 65536 + k))] ∧
      readsOf (testSequentialReadROMBytes rom_data file_data rombank).out = List.range (k + 1) ∧
      ∀ p, p ∈ readsOf (testSequentialReadROMBytes rom_data file_data rombank).out → p ≤ k) := by
  constructor
  · intro k hk hne hlt
    have hreads : readsOf (testSequentialReadROM rom_data file_data rombank).out =
        List.range (k + 1) := by
      rw [testSequentialReadROM_fail rom_data file_data rombank k hk hne hlt]
      simp [readsOf, readsOf_append, readsOf_visitEvents, List.range_eq_range',
        List.range'_concat]
    refine ⟨?_, ?_, hreads, ?_⟩
    · rw [testSequentialReadROM_fail rom_data file_data rombank k hk hne hlt]
    · rw [testSequentialReadROM_fail rom_data file_data rombank k hk hne hlt]
      simp [mismatchesOf, mismatchesOf_append, mismatchesOf_visitEvents,
        real_memory_eq rombank (k * 2) hb (by omega)]
    · intro p hp
      rw [hreads, List.mem_range] at hp
      omega
  · intro k hk hne hlt
    have hreads : readsOf (testSequentialReadROMBytes rom_data file_data rombank).out =
        List.range (k + 1) := by
      rw [testSequentialReadROMBytes_fail rom_data file_data rombank k hk hne hlt]
      simp [readsOf, readsOf_append, readsOf_visitEvents, List.range_eq_range',
        List.range'_concat]
    refine ⟨?_, ?_, hreads, ?_⟩
    · rw [testSequentialReadROMBytes_fail rom_data file_data rombank k hk hne hlt]
    · rw [testSequentialReadROMBytes_fail rom_data file_data rombank k hk hne hlt]
      simp [mismatchesOf, mismatchesOf_append, mismatchesOf_visitEvents,
        real_memory_eq rombank k hb (by omega)]
    · intro p hp
      rw [hreads, List.mem_range] at hp
      omega

/-- Instance of C2: bank 1 of the zero-filled reference against the device with one byte flipped
at offset `65536 + 100`; the least differing word is 50, the least differing byte is 100. -/
theorem sequential_failfast_reports_first_difference_witness :
    ((1 ≤ 1 ∧ 50 < 32768 ∧
        wordAt flippedRegion (1 * 32768 + 50) ≠ wordAt zeroRegion (1 * 32768 + 50) ∧
        (∀ j, j < 50 →
          wordAt flippedRegion (1 * 32768 + j) = wordAt zeroRegion (1 * 32768 + j))) ∧
      ((testSequentialReadROM flippedRegion zeroRegion 1).ret = 1 ∧
        mismatchesOf (testSequentialReadROM flippedRegion zeroRegion 1).out =
          [(0xFB0064, 0, 256)] ∧
        readsOf (testSequentialReadROM flippedRegion zeroRegion 1).out = List.range (50 + 1) ∧
        ∀ p, p ∈ readsOf (testSequentialReadROM flippedRegion zeroRegion 1).out → p ≤ 50)) ∧
    ((100 < 65536 ∧ flippedRegion (1 * 65536 + 100) ≠ zeroRegion (1 * 65536 + 100) ∧
        (∀ j, j < 100 → flippedRegion (1 * 65536 + j) = zeroRegion (1 * 65536 + j))) ∧
      ((testSequentialReadROMBytes flippedRegion zeroRegion 1).ret = 1 ∧
        mismatchesOf (testSequentialReadROMBytes flippedRegion zeroRegion 1).out =
          [(0xFB0064, 0, 1)] ∧
        readsOf (testSequentialReadROMBytes flippedRegion zeroRegion 1).out =
          List.range (100 + 1) ∧
        ∀ p, p ∈ readsOf (testSequentialReadROMBytes flippedRegion zeroRegion 1).out →
          p ≤ 100)) :=
  ⟨⟨⟨Nat.le_refl 1, by decide, flippedRegion_word_differs,
      fun j hj => flippedRegion_word_agrees _ (by omega)⟩,
    (sequential_failfast_reports_first_difference flippedRegion zeroRegion 1 (Nat.le_refl 1)).1
      50 (by decide) flippedRegion_word_differs
      (fun j hj => flippedRegion_word_agrees _ (by omega))⟩,
   ⟨⟨by decide, flippedRegion_byte_differs,
      fun j hj => flippedRegion_byte_agrees _ (by omega)⟩,
    (sequential_failfast_reports_first_difference flippedRegion zeroRegion 1 (Nat.le_refl 1)).2
      100 (by decide) flippedRegion_byte_differs
      (fun j hj => flippedRegion_byte_agrees _ (by omega))⟩⟩

/-- C3: the sequential stats routines never stop early: they read every position of the bank
in turn, the counter line shows the number of positions where device and reference are equal
and the number where they differ, and the return value is 1 exactly when the failure count is
positive; on identical regions (zero-filled in particular) they report all successes,
no failure, and return 0. -/
theorem sequential_stats_count_every_position (rom_data file_data : Region) (rombank : Nat) :
    (statsOf (testSequentialReadROMStats rom_data file_data rombank).out =
        [((List.range 32768).countP (fun w => wordAt rom_data (rombank * 32768 + w) = wordAt file_data (rombank * 32768 + w)),
          (List.range 32768).countP (fun w => wordAt rom_data (rombank * 32768 + w) ≠ wordAt file_data (rombank * 32768 + w)))] ∧
      readsOf (testSequentialReadROMStats rom_data file_data rombank).out = List.range 32768 ∧
      ((testSequentialReadROMStats rom_data file_data rombank).ret = 1 ↔
        0 < (List.range 32768).countP (fun w => wordAt rom_data (rombank * 32768 + w) ≠ wordAt file_data (rombank * 32768 + w))) ∧
      ((testSequentialReadROMStats rom_data file_data rombank).ret = 0 ↔
        (List.range 32768).countP (fun w => wordAt rom_data (rombank * 32768 + w) ≠ wordAt file_data (rombank * 32768 + w)) = 0)) ∧
    (statsOf (testSequentialReadROMBytesStats rom_data file_data rombank).out =
        [((List.range 65536).countP (fun a => byteAt rom_data (rombank * 65536 + a) = byteAt file_data (rombank * 65536 + a)),
          (List.range 65536).countP (fun a => byteAt rom_data (rombank * 65536 + a) ≠ byteAt file_data (rombank * 65536 + a)))] ∧
      readsOf (testSequentialReadROMBytesStats rom_data file_data rombank).out =
        List.range 65536 ∧
      ((testSequentialReadROMBytesStats rom_data file_data rombank).ret = 1 ↔
        0 < (List.range 65536).countP (fun a => byteAt rom_data (rombank * 65536 + a) ≠ byteAt file_data (rombank * 65536 + a))) ∧
      ((testSequentialReadROMBytesStats rom_data file_data rombank).ret = 0 ↔
        (List.range 65536).countP (fun a => byteAt rom_data (rombank * 65536 + a) ≠ byteAt file_data (rombank * 65536 + a)) = 0)) ∧
    (∀ r : Region,
      statsOf (testSequentialReadROMStats r r rombank).out = [(32768, 0)] ∧
      (testSequentialReadROMStats r r rombank).ret = 0 ∧
      statsOf (testSequentialReadROMBytesStats r r rombank).out = [(65536, 0)] ∧
      (testSequentialReadROMBytesStats r r rombank).ret = 0) ∧
    (statsOf (testSequentialReadROMStats zeroRegion zeroRegion rombank).out = [(32768, 0)] ∧
      (testSequentialReadROMStats zeroRegion zeroRegion rombank).ret = 0 ∧
      statsOf (testSequentialReadROMBytesStats zeroRegion zeroRegion rombank).out =
        [(65536, 0)] ∧
      (testSequentialReadROMBytesStats zeroRegion zeroRegion rombank).ret = 0) := by
  have hsame : ∀ r : Region,
      statsOf (testSequentialReadROMStats r r rombank).out = [(32768, 0)] ∧
      (testSequentialReadROMStats r r rombank).ret = 0 ∧
      statsOf (testSequentialReadROMBytesStats r r rombank).out = [(65536, 0)] ∧
      (testSequentialReadROMBytesStats r r rombank).ret = 0 := by
    intro r
    refine ⟨?_, ?_, ?_, ?_⟩
    · rw [testSequentialReadROMStats_eq, statsOf_reportStats _ _ _ (statsOf_label_visitEvents _ _ _ _ _),
        countP_eq_of_all_eq _ _ _ (fun _ _ => rfl),
        (countP_ne_eq_zero_iff _ _ _).2 (fun _ _ => rfl)]
    · exact (testSequentialReadROMStats_ret_zero_iff r r rombank).2 (fun _ _ => rfl)
    · rw [testSequentialReadROMBytesStats_eq,
        statsOf_reportStats _ _ _ (statsOf_label_visitEvents _ _ _ _ _),
        countP_eq_of_all_eq _ _ _ (fun _ _ => rfl),
        (countP_ne_eq_zero_iff _ _ _).2 (fun _ _ => rfl)]
    · exact (testSequentialReadROMBytesStats_ret_zero_iff r r rombank).2 (fun _ _ => rfl)
  refine ⟨⟨?_, ?_, ?_, ?_⟩, ⟨?_, ?_, ?_, ?_⟩, hsame, hsame zeroRegion⟩
  · rw [testSequentialReadROMStats_eq,
      statsOf_reportStats _ _ _ (statsOf_label_visitEvents _ _ _ _ _)]
  · rw [testSequentialReadROMStats_eq, readsOf_reportStats, readsOf_label_visitEvents_id]
  · rw [testSequentialReadROMStats_eq, reportStats_ret]
    split <;> omega
  · rw [testSequentialReadROMStats_eq, reportStats_ret]
    split <;> omega
  · rw [testSequentialReadROMBytesStats_eq,
      statsOf_reportStats _ _ _ (statsOf_label_visitEvents _ _ _ _ _)]
  · rw [testSequentialReadROMBytesStats_eq, readsOf_reportStats, readsOf_label_visitEvents_id]
  · rw [testSequentialReadROMBytesStats_eq, reportStats_ret]
    split <;> omega
  · rw [testSequentialReadROMBytesStats_eq, reportStats_ret]
    split <;> omega

/-- C4: in each of the four stats routines the two counters printed at the end add up to the
number of positions visited (32768 words, 65536 bytes, `num_requests` samples when
`num_requests >= 0`), and the same holds for the loop state after any number `m` of
iterations: the counters add up to `m`, `m` positions have been read, and the run of `m + n`
iterations goes through that state. -/
theorem stats_counters_sum_to_positions_visited (rom_data file_data : Region) (rombank : Nat)
    (num_requests : Int) (rand : Nat → Nat) :
    ((statsOf (testSequentialReadROMStats rom_data file_data rombank).out).map
        (fun c => c.1 + c.2) = [32768] ∧
      (readsOf (testSequentialReadROMStats rom_data file_data rombank).out).length = 32768) ∧
    ((statsOf (testSequentialReadROMBytesStats rom_data file_data rombank).out).map
        (fun c => c.1 + c.2) = [65536] ∧
      (readsOf (testSequentialReadROMBytesStats rom_data file_data rombank).out).length = 65536) ∧
    ((statsOf (testRandomReadROMStats rom_data file_data rombank num_requests rand).out).map
        (fun c => c.1 + c.2) = [num_requests.toNat] ∧
      (readsOf (testRandomReadROMStats rom_data file_data rombank num_requests rand).out).length = num_requests.toNat ∧
      (0 ≤ num_requests →
        (statsOf (testRandomReadROMStats rom_data file_data rombank num_requests rand).out).map
          (fun c => ((c.1 + c.2 : Nat) : Int)) = [num_requests])) ∧
    ((statsOf (testRandomReadROMBytesStats rom_data file_data rombank num_requests rand).out).map
        (fun c => c.1 + c.2) = [num_requests.toNat] ∧
      (readsOf (testRandomReadROMBytesStats rom_data file_data rombank num_requests rand).out).length = num_requests.toNat ∧
      (0 ≤ num_requests →
        (statsOf (testRandomReadROMBytesStats rom_data file_data rombank num_requests rand).out).map
          (fun c => ((c.1 + c.2 : Nat) : Int)) = [num_requests])) ∧
    (∀ (rom file : Nat → Nat) (start : List Event) (m n : Nat),
      (testSequentialReadROMStats_loop rom file m 0 ⟨0, 0, start⟩).successful_requests +
          (testSequentialReadROMStats_loop rom file m 0 ⟨0, 0, start⟩).failed_requests = m ∧
      (readsOf (testSequentialReadROMStats_loop rom file m 0 ⟨0, 0, start⟩).out).length =
          (readsOf start).length + m ∧
      testSequentialReadROMStats_loop rom file (m + n) 0 ⟨0, 0, start⟩ =
        testSequentialReadROMStats_loop rom file n m
          (testSequentialReadROMStats_loop rom file m 0 ⟨0, 0, start⟩)) ∧
    (∀ (rom file : Nat → Nat) (start : List Event) (m n : Nat),
      (testSequentialReadROMBytesStats_loop rom file m 0 ⟨0, 0, start⟩).successful_requests +
          (testSequentialReadROMBytesStats_loop rom file m 0 ⟨0, 0, start⟩).failed_requests = m ∧
      (readsOf (testSequentialReadROMBytesStats_loop rom file m 0 ⟨0, 0, start⟩).out).length =
          (readsOf start).length + m ∧
      testSequentialReadROMBytesStats_loop rom file (m + n) 0 ⟨0, 0, start⟩ =
        testSequentialReadROMBytesStats_loop rom file n m
          (testSequentialReadROMBytesStats_loop rom file m 0 ⟨0, 0, start⟩)) ∧
    (∀ (rom file : Nat → Nat) (start : List Event) (m n : Nat),
      (testRandomReadROMStats_loop rom file rand m 0 ⟨0, 0, start⟩).successful_requests +
          (testRandomReadROMStats_loop rom file rand m 0 ⟨0, 0, start⟩).failed_requests = m ∧
      (readsOf (testRandomReadROMStats_loop rom file rand m 0 ⟨0, 0, start⟩).out).length =
          (readsOf start).length + m ∧
      testRandomReadROMStats_loop rom file rand (m + n) 0 ⟨0, 0, start⟩ =
        testRandomReadROMStats_loop rom file rand n m
          (testRandomReadROMStats_loop rom file rand m 0 ⟨0, 0, start⟩)) ∧
    (∀ (rom file : Nat → Nat) (start : List Event) (m n : Nat),
      (testRandomReadROMBytesStats_loop rom file rand m 0 ⟨0, 0, start⟩).successful_requests +
          (testRandomReadROMBytesStats_loop rom file rand m 0 ⟨0, 0, start⟩).failed_requests = m ∧
      (readsOf (testRandomReadROMBytesStats_loop rom file rand m 0 ⟨0, 0, start⟩).out).length =
          (readsOf start).length + m ∧
      testRandomReadROMBytesStats_loop rom file rand (m + n) 0 ⟨0, 0, start⟩ =
        testRandomReadROMBytesStats_loop rom file rand n m
          (testRandomReadROMBytesStats_loop rom file rand m 0 ⟨0, 0, start⟩)) := by
  refine ⟨⟨?_, ?_⟩, ⟨?_, ?_⟩, ⟨?_, ?_, ?_⟩, ⟨?_, ?_, ?_⟩, ?_, ?_, ?_, ?_⟩
  · rw [testSequentialReadROMStats_eq]
    exact statsOf_reportStats_sum _ _ _ _ (statsOf_label_visitEvents _ _ _ _ _)
  · rw [testSequentialReadROMStats_eq, readsOf_reportStats, length_readsOf_label_visitEvents]
  · rw [testSequentialReadROMBytesStats_eq]
    exact statsOf_reportStats_sum _ _ _ _ (statsOf_label_visitEvents _ _ _ _ _)
  · rw [testSequentialReadROMBytesStats_eq, readsOf_reportStats,
      length_readsOf_label_visitEvents]
  · rw [testRandomReadROMStats_eq]
    exact statsOf_reportStats_sum
      (fun j => wordAt rom_data (rombank * 32768 + randomWord rand j))
      (fun j => wordAt file_data (rombank * 32768 + randomWord rand j)) _ _
      (statsOf_label_visitEvents _ _ _ _ _)
  · rw [testRandomReadROMStats_eq, readsOf_reportStats, length_readsOf_label_visitEvents]
  · intro h0
    rw [testRandomReadROMStats_eq]
    have h := statsOf_reportStats_sum
      (fun j => wordAt rom_data (rombank * 32768 + randomWord rand j))
      (fun j => wordAt file_data (rombank * 32768 + randomWord rand j)) num_requests.toNat _
      (statsOf_label_visitEvents TestId.randomReadROMStats (romName rombank)
        (some num_requests) (randomWord rand) num_requests.toNat)
    have h3 := congrArg (List.map (fun k : Nat => (k : Int))) h
    simp only [List.map_map, List.map_cons, List.map_nil, Int.toNat_of_nonneg h0] at h3
    exact h3
  · rw [testRandomReadROMBytesStats_eq]
    exact statsOf_reportStats_sum
      (fun j => byteAt rom_data (rombank * 65536 + randomByte rand j))
      (fun j => byteAt file_data (rombank * 65536 + randomByte rand j)) _ _
      (statsOf_label_visitEvents _ _ _ _ _)
  · rw [testRandomReadROMBytesStats_eq, readsOf_reportStats,
      length_readsOf_label_visitEvents]
  · intro h0
    rw [testRandomReadROMBytesStats_eq]
    have h := statsOf_reportStats_sum
      (fun j => byteAt rom_data (rombank * 65536 + randomByte rand j))
      (fun j => byteAt file_data (rombank * 65536 + randomByte rand j)) num_requests.toNat _
      (statsOf_label_visitEvents TestId.randomReadROMBytesStats (romName rombank)
        (some num_requests) (randomByte rand) num_requests.toNat)
    have h3 := congrArg (List.map (fun k : Nat => (k : Int))) h
    simp only [List.map_map, List.map_cons, List.map_nil, Int.toNat_of_nonneg h0] at h3
    exact h3
  · intro rom file start m n
    have h := testSequentialReadROMStats_loop_sum rom file m 0 ⟨0, 0, start⟩
    have h2 := testSequentialReadROMStats_loop_split rom file m n 0 ⟨0, 0, start⟩
    simp only [Nat.zero_add] at h h2
    exact ⟨h.1, h.2, h2⟩
  · intro rom file start m n
    have h := testSequentialReadROMBytesStats_loop_sum rom file m 0 ⟨0, 0, start⟩
    have h2 := testSequentialReadROMBytesStats_loop_split rom file m n 0 ⟨0, 0, start⟩
    simp only [Nat.zero_add] at h h2
    exact ⟨h.1, h.2, h2⟩
  · intro rom file start m n
    have h := testRandomReadROMStats_loop_sum rom file rand m 0 ⟨0, 0, start⟩
    have h2 := testRandomReadROMStats_loop_split rom file rand m n 0 ⟨0, 0, start⟩
    simp only [Nat.zero_add] at h h2
    exact ⟨h.1, h.2, h2⟩
  · intro rom file start m n
    have h := testRandomReadROMBytesStats_loop_sum rom file rand m 0 ⟨0, 0, start⟩
    have h2 := testRandomReadROMBytesStats_loop_split rom file rand m n 0 ⟨0, 0, start⟩
    simp only [Nat.zero_add] at h h2
    exact ⟨h.1, h.2, h2⟩

/-- Instance of C4 with `num_requests = 3 >= 0`: bank 1, the zero-filled reference against the
device with one byte flipped, every sample drawn being 50. -/
theorem stats_counters_sum_to_positions_visited_witness :
    (0 : Int) ≤ 3 ∧
    (statsOf (testRandomReadROMStats flippedRegion zeroRegion 1 3 (fun _ => 50)).out).map
      (fun c => ((c.1 + c.2 : Nat) : Int)) = [3] ∧
    (statsOf (testRandomReadROMBytesStats flippedRegion zeroRegion 1 3 (fun _ => 50)).out).map
      (fun c => ((c.1 + c.2 : Nat) : Int)) = [3] :=
  ⟨by decide,
   (stats_counters_sum_to_positions_visited flippedRegion zeroRegion 1 3
      (fun _ => 50)).2.2.1.2.2 (by decide),
   (stats_counters_sum_to_positions_visited flippedRegion zeroRegion 1 3
      (fun _ => 50)).2.2.2.1.2.2 (by decide)⟩

/-- C5: on the same data the sequential fail-fast routine and the sequential stats routine
return the same value, for words and for bytes; when the bank windows match both return 0, the
fail-fast routine prints no mismatch and the stats routine reports no failure. -/
theorem sequential_failfast_and_stats_agree (rom_data file_data : Region) (rombank : Nat) :
    (testSequentialReadROM rom_data file_data rombank).ret =
      (testSequentialReadROMStats rom_data file_data rombank).ret ∧
    (testSequentialReadROMBytes rom_data file_data rombank).ret =
      (testSequentialReadROMBytesStats rom_data file_data rombank).ret ∧
    ((∀ w, w < 32768 →
        wordAt rom_data (rombank * 32768 + w) = wordAt file_data (rombank * 32768 + w)) →
      (testSequentialReadROM rom_data file_data rombank).ret = 0 ∧
      mismatchesOf (testSequentialReadROM rom_data file_data rombank).out = [] ∧
      (testSequentialReadROMStats rom_data file_data rombank).ret = 0 ∧
      statsOf (testSequentialReadROMStats rom_data file_data rombank).out = [(32768, 0)]) ∧
    ((∀ a, a < 65536 → rom_data (rombank * 65536 + a) = file_data (rombank * 65536 + a)) →
      (testSequentialReadROMBytes rom_data file_data rombank).ret = 0 ∧
      mismatchesOf (testSequentialReadROMBytes rom_data file_data rombank).out = [] ∧
      (testSequentialReadROMBytesStats rom_data file_data rombank).ret = 0 ∧
      statsOf (testSequentialReadROMBytesStats rom_data file_data rombank).out =
        [(65536, 0)]) := by
  have w1 := testSequentialReadROM_ret_zero_iff rom_data file_data rombank
  have w2 := testSequentialReadROM_ret_le_one rom_data file_data rombank
  have w3 := testSequentialReadROMStats_ret_zero_iff rom_data file_data rombank
  have w4 := testSequentialReadROMStats_ret_le_one rom_data file_data rombank
  have b1 := testSequentialReadROMBytes_ret_zero_iff rom_data file_data rombank
  have b2 := testSequentialReadROMBytes_ret_le_one rom_data file_data rombank
  have b3 := testSequentialReadROMBytesStats_ret_zero_iff rom_data file_data rombank
  have b4 := testSequentialReadROMBytesStats_ret_le_one rom_data file_data rombank
  have hbridge : (∀ a, a < 65536 →
      byteAt rom_data (rombank * 65536 + a) = byteAt file_data (rombank * 65536 + a)) ↔
      (∀ a, a < 65536 → rom_data (rombank * 65536 + a) = file_data (rombank * 65536 + a)) :=
    ⟨fun h a ha => (byteAt_eq_iff _ _ _).1 (h a ha),
     fun h a ha => (byteAt_eq_iff _ _ _).2 (h a ha)⟩
  refine ⟨?_, ?_, ?_, ?_⟩
  · have e := w1.trans w3.symm
    omega
  · have e := b1.trans (hbridge.symm.trans b3.symm)
    omega
  · intro h
    refine ⟨w1.2 h, ?_, w3.2 h, testSequentialReadROMStats_same _ _ _ h⟩
    rw [testSequentialReadROM_pass rom_data file_data rombank h]
    exact mismatchesOf_pass_events _ _ _ _ _
  · intro h
    refine ⟨b1.2 h, ?_, b3.2 (hbridge.2 h),
      testSequentialReadROMBytesStats_same _ _ _ (hbridge.2 h)⟩
    rw [testSequentialReadROMBytes_pass rom_data file_data rombank h]
    exact mismatchesOf_pass_events _ _ _ _ _

/-- Instance of C5 on matching data: both regions zero-filled, bank 0. -/
theorem sequential_failfast_and_stats_agree_witness :
    ((∀ w, w < 32768 →
        wordAt zeroRegion (0 * 32768 + w) = wordAt zeroRegion (0 * 32768 + w)) ∧
      (testSequentialReadROM zeroRegion zeroRegion 0).ret = 0 ∧
      mismatchesOf (testSequentialReadROM zeroRegion zeroRegion 0).out = [] ∧
      (testSequentialReadROMStats zeroRegion zeroRegion 0).ret = 0 ∧
      statsOf (testSequentialReadROMStats zeroRegion zeroRegion 0).out = [(32768, 0)]) ∧
    ((∀ a, a < 65536 → zeroRegion (0 * 65536 + a) = zeroRegion (0 * 65536 + a)) ∧
      (testSequentialReadROMBytes zeroRegion zeroRegion 0).ret = 0 ∧
      mismatchesOf (testSequentialReadROMBytes zeroRegion zeroRegion 0).out = [] ∧
      (testSequentialReadROMBytesStats zeroRegion zeroRegion 0).ret = 0 ∧
      statsOf (testSequentialReadROMBytesStats zeroRegion zeroRegion 0).out =
        [(65536, 0)]) :=
  ⟨⟨fun _ _ => rfl,
    (sequential_failfast_and_stats_agree zeroRegion zeroRegion 0).2.2.1 (fun _ _ => rfl)⟩,
   ⟨fun _ _ => rfl,
    (sequential_failfast_and_stats_agree zeroRegion zeroRegion 0).2.2.2 (fun _ _ => rfl)⟩⟩

/-- C6: bank isolation.  If two pairs of regions agree on bytes
`[rombank * 65536, (rombank + 1) * 65536)`, each of the nine comparison routines gives the same
outcome (return value and all events, so counts and reported mismatch too) on both, whatever
the rest of the regions holds.  And when the device differs from the reference in the single
byte at offset `65536 + 100`, `testSequentialReadROMBytes` on bank 1 returns 1 and reports
address `0xFB0064` with the reference byte as expected and the device byte as actual, while on
bank 0 it returns 0. -/
theorem bank_isolation (rom_data file_data rom_data2 file_data2 : Region) (rombank : Nat)
    (num_requests : Int) (rand : Nat → Nat)
    (hrom : ∀ a, rombank * 65536 ≤ a → a < (rombank + 1) * 65536 → rom_data a = rom_data2 a)
    (hfile : ∀ a, rombank * 65536 ≤ a → a < (rombank + 1) * 65536 →
      file_data a = file_data2 a) :
    testSequentialReadROM rom_data file_data rombank =
      testSequentialReadROM rom_data2 file_data2 rombank ∧
    testSequentialReadROMStats rom_data file_data rombank =
      testSequentialReadROMStats rom_data2 file_data2 rombank ∧
    testRandomReadROM rom_data file_data rombank num_requests rand =
      testRandomReadROM rom_data2 file_data2 rombank num_requests rand ∧
    testRandomReadROMStats rom_data file_data rombank num_requests rand =
      testRandomReadROMStats rom_data2 file_data2 rombank num_requests rand ∧
    testAddressLinesSequentialReadROM rom_data file_data rombank num_requests =
      testAddressLinesSequentialReadROM rom_data2 file_data2 rombank num_requests ∧
    testSequentialReadROMBytes rom_data file_data rombank =
      testSequentialReadROMBytes rom_data2 file_data2 rombank ∧
    testSequentialReadROMBytesStats rom_data file_data rombank =
      testSequentialReadROMBytesStats rom_data2 file_data2 rombank ∧
    testRandomReadROMBytes rom_data file_data rombank num_requests rand =
      testRandomReadROMBytes rom_data2 file_data2 rombank num_requests rand ∧
    testRandomReadROMBytesStats rom_data file_data rombank num_requests rand =
      testRandomReadROMBytesStats rom_data2 file_data2 rombank num_requests rand ∧
    (∀ dev ref : Region, (∀ a, a ≠ 65536 + 100 → dev a = ref a) →
      dev (65536 + 100) ≠ ref (65536 + 100) →
      (testSequentialReadROMBytes dev ref 1).ret = 1 ∧
      mismatchesOf (testSequentialReadROMBytes dev ref 1).out =
        [(0xFB0064, byteAt ref (65536 + 100), byteAt dev (65536 + 100))] ∧
      (testSequentialReadROMBytes dev ref 0).ret = 0) := by
  refine ⟨testSequentialReadROM_window rom_data file_data rom_data2 file_data2 rombank hrom hfile,
    testSequentialReadROMStats_window rom_data file_data rom_data2 file_data2 rombank hrom hfile,
    testRandomReadROM_window rom_data file_data rom_data2 file_data2 rombank num_requests rand hrom hfile,
    testRandomReadROMStats_window rom_data file_data rom_data2 file_data2 rombank num_requests rand hrom hfile,
    testAddressLinesSequentialReadROM_window rom_data file_data rom_data2 file_data2 rombank num_requests hrom hfile,
    testSequentialReadROMBytes_window rom_data file_data rom_data2 file_data2 rombank hrom hfile,
    testSequentialReadROMBytesStats_window rom_data file_data rom_data2 file_data2 rombank hrom hfile,
    testRandomReadROMBytes_window rom_data file_data rom_data2 file_data2 rombank num_requests rand hrom hfile,
    testRandomReadROMBytesStats_window rom_data file_data rom_data2 file_data2 rombank num_requests rand hrom hfile,
    ?_⟩
  intro dev ref hsame hdiff
  have h1 := testSequentialReadROMBytes_fail dev ref 1 100 (by decide) hdiff
    (fun j hj => hsame _ (by omega))
  have h0 := testSequentialReadROMBytes_pass dev ref 0 (fun a ha => hsame _ (by omega))
  refine ⟨?_, ?_, ?_⟩
  · rw [h1]
  · rw [h1]
    simp [mismatchesOf, mismatchesOf_append, mismatchesOf_visitEvents,
      real_memory_eq 1 100 (by decide) (by decide)]
  · rw [h0]

/-- Instance of C6: on bank 0 the device with one byte of bank 1 flipped is indistinguishable
from the zero-filled device; on bank 1 the flipped byte is reported at `0xFB0064`. -/
theorem bank_isolation_witness :
    ((∀ a, 0 * 65536 ≤ a → a < (0 + 1) * 65536 → flippedRegion a = zeroRegion a) ∧
      (∀ a, 0 * 65536 ≤ a → a < (0 + 1) * 65536 → zeroRegion a = zeroRegion a) ∧
      (∀ a, a ≠ 65536 + 100 → flippedRegion a = zeroRegion a) ∧
      flippedRegion (65536 + 100) ≠ zeroRegion (65536 + 100)) ∧
    (
    testSequentialReadROM flippedRegion zeroRegion 0 =
      testSequentialReadROM zeroRegion zeroRegion 0 ∧
    testSequentialReadROMStats flippedRegion zeroRegion 0 =
      testSequentialReadROMStats zeroRegion zeroRegion 0 ∧
    testRandomReadROM flippedRegion zeroRegion 0 7 (fun k => k) =
      testRandomReadROM zeroRegion zeroRegion 0 7 (fun k => k) ∧
    testRandomReadROMStats flippedRegion zeroRegion 0 7 (fun k => k) =
      testRandomReadROMStats zeroRegion zeroRegion 0 7 (fun k => k) ∧
    testAddressLinesSequentialReadROM flippedRegion zeroRegion 0 7 =
      testAddressLinesSequentialReadROM zeroRegion zeroRegion 0 7 ∧
    testSequentialReadROMBytes flippedRegion zeroRegion 0 =
      testSequentialReadROMBytes zeroRegion zeroRegion 0 ∧
    testSequentialReadROMBytesStats flippedRegion zeroRegion 0 =
      testSequentialReadROMBytesStats zeroRegion zeroRegion 0 ∧
    testRandomReadROMBytes flippedRegion zeroRegion 0 7 (fun k => k) =
      testRandomReadROMBytes zeroRegion zeroRegion 0 7 (fun k => k) ∧
    testRandomReadROMBytesStats flippedRegion zeroRegion 0 7 (fun k => k) =
      testRandomReadROMBytesStats zeroRegion zeroRegion 0 7 (fun k => k)) ∧
    ((testSequentialReadROMBytes flippedRegion zeroRegion 1).ret = 1 ∧
      mismatchesOf (testSequentialReadROMBytes flippedRegion zeroRegion 1).out =
        [(0xFB0064, 0, 1)] ∧
      (testSequentialReadROMBytes flippedRegion zeroRegion 0).ret = 0) :=
  have h := bank_isolation flippedRegion zeroRegion zeroRegion zeroRegion 0 7 (fun k => k)
    (fun a _ h2 => flippedRegion_byte_agrees a (by omega)) (fun _ _ _ => rfl)
  ⟨⟨fun a _ h2 => flippedRegion_byte_agrees a (by omega), fun _ _ _ => rfl,
     fun a ha => flippedRegion_byte_agrees a ha, flippedRegion_byte_differs⟩,
   ⟨h.1, h.2.1, h.2.2.1, h.2.2.2.1, h.2.2.2.2.1, h.2.2.2.2.2.1, h.2.2.2.2.2.2.1,
     h.2.2.2.2.2.2.2.1, h.2.2.2.2.2.2.2.2.1⟩,
   h.2.2.2.2.2.2.2.2.2 flippedRegion zeroRegion (fun a ha => flippedRegion_byte_agrees a ha)
     flippedRegion_byte_differs⟩

/-- C7: a fail-fast routine that returns 1 prints exactly one mismatch, and its address is
`rombank * 65536 + 0xFA0000 + offset * unit size` for the very offset it read last and found
different (unit size 2 for the word and address-line routines, 1 for the byte routines), with
the reference value printed as expected and the device value as actual, and, for the
address-line routine, the line printed being the one that selected that offset; a routine that
returns 0 prints no mismatch. The 32-bit computation does not wrap (the value kept in the
`unsigned long` is the exact sum, which is below `2 ^ 31`); the address lies in
`[0xFA0000, 0xFAFFFF]` for bank 0 and in `[0xFB0000, 0xFBFFFF]` for bank 1; and distinct
(bank, offset) pairs of one unit size give distinct addresses. -/
theorem mismatch_address_formula (rom_data file_data : Region) (rombank : Nat)
    (num_requests : Int) (rand : Nat → Nat) (hb : rombank ≤ 1) :
    (((testSequentialReadROM rom_data file_data rombank).ret = 0 ∧ mismatchesOf (testSequentialReadROM rom_data file_data rombank).out = []) ∨
     ((testSequentialReadROM rom_data file_data rombank).ret = 1 ∧
      ∃ off, off < 32768 ∧
        wordAt rom_data (rombank * 32768 + off) ≠ wordAt file_data (rombank * 32768 + off) ∧
        (∃ earlier, readsOf (testSequentialReadROM rom_data file_data rombank).out = earlier ++ [off]) ∧
        mismatchesOf (testSequentialReadROM rom_data file_data rombank).out =
          [(rombank * 65536 + 0xFA0000 + off * 2, wordAt file_data (rombank * 32768 + off), wordAt rom_data (rombank * 32768 + off))] ∧
        rombank * 65536 + 0xFA0000 + off * 2 < 2 ^ 31 ∧
        (rombank = 0 → 0xFA0000 ≤ rombank * 65536 + 0xFA0000 + off * 2 ∧ rombank * 65536 + 0xFA0000 + off * 2 ≤ 0xFAFFFF) ∧
        (rombank = 1 → 0xFB0000 ≤ rombank * 65536 + 0xFA0000 + off * 2 ∧ rombank * 65536 + 0xFA0000 + off * 2 ≤ 0xFBFFFF))) ∧
    (((testRandomReadROM rom_data file_data rombank num_requests rand).ret = 0 ∧ mismatchesOf (testRandomReadROM rom_data file_data rombank num_requests rand).out = []) ∨
     ((testRandomReadROM rom_data file_data rombank num_requests rand).ret = 1 ∧
      ∃ off, off < 32768 ∧
        wordAt rom_data (rombank * 32768 + off) ≠ wordAt file_data (rombank * 32768 + off) ∧
        (∃ earlier, readsOf (testRandomReadROM rom_data file_data rombank num_requests rand).out = earlier ++ [off]) ∧
        mismatchesOf (testRandomReadROM rom_data file_data rombank num_requests rand).out =
          [(rombank * 65536 + 0xFA0000 + off * 2, wordAt file_data (rombank * 32768 + off), wordAt rom_data (rombank * 32768 + off))] ∧
        rombank * 65536 + 0xFA0000 + off * 2 < 2 ^ 31 ∧
        (rombank = 0 → 0xFA0000 ≤ rombank * 65536 + 0xFA0000 + off * 2 ∧ rombank * 65536 + 0xFA0000 + off * 2 ≤ 0xFAFFFF) ∧
        (rombank = 1 → 0xFB0000 ≤ rombank * 65536 + 0xFA0000 + off * 2 ∧ rombank * 65536 + 0xFA0000 + off * 2 ≤ 0xFBFFFF))) ∧
    (((testAddressLinesSequentialReadROM rom_data file_data rombank num_requests).ret = 0 ∧ mismatchesOf (testAddressLinesSequentialReadROM rom_data file_data rombank num_requests).out = [] ∧ lineMismatchesOf (testAddressLinesSequentialReadROM rom_data file_data rombank num_requests).out = []) ∨
     ((testAddressLinesSequentialReadROM rom_data file_data rombank num_requests).ret = 1 ∧
      ∃ line, 1 ≤ line ∧ line ≤ 14 ∧ (1 <<< line) >>> 1 < 32768 ∧
        1 <<< line = ((1 <<< line) >>> 1) * 2 ∧
        wordAt rom_data (rombank * 32768 + (1 <<< line) >>> 1) ≠
          wordAt file_data (rombank * 32768 + (1 <<< line) >>> 1) ∧
        (∃ earlier, readsOf (testAddressLinesSequentialReadROM rom_data file_data rombank num_requests).out = earlier ++ [(1 <<< line) >>> 1]) ∧
        mismatchesOf (testAddressLinesSequentialReadROM rom_data file_data rombank num_requests).out =
          [(rombank * 65536 + 0xFA0000 + ((1 <<< line) >>> 1) * 2,
            wordAt file_data (rombank * 32768 + (1 <<< line) >>> 1),
            wordAt rom_data (rombank * 32768 + (1 <<< line) >>> 1))] ∧
        lineMismatchesOf (testAddressLinesSequentialReadROM rom_data file_data rombank num_requests).out =
          [(rombank * 65536 + 0xFA0000 + ((1 <<< line) >>> 1) * 2, line,
            wordAt file_data (rombank * 32768 + (1 <<< line) >>> 1),
            wordAt rom_data (rombank * 32768 + (1 <<< line) >>> 1))] ∧
        rombank * 65536 + 0xFA0000 + ((1 <<< line) >>> 1) * 2 < 2 ^ 31 ∧
        (rombank = 0 → 0xFA0000 ≤ rombank * 65536 + 0xFA0000 + ((1 <<< line) >>> 1) * 2 ∧
          rombank * 65536 + 0xFA0000 + ((1 <<< line) >>> 1) * 2 ≤ 0xFAFFFF) ∧
        (rombank = 1 → 0xFB0000 ≤ rombank * 65536 + 0xFA0000 + ((1 <<< line) >>> 1) * 2 ∧
          rombank * 65536 + 0xFA0000 + ((1 <<< line) >>> 1) * 2 ≤ 0xFBFFFF))) ∧
    (((testSequentialReadROMBytes rom_data file_data rombank).ret = 0 ∧ mismatchesOf (testSequentialReadROMBytes rom_data file_data rombank).out = []) ∨
     ((testSequentialReadROMBytes rom_data file_data rombank).ret = 1 ∧
      ∃ off, off < 65536 ∧
        byteAt rom_data (rombank * 65536 + off) ≠ byteAt file_data (rombank * 65536 + off) ∧
        (∃ earlier, readsOf (testSequentialReadROMBytes rom_data file_data rombank).out = earlier ++ [off]) ∧
        mismatchesOf (testSequentialReadROMBytes rom_data file_data rombank).out =
          [(rombank * 65536 + 0xFA0000 + off, byteAt file_data (rombank * 65536 + off), byteAt rom_data (rombank * 65536 + off))] ∧
        rombank * 65536 + 0xFA0000 + off < 2 ^ 31 ∧
        (rombank = 0 → 0xFA0000 ≤ rombank * 65536 + 0xFA0000 + off ∧ rombank * 65536 + 0xFA0000 + off ≤ 0xFAFFFF) ∧
        (rombank = 1 → 0xFB0000 ≤ rombank * 65536 + 0xFA0000 + off ∧ rombank * 65536 + 0xFA0000 + off ≤ 0xFBFFFF))) ∧
    (((testRandomReadROMBytes rom_data file_data rombank num_requests rand).ret = 0 ∧ mismatchesOf (testRandomReadROMBytes rom_data file_data rombank num_requests rand).out = []) ∨
     ((testRandomReadROMBytes rom_data file_data rombank num_requests rand).ret = 1 ∧
      ∃ off, off < 65536 ∧
        byteAt rom_data (rombank * 65536 + off) ≠ byteAt file_data (rombank * 65536 + off) ∧
        (∃ earlier, readsOf (testRandomReadROMBytes rom_data file_data rombank num_requests rand).out = earlier ++ [off]) ∧
        mismatchesOf (testRandomReadROMBytes rom_data file_data rombank num_requests rand).out =
          [(rombank * 65536 + 0xFA0000 + off, byteAt file_data (rombank * 65536 + off), byteAt rom_data (rombank * 65536 + off))] ∧
        rombank * 65536 + 0xFA0000 + off < 2 ^ 31 ∧
        (rombank = 0 → 0xFA0000 ≤ rombank * 65536 + 0xFA0000 + off ∧ rombank * 65536 + 0xFA0000 + off ≤ 0xFAFFFF) ∧
        (rombank = 1 → 0xFB0000 ≤ rombank * 65536 + 0xFA0000 + off ∧ rombank * 65536 + 0xFA0000 + off ≤ 0xFBFFFF))) ∧
    (∀ delta, delta < 65536 →
      real_memory rombank delta = rombank * 65536 + 0xFA0000 + delta ∧
      rombank * 64 * 1024 + ROM4_MEMORY_START + delta < 2 ^ 31) ∧
    (∀ b1 b2 off1 off2, b1 ≤ 1 → b2 ≤ 1 → off1 < 32768 → off2 < 32768 →
      real_memory b1 (off1 * 2) = real_memory b2 (off2 * 2) → b1 = b2 ∧ off1 = off2) ∧
    (∀ b1 b2 off1 off2, b1 ≤ 1 → b2 ≤ 1 → off1 < 65536 → off2 < 65536 →
      real_memory b1 off1 = real_memory b2 off2 → b1 = b2 ∧ off1 = off2) := by
  refine ⟨?_, ?_, ?_, ?_, ?_, ?_, ?_, ?_⟩
  · rcases testSequentialReadROM_report rom_data file_data rombank with
      h | ⟨hr, off, hoff, hne, hreads, hm⟩
    · exact Or.inl h
    · right
      have ha := real_memory_eq rombank (off * 2) hb (by omega)
      rw [ha] at hm
      exact ⟨hr, off, hoff, hne, hreads, hm, by omega, fun h0 => by omega, fun h1 => by omega⟩
  · rcases testRandomReadROM_report rom_data file_data rombank num_requests rand with
      h | ⟨hr, off, hoff, hne, hreads, hm⟩
    · exact Or.inl h
    · right
      have ha := real_memory_eq rombank (off * 2) hb (by omega)
      rw [ha] at hm
      exact ⟨hr, off, hoff, hne, hreads, hm, by omega, fun h0 => by omega, fun h1 => by omega⟩
  · rcases testAddressLinesSequentialReadROM_report rom_data file_data rombank num_requests with
      h | ⟨hr, line, h1, h2, hne, hreads, hm, hl⟩
    · exact Or.inl h
    · right
      have hw := lineWord_lt line h1 h2
      have hs := one_shiftLeft_eq_lineWord line h1
      have hd : 1 <<< line < 65536 := by
        rw [hs]
        unfold lineWord
        generalize (1 <<< line) >>> 1 = w at hw
        omega
      have ha := real_memory_eq rombank (1 <<< line) hb hd
      rw [ha, hs] at hm hl
      simp only [lineWord] at hs hne hreads hm hl
      have key : ∀ w, w < 32768 →
          rombank * 65536 + 0xFA0000 + w * 2 < 2 ^ 31 ∧
          (rombank = 0 → 0xFA0000 ≤ rombank * 65536 + 0xFA0000 + w * 2 ∧
            rombank * 65536 + 0xFA0000 + w * 2 ≤ 0xFAFFFF) ∧
          (rombank = 1 → 0xFB0000 ≤ rombank * 65536 + 0xFA0000 + w * 2 ∧
            rombank * 65536 + 0xFA0000 + w * 2 ≤ 0xFBFFFF) := by
        clear hw hs hne hreads hm hl ha
        intro w hw
        exact ⟨by omega, fun h0 => by omega, fun h1 => by omega⟩
      exact ⟨hr, line, h1, h2, hw, hs, hne, hreads, hm, hl, key _ hw⟩
  · rcases testSequentialReadROMBytes_report rom_data file_data rombank with
      h | ⟨hr, off, hoff, hne, hreads, hm⟩
    · exact Or.inl h
    · right
      have ha := real_memory_eq rombank (off) hb (by omega)
      rw [ha] at hm
      exact ⟨hr, off, hoff, hne, hreads, hm, by omega, fun h0 => by omega, fun h1 => by omega⟩
  · rcases testRandomReadROMBytes_report rom_data file_data rombank num_requests rand with
      h | ⟨hr, off, hoff, hne, hreads, hm⟩
    · exact Or.inl h
    · right
      have ha := real_memory_eq rombank (off) hb (by omega)
      rw [ha] at hm
      exact ⟨hr, off, hoff, hne, hreads, hm, by omega, fun h0 => by omega, fun h1 => by omega⟩
  · intro delta hd
    refine ⟨real_memory_eq rombank delta hb hd, ?_⟩
    unfold ROM4_MEMORY_START ROM_MEMORY_START
    omega
  · intro b1 b2 off1 off2 h1 h2 h3 h4 h
    rw [real_memory_eq b1 (off1 * 2) h1 (by omega),
      real_memory_eq b2 (off2 * 2) h2 (by omega)] at h
    omega
  · intro b1 b2 off1 off2 h1 h2 h3 h4 h
    rw [real_memory_eq b1 off1 h1 h3, real_memory_eq b2 off2 h2 h4] at h
    omega

/-- Instance of C7: bank 1, the zero-filled reference against the device with one byte flipped,
three requests, every sample drawn being 50. -/
theorem mismatch_address_formula_witness :
    (1 : Nat) ≤ 1 ∧
    (
    (((testSequentialReadROM flippedRegion zeroRegion 1).ret = 0 ∧ mismatchesOf (testSequentialReadROM flippedRegion zeroRegion 1).out = []) ∨
     ((testSequentialReadROM flippedRegion zeroRegion 1).ret = 1 ∧
      ∃ off, off < 32768 ∧
        wordAt flippedRegion (1 * 32768 + off) ≠ wordAt zeroRegion (1 * 32768 + off) ∧
        (∃ earlier, readsOf (testSequentialReadROM flippedRegion zeroRegion 1).out = earlier ++ [off]) ∧
        mismatchesOf (testSequentialReadROM flippedRegion zeroRegion 1).out =
          [(1 * 65536 + 0xFA0000 + off * 2, wordAt zeroRegion (1 * 32768 + off), wordAt flippedRegion (1 * 32768 + off))] ∧
        1 * 65536 + 0xFA0000 + off * 2 < 2 ^ 31 ∧
        (1 = 0 → 0xFA0000 ≤ 1 * 65536 + 0xFA0000 + off * 2 ∧ 1 * 65536 + 0xFA0000 + off * 2 ≤ 0xFAFFFF) ∧
        (1 = 1 → 0xFB0000 ≤ 1 * 65536 + 0xFA0000 + off * 2 ∧ 1 * 65536 + 0xFA0000 + off * 2 ≤ 0xFBFFFF))) ∧
    (((testRandomReadROM flippedRegion zeroRegion 1 3 (fun _ => 50)).ret = 0 ∧ mismatchesOf (testRandomReadROM flippedRegion zeroRegion 1 3 (fun _ => 50)).out = []) ∨
     ((testRandomReadROM flippedRegion zeroRegion 1 3 (fun _ => 50)).ret = 1 ∧
      ∃ off, off < 32768 ∧
        wordAt flippedRegion (1 * 32768 + off) ≠ wordAt zeroRegion (1 * 32768 + off) ∧
        (∃ earlier, readsOf (testRandomReadROM flippedRegion zeroRegion 1 3 (fun _ => 50)).out = earlier ++ [off]) ∧
        mismatchesOf (testRandomReadROM flippedRegion zeroRegion 1 3 (fun _ => 50)).out =
          [(1 * 65536 + 0xFA0000 + off * 2, wordAt zeroRegion (1 * 32768 + off), wordAt flippedRegion (1 * 32768 + off))] ∧
        1 * 65536 + 0xFA0000 + off * 2 < 2 ^ 31 ∧
        (1 = 0 → 0xFA0000 ≤ 1 * 65536 + 0xFA0000 + off * 2 ∧ 1 * 65536 + 0xFA0000 + off * 2 ≤ 0xFAFFFF) ∧
        (1 = 1 → 0xFB0000 ≤ 1 * 65536 + 0xFA0000 + off * 2 ∧ 1 * 65536 + 0xFA0000 + off * 2 ≤ 0xFBFFFF))) ∧
    (((testAddressLinesSequentialReadROM flippedRegion zeroRegion 1 3).ret = 0 ∧ mismatchesOf (testAddressLinesSequentialReadROM flippedRegion zeroRegion 1 3).out = [] ∧ lineMismatchesOf (testAddressLinesSequentialReadROM flippedRegion zeroRegion 1 3).out = []) ∨
     ((testAddressLinesSequentialReadROM flippedRegion zeroRegion 1 3).ret = 1 ∧
      ∃ line, 1 ≤ line ∧ line ≤ 14 ∧ (1 <<< line) >>> 1 < 32768 ∧
        1 <<< line = ((1 <<< line) >>> 1) * 2 ∧
        wordAt flippedRegion (1 * 32768 + (1 <<< line) >>> 1) ≠
          wordAt zeroRegion (1 * 32768 + (1 <<< line) >>> 1) ∧
        (∃ earlier, readsOf (testAddressLinesSequentialReadROM flippedRegion zeroRegion 1 3).out = earlier ++ [(1 <<< line) >>> 1]) ∧
        mismatchesOf (testAddressLinesSequentialReadROM flippedRegion zeroRegion 1 3).out =
          [(1 * 65536 + 0xFA0000 + ((1 <<< line) >>> 1) * 2,
            wordAt zeroRegion (1 * 32768 + (1 <<< line) >>> 1),
            wordAt flippedRegion (1 * 32768 + (1 <<< line) >>> 1))] ∧
        lineMismatchesOf (testAddressLinesSequentialReadROM flippedRegion zeroRegion 1 3).out =
          [(1 * 65536 + 0xFA0000 + ((1 <<< line) >>> 1) * 2, line,
            wordAt zeroRegion (1 * 32768 + (1 <<< line) >>> 1),
            wordAt flippedRegion (1 * 32768 + (1 <<< line) >>> 1))] ∧
        1 * 65536 + 0xFA0000 + ((1 <<< line) >>> 1) * 2 < 2 ^ 31 ∧
        (1 = 0 → 0xFA0000 ≤ 1 * 65536 + 0xFA0000 + ((1 <<< line) >>> 1) * 2 ∧
          1 * 65536 + 0xFA0000 + ((1 <<< line) >>> 1) * 2 ≤ 0xFAFFFF) ∧
        (1 = 1 → 0xFB0000 ≤ 1 * 65536 + 0xFA0000 + ((1 <<< line) >>> 1) * 2 ∧
          1 * 65536 + 0xFA0000 + ((1 <<< line) >>> 1) * 2 ≤ 0xFBFFFF))) ∧
    (((testSequentialReadROMBytes flippedRegion zeroRegion 1).ret = 0 ∧ mismatchesOf (testSequentialReadROMBytes flippedRegion zeroRegion 1).out = []) ∨
     ((testSequentialReadROMBytes flippedRegion zeroRegion 1).ret = 1 ∧
      ∃ off, off < 65536 ∧
        byteAt flippedRegion (1 * 65536 + off) ≠ byteAt zeroRegion (1 * 65536 + off) ∧
        (∃ earlier, readsOf (testSequentialReadROMBytes flippedRegion zeroRegion 1).out = earlier ++ [off]) ∧
        mismatchesOf (testSequentialReadROMBytes flippedRegion zeroRegion 1).out =
          [(1 * 65536 + 0xFA0000 + off, byteAt zeroRegion (1 * 65536 + off), byteAt flippedRegion (1 * 65536 + off))] ∧
        1 * 65536 + 0xFA0000 + off < 2 ^ 31 ∧
        (1 = 0 → 0xFA0000 ≤ 1 * 65536 + 0xFA0000 + off ∧ 1 * 65536 + 0xFA0000 + off ≤ 0xFAFFFF) ∧
        (1 = 1 → 0xFB0000 ≤ 1 * 65536 + 0xFA0000 + off ∧ 1 * 65536 + 0xFA0000 + off ≤ 0xFBFFFF))) ∧
    (((testRandomReadROMBytes flippedRegion zeroRegion 1 3 (fun _ => 50)).ret = 0 ∧ mismatchesOf (testRandomReadROMBytes flippedRegion zeroRegion 1 3 (fun _ => 50)).out = []) ∨
     ((testRandomReadROMBytes flippedRegion zeroRegion 1 3 (fun _ => 50)).ret = 1 ∧
      ∃ off, off < 65536 ∧
        byteAt flippedRegion (1 * 65536 + off) ≠ byteAt zeroRegion (1 * 65536 + off) ∧
        (∃ earlier, readsOf (testRandomReadROMBytes flippedRegion zeroRegion 1 3 (fun _ => 50)).out = earlier ++ [off]) ∧
        mismatchesOf (testRandomReadROMBytes flippedRegion zeroRegion 1 3 (fun _ => 50)).out =
          [(1 * 65536 + 0xFA0000 + off, byteAt zeroRegion (1 * 65536 + off), byteAt flippedRegion (1 * 65536 + off))] ∧
        1 * 65536 + 0xFA0000 + off < 2 ^ 31 ∧
        (1 = 0 → 0xFA0000 ≤ 1 * 65536 + 0xFA0000 + off ∧ 1 * 65536 + 0xFA0000 + off ≤ 0xFAFFFF) ∧
        (1 = 1 → 0xFB0000 ≤ 1 * 65536 + 0xFA0000 + off ∧ 1 * 65536 + 0xFA0000 + off ≤ 0xFBFFFF))) ∧
    (∀ delta, delta < 65536 →
      real_memory 1 delta = 1 * 65536 + 0xFA0000 + delta ∧
      1 * 64 * 1024 + ROM4_MEMORY_START + delta < 2 ^ 31) ∧
    (∀ b1 b2 off1 off2, b1 ≤ 1 → b2 ≤ 1 → off1 < 32768 → off2 < 32768 →
      real_memory b1 (off1 * 2) = real_memory b2 (off2 * 2) → b1 = b2 ∧ off1 = off2) ∧
    (∀ b1 b2 off1 off2, b1 ≤ 1 → b2 ≤ 1 → off1 < 65536 → off2 < 65536 →
      real_memory b1 off1 = real_memory b2 off2 → b1 = b2 ∧ off1 = off2)) :=
  ⟨Nat.le_refl 1,
   mismatch_address_formula flippedRegion zeroRegion 1 3 (fun _ => 50) (Nat.le_refl 1)⟩

/-- C8: every position read by `testAddressLinesSequentialReadROM` is the word holding byte
address `1 << line` for a line between 1 and 14 (word index `(1 << line) >> 1`, which is
`1 << (line - 1)`); the lines are taken in increasing order (the reads are all requests of
lines 1, 2, ... in turn, cut short at the first failing request); and line 0 is never
generated: neither byte address `1 << 0` nor its word index is read. -/
theorem address_line_positions (rom_data file_data : Region) (rombank : Nat)
    (num_requests : Int) :
    (∀ w, w ∈ readsOf (testAddressLinesSequentialReadROM rom_data file_data rombank
        num_requests).out →
      ∃ line, 1 ≤ line ∧ line ≤ 14 ∧ w = (1 <<< line) >>> 1 ∧ w = 1 <<< (line - 1) ∧
        2 * w = 1 <<< line) ∧
    (readsOf (testAddressLinesSequentialReadROM rom_data file_data rombank num_requests).out =
        (List.range' 1 14).flatMap
          (fun line => List.replicate num_requests.toNat ((1 <<< line) >>> 1)) ∨
      ∃ k, 1 ≤ k ∧ k ≤ 14 ∧
        readsOf (testAddressLinesSequentialReadROM rom_data file_data rombank
          num_requests).out =
          (List.range' 1 (k - 1)).flatMap
            (fun line => List.replicate num_requests.toNat ((1 <<< line) >>> 1)) ++
          [(1 <<< k) >>> 1]) ∧
    List.Pairwise (fun a b => a ≤ b)
      (readsOf (testAddressLinesSequentialReadROM rom_data file_data rombank
        num_requests).out) ∧
    (∀ w, w ∈ readsOf (testAddressLinesSequentialReadROM rom_data file_data rombank
        num_requests).out →
      2 * w ≠ 1 <<< 0 ∧ w ≠ (1 <<< 0) >>> 1) := by
  have hmem : ∀ w, w ∈ readsOf (testAddressLinesSequentialReadROM rom_data file_data rombank
      num_requests).out → ∃ line, 1 ≤ line ∧ line ≤ 14 ∧ w = lineWord line := by
    intro w hw
    rcases testAddressLinesSequentialReadROM_reads rom_data file_data rombank num_requests
      with h | ⟨k, hk1, hk2, h⟩
    · rw [h] at hw
      obtain ⟨l, h1, h2, h3⟩ := mem_readsOf_lineEvents _ _ _ _ hw
      exact ⟨l, h1, by omega, h3⟩
    · rw [h, List.mem_append, List.mem_singleton] at hw
      rcases hw with hw | hw
      · obtain ⟨l, h1, h2, h3⟩ := mem_readsOf_lineEvents _ _ _ _ hw
        exact ⟨l, h1, by omega, h3⟩
      · exact ⟨k, hk1, hk2, hw⟩
  refine ⟨?_, ?_, ?_, ?_⟩
  · intro w hw
    obtain ⟨l, h1, h2, h3⟩ := hmem w hw
    have e1 := lineWord_eq l h1
    have e2 := one_shiftLeft_eq_lineWord l h1
    refine ⟨l, h1, h2, h3, ?_, ?_⟩
    · rw [h3, Nat.one_shiftLeft]
      exact e1
    · rw [h3, e2]
      omega
  · rcases testAddressLinesSequentialReadROM_reads rom_data file_data rombank num_requests
      with h | ⟨k, hk1, hk2, h⟩
    · left
      rw [h, readsOf_lineEvents]
      rfl
    · right
      refine ⟨k, hk1, hk2, ?_⟩
      rw [h, readsOf_lineEvents]
      rfl
  · rcases testAddressLinesSequentialReadROM_reads rom_data file_data rombank num_requests
      with h | ⟨k, hk1, hk2, h⟩
    · rw [h]
      exact pairwise_readsOf_lineEvents _ 1 14 (Nat.le_refl 1)
    · rw [h, List.pairwise_append]
      refine ⟨pairwise_readsOf_lineEvents _ 1 (k - 1) (Nat.le_refl 1),
        List.pairwise_singleton _ _, ?_⟩
      intro a ha b hb
      obtain ⟨l, h1, h2, h3⟩ := mem_readsOf_lineEvents _ _ _ _ ha
      rw [List.mem_singleton] at hb
      rw [h3, hb]
      exact lineWord_mono l k h1 (by omega)
  · intro w hw
    obtain ⟨l, h1, h2, h3⟩ := hmem w hw
    have hp := lineWord_pos l h1
    have h0 : (1 <<< 0) >>> 1 = 0 := by decide
    have h00 : 1 <<< 0 = 1 := by decide
    rw [h0, h00]
    omega

/-- Counterexample to C9 as stated (line A0, one request): the device differs from the reference
in the byte at address `1 << 0` of bank 0, hence in the word holding that address, yet
`testAddressLinesSequentialReadROM` returns 0 and never reads that word. -/
theorem address_line_zero_not_tested :
    (1 : Int) ≤ 1 ∧
    byteAt lineZeroRegion (0 * 65536 + 1 <<< 0) ≠ byteAt zeroRegion (0 * 65536 + 1 <<< 0) ∧
    wordAt lineZeroRegion (0 * 32768 + (1 <<< 0) >>> 1) ≠
      wordAt zeroRegion (0 * 32768 + (1 <<< 0) >>> 1) ∧
    (testAddressLinesSequentialReadROM lineZeroRegion zeroRegion 0 1).ret = 0 ∧
    (1 <<< 0) >>> 1 ∉
      readsOf (testAddressLinesSequentialReadROM lineZeroRegion zeroRegion 0 1).out := by
  have hpass := testAddressLinesSequentialReadROM_pass lineZeroRegion zeroRegion 0 1
    (fun l h1 _ => lineZeroRegion_word_agrees _ (by have := lineWord_pos l h1; omega))
  refine ⟨by decide, by decide, by decide, ?_, ?_⟩
  · rw [hpass]
  · rw [hpass, readsOf_line_pass_events]
    intro hmem
    obtain ⟨l, h1, _, h3⟩ := mem_readsOf_lineEvents _ _ _ _ hmem
    have hp := lineWord_pos l h1
    have h0 : (1 <<< 0) >>> 1 = 0 := by decide
    omega

/-- C9 as amended: for every address line `L` from A1 to A14 and `num_requests >= 1`, the word
read for the line is the one holding byte address `1 << L`; a mismatch in that word makes
`testAddressLinesSequentialReadROM` return 1; the word is read whenever no earlier line
failed; and when it is the first word to mismatch, the one mismatch printed carries the
address of byte `1 << L`, the line `L`, the reference word as expected and the device word
as actual. Nothing is stated about lines outside A1 to A14. -/
theorem address_lines_one_to_fourteen_tested (rom_data file_data : Region) (rombank : Nat)
    (num_requests : Int) (L : Nat) (hreq : 1 ≤ num_requests) (hL1 : 1 ≤ L) (hL2 : L ≤ 14) :
    2 * ((1 <<< L) >>> 1) = 1 <<< L ∧
    (wordAt rom_data (rombank * 32768 + (1 <<< L) >>> 1) ≠
        wordAt file_data (rombank * 32768 + (1 <<< L) >>> 1) →
      (testAddressLinesSequentialReadROM rom_data file_data rombank num_requests).ret = 1) ∧
    ((∀ l, 1 ≤ l → l < L →
        wordAt rom_data (rombank * 32768 + (1 <<< l) >>> 1) =
          wordAt file_data (rombank * 32768 + (1 <<< l) >>> 1)) →
      (1 <<< L) >>> 1 ∈
        readsOf (testAddressLinesSequentialReadROM rom_data file_data rombank num_requests).out) ∧
    ((∀ l, 1 ≤ l → l < L →
        wordAt rom_data (rombank * 32768 + (1 <<< l) >>> 1) =
          wordAt file_data (rombank * 32768 + (1 <<< l) >>> 1)) →
      wordAt rom_data (rombank * 32768 + (1 <<< L) >>> 1) ≠
        wordAt file_data (rombank * 32768 + (1 <<< L) >>> 1) →
      lineMismatchesOf
        (testAddressLinesSequentialReadROM rom_data file_data rombank num_requests).out =
          [(real_memory rombank (1 <<< L), L,
            wordAt file_data (rombank * 32768 + (1 <<< L) >>> 1),
            wordAt rom_data (rombank * 32768 + (1 <<< L) >>> 1))]) := by
  have hiff := testAddressLinesSequentialReadROM_ret_one_iff rom_data file_data rombank
    num_requests hreq
  have hread := testAddressLinesSequentialReadROM_reads_line rom_data file_data rombank
    num_requests L hreq hL1 hL2
  have hfail := testAddressLinesSequentialReadROM_fail rom_data file_data rombank
    num_requests L (by omega) hL1 hL2
  simp only [lineWord] at hiff hread hfail
  have e := one_shiftLeft_eq_lineWord L hL1
  simp only [lineWord] at e
  refine ⟨by omega, fun hne => hiff.2 ⟨L, hL1, hL2, hne⟩, hread, fun hlt hne => ?_⟩
  rw [hfail hne hlt]
  exact lineMismatchesOf_line_fail_events _ _ _ _ _ _ _ _ _ _

/-- Instance of the amended C9: one request, line A3, the device differing from the zero-filled
reference in the byte at address `1 << 3` of bank 0. -/
theorem address_lines_one_to_fourteen_tested_witness :
    ((1 : Int) ≤ 1 ∧ 1 ≤ 3 ∧ 3 ≤ 14 ∧
      wordAt lineThreeRegion (0 * 32768 + (1 <<< 3) >>> 1) ≠
        wordAt zeroRegion (0 * 32768 + (1 <<< 3) >>> 1) ∧
      (∀ l, 1 ≤ l → l < 3 →
        wordAt lineThreeRegion (0 * 32768 + (1 <<< l) >>> 1) =
          wordAt zeroRegion (0 * 32768 + (1 <<< l) >>> 1))) ∧
    (testAddressLinesSequentialReadROM lineThreeRegion zeroRegion 0 1).ret = 1 ∧
    (1 <<< 3) >>> 1 ∈
      readsOf (testAddressLinesSequentialReadROM lineThreeRegion zeroRegion 0 1).out ∧
    lineMismatchesOf (testAddressLinesSequentialReadROM lineThreeRegion zeroRegion 0 1).out =
      [(real_memory 0 (1 <<< 3), 3,
        wordAt zeroRegion (0 * 32768 + (1 <<< 3) >>> 1),
        wordAt lineThreeRegion (0 * 32768 + (1 <<< 3) >>> 1))] :=
  have hlt : ∀ l, 1 ≤ l → l < 3 →
      wordAt lineThreeRegion (0 * 32768 + (1 <<< l) >>> 1) =
        wordAt zeroRegion (0 * 32768 + (1 <<< l) >>> 1) := by
    intro l h1 h2
    interval_cases l <;> decide
  have h := address_lines_one_to_fourteen_tested lineThreeRegion zeroRegion 0 1 3
    (by decide) (by decide) (by decide)
  ⟨⟨by decide, by decide, by decide, by decide, hlt⟩, h.2.1 (by decide), h.2.2.1 hlt,
    h.2.2.2 hlt (by decide)⟩

/-- C10: the sequential pattern visits every offset of the bank exactly once, in strictly
increasing order: the offsets read by the sequential stats routines, and by the sequential
fail-fast routines when the bank windows match, are `0, 1, ..., count - 1` with 32768 words or
65536 bytes; and a second run that finds the bank window unchanged gives the same outcome as
the first, for all four sequential routines. -/
theorem sequential_pattern_visits_each_offset_once (rom_data file_data : Region)
    (rombank : Nat) :
    (readsOf (testSequentialReadROMStats rom_data file_data rombank).out = List.range 32768 ∧
      List.Pairwise (fun a b => a < b) (readsOf (testSequentialReadROMStats rom_data file_data rombank).out) ∧
      ∀ j, j ∈ readsOf (testSequentialReadROMStats rom_data file_data rombank).out ↔ j < 32768) ∧
    (readsOf (testSequentialReadROMBytesStats rom_data file_data rombank).out = List.range 65536 ∧
      List.Pairwise (fun a b => a < b) (readsOf (testSequentialReadROMBytesStats rom_data file_data rombank).out) ∧
      ∀ j, j ∈ readsOf (testSequentialReadROMBytesStats rom_data file_data rombank).out ↔ j < 65536) ∧
    ((∀ w, w < 32768 →
        wordAt rom_data (rombank * 32768 + w) = wordAt file_data (rombank * 32768 + w)) →
      (readsOf (testSequentialReadROM rom_data file_data rombank).out = List.range 32768 ∧
        List.Pairwise (fun a b => a < b) (readsOf (testSequentialReadROM rom_data file_data rombank).out) ∧
        ∀ j, j ∈ readsOf (testSequentialReadROM rom_data file_data rombank).out ↔ j < 32768)) ∧
    ((∀ a, a < 65536 → rom_data (rombank * 65536 + a) = file_data (rombank * 65536 + a)) →
      (readsOf (testSequentialReadROMBytes rom_data file_data rombank).out = List.range 65536 ∧
        List.Pairwise (fun a b => a < b) (readsOf (testSequentialReadROMBytes rom_data file_data rombank).out) ∧
        ∀ j, j ∈ readsOf (testSequentialReadROMBytes rom_data file_data rombank).out ↔ j < 65536)) ∧
    (∀ rom_again file_again : Region,
      (∀ a, rombank * 65536 ≤ a → a < (rombank + 1) * 65536 → rom_again a = rom_data a) →
      (∀ a, rombank * 65536 ≤ a → a < (rombank + 1) * 65536 → file_again a = file_data a) →
      testSequentialReadROM rom_again file_again rombank =
        testSequentialReadROM rom_data file_data rombank ∧
      testSequentialReadROMStats rom_again file_again rombank =
        testSequentialReadROMStats rom_data file_data rombank ∧
      testSequentialReadROMBytes rom_again file_again rombank =
        testSequentialReadROMBytes rom_data file_data rombank ∧
      testSequentialReadROMBytesStats rom_again file_again rombank =
        testSequentialReadROMBytesStats rom_data file_data rombank) := by
  have key : ∀ (l : List Nat) (n : Nat), l = List.range n →
      l = List.range n ∧ List.Pairwise (fun a b => a < b) l ∧ ∀ j, j ∈ l ↔ j < n := by
    intro l n h
    subst h
    exact ⟨rfl, List.pairwise_lt_range n, fun j => List.mem_range⟩
  refine ⟨key _ _ ?_, key _ _ ?_, fun h => key _ _ ?_, fun h => key _ _ ?_, ?_⟩
  · rw [testSequentialReadROMStats_eq, readsOf_reportStats, readsOf_label_visitEvents_id]
  · rw [testSequentialReadROMBytesStats_eq, readsOf_reportStats, readsOf_label_visitEvents_id]
  · rw [testSequentialReadROM_pass rom_data file_data rombank h, readsOf_pass_events]
  · rw [testSequentialReadROMBytes_pass rom_data file_data rombank h, readsOf_pass_events]
  · intro rom_again file_again hrom hfile
    exact ⟨testSequentialReadROM_window _ _ _ _ _ hrom hfile,
      testSequentialReadROMStats_window _ _ _ _ _ hrom hfile,
      testSequentialReadROMBytes_window _ _ _ _ _ hrom hfile,
      testSequentialReadROMBytesStats_window _ _ _ _ _ hrom hfile⟩

/-- Instance of C10: both regions zero-filled, bank 0; at the second run bank 0 is unchanged
(the device then has a byte of bank 1 flipped). -/
theorem sequential_pattern_visits_each_offset_once_witness :
    ((∀ w, w < 32768 → wordAt zeroRegion (0 * 32768 + w) = wordAt zeroRegion (0 * 32768 + w)) ∧
      (∀ a, a < 65536 → zeroRegion (0 * 65536 + a) = zeroRegion (0 * 65536 + a)) ∧
      (∀ a, 0 * 65536 ≤ a → a < (0 + 1) * 65536 → flippedRegion a = zeroRegion a) ∧
      (∀ a, 0 * 65536 ≤ a → a < (0 + 1) * 65536 → zeroRegion a = zeroRegion a)) ∧
    (readsOf (testSequentialReadROM zeroRegion zeroRegion 0).out = List.range 32768 ∧
      List.Pairwise (fun a b => a < b) (readsOf (testSequentialReadROM zeroRegion zeroRegion 0).out) ∧
      ∀ j, j ∈ readsOf (testSequentialReadROM zeroRegion zeroRegion 0).out ↔ j < 32768) ∧
    (readsOf (testSequentialReadROMBytes zeroRegion zeroRegion 0).out = List.range 65536 ∧
      List.Pairwise (fun a b => a < b) (readsOf (testSequentialReadROMBytes zeroRegion zeroRegion 0).out) ∧
      ∀ j, j ∈ readsOf (testSequentialReadROMBytes zeroRegion zeroRegion 0).out ↔ j < 65536) ∧
    (
      testSequentialReadROM flippedRegion zeroRegion 0 =
        testSequentialReadROM zeroRegion zeroRegion 0 ∧
      testSequentialReadROMStats flippedRegion zeroRegion 0 =
        testSequentialReadROMStats zeroRegion zeroRegion 0 ∧
      testSequentialReadROMBytes flippedRegion zeroRegion 0 =
        testSequentialReadROMBytes zeroRegion zeroRegion 0 ∧
      testSequentialReadROMBytesStats flippedRegion zeroRegion 0 =
        testSequentialReadROMBytesStats zeroRegion zeroRegion 0) :=
  have h := sequential_pattern_visits_each_offset_once zeroRegion zeroRegion 0
  ⟨⟨fun _ _ => rfl, fun _ _ => rfl, fun a _ h2 => flippedRegion_byte_agrees a (by omega),
     fun _ _ _ => rfl⟩,
   h.2.2.1 (fun _ _ => rfl), h.2.2.2.1 (fun _ _ => rfl),
   h.2.2.2.2 flippedRegion zeroRegion (fun a _ h2 => flippedRegion_byte_agrees a (by omega))
     (fun _ _ _ => rfl)⟩

/-- C11: with `num_requests = R >= 0` the sampling stats routines read exactly `R` offsets, the
offset of iteration `j` being `rand() & 0x7FFF` (words) or `rand() & (64 * 1024 - 1)` (bytes)
of the `j`-th value drawn; every offset read by any of the four sampling routines is below the
unit count of a bank (32768 words, 65536 bytes), whatever `rand()` returns; so every byte
touched lies inside the 64 KiB window of the selected bank. -/
theorem random_offsets_stay_in_bank (rom_data file_data : Region) (rombank : Nat)
    (num_requests : Int) (rand : Nat → Nat) :
    (0 ≤ num_requests →
      ((readsOf (testRandomReadROMStats rom_data file_data rombank num_requests rand).out).length : Int) =
        num_requests ∧
      ((readsOf (testRandomReadROMBytesStats rom_data file_data rombank num_requests rand).out).length : Int) =
        num_requests) ∧
    readsOf (testRandomReadROMStats rom_data file_data rombank num_requests rand).out =
      (List.range (Int.toNat num_requests)).map (fun j => u32 (rand j &&& 0x7FFF)) ∧
    readsOf (testRandomReadROMBytesStats rom_data file_data rombank num_requests rand).out =
      (List.range (Int.toNat num_requests)).map (fun j => u32 (rand j &&& (64 * 1024 - 1))) ∧
    (∀ p, p ∈ readsOf (testRandomReadROM rom_data file_data rombank num_requests rand).out → p < 32768) ∧
    (∀ p, p ∈ readsOf (testRandomReadROMStats rom_data file_data rombank num_requests rand).out → p < 32768) ∧
    (∀ p, p ∈ readsOf (testRandomReadROMBytes rom_data file_data rombank num_requests rand).out → p < 65536) ∧
    (∀ p, p ∈ readsOf (testRandomReadROMBytesStats rom_data file_data rombank num_requests rand).out →
      p < 65536) ∧
    (∀ j, rand j &&& 0x7FFF < 32768 ∧ randomWord rand j = rand j % 32768) ∧
    (∀ j, rand j &&& (64 * 1024 - 1) < 65536 ∧ randomByte rand j = rand j % 65536) ∧
    (∀ p, p < 32768 →
      rombank * 65536 ≤ 2 * (rombank * 64 * 1024 / 2 + p) ∧
      2 * (rombank * 64 * 1024 / 2 + p) + 1 < (rombank + 1) * 65536) ∧
    (∀ p, p < 65536 →
      rombank * 65536 ≤ rombank * 64 * 1024 + p ∧ rombank * 64 * 1024 + p < (rombank + 1) * 65536) := by
  refine ⟨?_, ?_, ?_, ?_, ?_, ?_, ?_, ?_, ?_, ?_, ?_⟩
  · intro h0
    rw [testRandomReadROMStats_reads, testRandomReadROMBytesStats_reads]
    simp only [List.length_map, List.length_range]
    exact ⟨Int.toNat_of_nonneg h0, Int.toNat_of_nonneg h0⟩
  · rw [testRandomReadROMStats_reads]
    rfl
  · rw [testRandomReadROMBytesStats_reads]
    rfl
  · intro p hp
    obtain ⟨m, _, hm⟩ := testRandomReadROM_reads rom_data file_data rombank num_requests rand
    rw [hm] at hp
    exact mem_map_randomWord_lt rand m p hp
  · intro p hp
    rw [testRandomReadROMStats_reads] at hp
    exact mem_map_randomWord_lt rand _ p hp
  · intro p hp
    obtain ⟨m, _, hm⟩ :=
      testRandomReadROMBytes_reads rom_data file_data rombank num_requests rand
    rw [hm] at hp
    exact mem_map_randomByte_lt rand m p hp
  · intro p hp
    rw [testRandomReadROMBytesStats_reads] at hp
    exact mem_map_randomByte_lt rand _ p hp
  · intro j
    have h := and_word_mask (rand j)
    refine ⟨by omega, ?_⟩
    unfold randomWord u32
    omega
  · intro j
    have h := and_byte_mask (rand j)
    refine ⟨by omega, ?_⟩
    unfold randomByte u32
    omega
  · intro p hp
    omega
  · intro p hp
    omega

/-- Instance of C11 with `num_requests = 3 >= 0`, bank 1, the samples drawn being
`70000, 70001, ...`. -/
theorem random_offsets_stay_in_bank_witness :
    (0 : Int) ≤ 3 ∧
    ((readsOf (testRandomReadROMStats flippedRegion zeroRegion 1 3
        (fun j => 70000 + j)).out).length : Int) = 3 ∧
    ((readsOf (testRandomReadROMBytesStats flippedRegion zeroRegion 1 3
        (fun j => 70000 + j)).out).length : Int) = 3 :=
  ⟨by decide,
   (random_offsets_stay_in_bank flippedRegion zeroRegion 1 3 (fun j => 70000 + j)).1
     (by decide)⟩

/-- C16: the sampling fail-fast routines compare the sampled offsets in the order they are
drawn.  They return 1 exactly when one of the first `num_requests` samples mismatches and 0
otherwise; without a mismatch all samples are read, in order; with `k` the first mismatching
draw they print that one mismatch (address `rombank * 65536 + 0xFA0000 + offset * unit size`,
the reference value as expected, the device value as actual), read the offsets of the draws
`0, ..., k` only, and nothing depends on the values `rand()` would have returned after
draw `k`. -/
theorem random_failfast_reports_first_sampled_mismatch (rom_data file_data : Region)
    (rombank : Nat) (num_requests : Int) (rand : Nat → Nat) (hb : rombank ≤ 1) :
    (((testRandomReadROM rom_data file_data rombank num_requests rand).ret = 1 ↔
        ∃ j, j < Int.toNat num_requests ∧
          wordAt rom_data (rombank * 32768 + u32 (rand j &&& 0x7FFF)) ≠
            wordAt file_data (rombank * 32768 + u32 (rand j &&& 0x7FFF))) ∧
      ((testRandomReadROM rom_data file_data rombank num_requests rand).ret = 0 ↔
        ∀ j, j < Int.toNat num_requests →
          wordAt rom_data (rombank * 32768 + u32 (rand j &&& 0x7FFF)) =
            wordAt file_data (rombank * 32768 + u32 (rand j &&& 0x7FFF))) ∧
      ((∀ j, j < Int.toNat num_requests →
          wordAt rom_data (rombank * 32768 + u32 (rand j &&& 0x7FFF)) =
            wordAt file_data (rombank * 32768 + u32 (rand j &&& 0x7FFF))) →
        readsOf (testRandomReadROM rom_data file_data rombank num_requests rand).out =
          (List.range (Int.toNat num_requests)).map (fun j => u32 (rand j &&& 0x7FFF)) ∧
        mismatchesOf (testRandomReadROM rom_data file_data rombank num_requests rand).out = []) ∧
      (∀ k, k < Int.toNat num_requests →
        wordAt rom_data (rombank * 32768 + u32 (rand k &&& 0x7FFF)) ≠
          wordAt file_data (rombank * 32768 + u32 (rand k &&& 0x7FFF)) →
        (∀ j, j < k →
          wordAt rom_data (rombank * 32768 + u32 (rand j &&& 0x7FFF)) =
            wordAt file_data (rombank * 32768 + u32 (rand j &&& 0x7FFF))) →
        (testRandomReadROM rom_data file_data rombank num_requests rand).ret = 1 ∧
        mismatchesOf (testRandomReadROM rom_data file_data rombank num_requests rand).out =
          [(rombank * 65536 + 0xFA0000 + u32 (rand k &&& 0x7FFF) * 2,
            wordAt file_data (rombank * 32768 + u32 (rand k &&& 0x7FFF)),
            wordAt rom_data (rombank * 32768 + u32 (rand k &&& 0x7FFF)))] ∧
        readsOf (testRandomReadROM rom_data file_data rombank num_requests rand).out =
          (List.range (k + 1)).map (fun j => u32 (rand j &&& 0x7FFF)) ∧
        ∀ rand_other : Nat → Nat, (∀ j, j ≤ k → rand_other j = rand j) →
          testRandomReadROM rom_data file_data rombank num_requests rand_other =
            testRandomReadROM rom_data file_data rombank num_requests rand)) ∧
    (((testRandomReadROMBytes rom_data file_data rombank num_requests rand).ret = 1 ↔
        ∃ j, j < Int.toNat num_requests ∧
          byteAt rom_data (rombank * 65536 + u32 (rand j &&& (64 * 1024 - 1))) ≠
            byteAt file_data (rombank * 65536 + u32 (rand j &&& (64 * 1024 - 1)))) ∧
      ((testRandomReadROMBytes rom_data file_data rombank num_requests rand).ret = 0 ↔
        ∀ j, j < Int.toNat num_requests →
          byteAt rom_data (rombank * 65536 + u32 (rand j &&& (64 * 1024 - 1))) =
            byteAt file_data (rombank * 65536 + u32 (rand j &&& (64 * 1024 - 1)))) ∧
      ((∀ j, j < Int.toNat num_requests →
          byteAt rom_data (rombank * 65536 + u32 (rand j &&& (64 * 1024 - 1))) =
            byteAt file_data (rombank * 65536 + u32 (rand j &&& (64 * 1024 - 1)))) →
        readsOf (testRandomReadROMBytes rom_data file_data rombank num_requests rand).out =
          (List.range (Int.toNat num_requests)).map (fun j => u32 (rand j &&& (64 * 1024 - 1))) ∧
        mismatchesOf (testRandomReadROMBytes rom_data file_data rombank num_requests rand).out = []) ∧
      (∀ k, k < Int.toNat num_requests →
        byteAt rom_data (rombank * 65536 + u32 (rand k &&& (64 * 1024 - 1))) ≠
          byteAt file_data (rombank * 65536 + u32 (rand k &&& (64 * 1024 - 1))) →
        (∀ j, j < k →
          byteAt rom_data (rombank * 65536 + u32 (rand j &&& (64 * 1024 - 1))) =
            byteAt file_data (rombank * 65536 + u32 (rand j &&& (64 * 1024 - 1)))) →
        (testRandomReadROMBytes rom_data file_data rombank num_requests rand).ret = 1 ∧
        mismatchesOf (testRandomReadROMBytes rom_data file_data rombank num_requests rand).out =
          [(rombank * 65536 + 0xFA0000 + u32 (rand k &&& (64 * 1024 - 1)),
            byteAt file_data (rombank * 65536 + u32 (rand k &&& (64 * 1024 - 1))),
            byteAt rom_data (rombank * 65536 + u32 (rand k &&& (64 * 1024 - 1))))] ∧
        readsOf (testRandomReadROMBytes rom_data file_data rombank num_requests rand).out =
          (List.range (k + 1)).map (fun j => u32 (rand j &&& (64 * 1024 - 1))) ∧
        ∀ rand_other : Nat → Nat, (∀ j, j ≤ k → rand_other j = rand j) →
          testRandomReadROMBytes rom_data file_data rombank num_requests rand_other =
            testRandomReadROMBytes rom_data file_data rombank num_requests rand)) := by
  refine ⟨?_, ?_⟩
  · have hz := testRandomReadROM_ret_zero_iff rom_data file_data rombank num_requests rand
    have hl := testRandomReadROM_ret_le_one rom_data file_data rombank num_requests rand
    simp only [randomWord] at hz
    refine ⟨?_, hz, ?_, ?_⟩
    · constructor
      · intro h1
        by_contra hc
        have hall := hz.2 (fun j hj => by_contra (fun hne => hc ⟨j, hj, hne⟩))
        omega
      · rintro ⟨j, hj, hne⟩
        rcases hl with h0 | h1
        · exact absurd (hz.1 h0 j hj) hne
        · exact h1
    · intro hall
      have hp := testRandomReadROM_pass rom_data file_data rombank num_requests rand hall
      rw [hp]
      exact ⟨readsOf_pass_events_pos _ _ _ _ _, mismatchesOf_pass_events _ _ _ _ _⟩
    · intro k hk hne hlt
      have hf := testRandomReadROM_fail rom_data file_data rombank num_requests rand k hk hne hlt
      have hlt32 := randomWord_lt rand k
      simp only [randomWord] at hf hlt32
      refine ⟨?_, ?_, ?_, ?_⟩
      · rw [hf]
      · rw [hf, mismatchesOf_fail_events, real_memory_eq rombank _ hb (by omega)]
      · rw [hf]
        exact readsOf_fail_events _ _ _ (fun j => u32 (rand j &&& _)) k _ _ _
      · intro rand_other hsame
        exact testRandomReadROM_fail_indep rom_data file_data rombank num_requests rand
          rand_other k hk hne hlt hsame
  · have hz := testRandomReadROMBytes_ret_zero_iff rom_data file_data rombank num_requests rand
    have hl := testRandomReadROMBytes_ret_le_one rom_data file_data rombank num_requests rand
    simp only [randomByte] at hz
    refine ⟨?_, hz, ?_, ?_⟩
    · constructor
      · intro h1
        by_contra hc
        have hall := hz.2 (fun j hj => by_contra (fun hne => hc ⟨j, hj, hne⟩))
        omega
      · rintro ⟨j, hj, hne⟩
        rcases hl with h0 | h1
        · exact absurd (hz.1 h0 j hj) hne
        · exact h1
    · intro hall
      have hp := testRandomReadROMBytes_pass rom_data file_data rombank num_requests rand hall
      rw [hp]
      exact ⟨readsOf_pass_events_pos _ _ _ _ _, mismatchesOf_pass_events _ _ _ _ _⟩
    · intro k hk hne hlt
      have hf := testRandomReadROMBytes_fail rom_data file_data rombank num_requests rand k hk hne hlt
      have hlt32 := randomByte_lt rand k
      simp only [randomByte] at hf hlt32
      refine ⟨?_, ?_, ?_, ?_⟩
      · rw [hf]
      · rw [hf, mismatchesOf_fail_events, real_memory_eq rombank _ hb (by omega)]
      · rw [hf]
        exact readsOf_fail_events _ _ _ (fun j => u32 (rand j &&& _)) k _ _ _
      · intro rand_other hsame
        exact testRandomReadROMBytes_fail_indep rom_data file_data rombank num_requests rand
          rand_other k hk hne hlt hsame

/-- Instance of C16: bank 1, the zero-filled reference against the device with the byte at
offset `65536 + 100` flipped, three requests, the samples drawn being `0, 50, 100`: word 50 is
the second draw, byte 100 the third. -/
theorem random_failfast_reports_first_sampled_mismatch_witness :
    ((1 : Nat) ≤ 1 ∧ 1 < Int.toNat 3 ∧
      wordAt flippedRegion (1 * 32768 + u32 (50 * 1 &&& 0x7FFF)) ≠
        wordAt zeroRegion (1 * 32768 + u32 (50 * 1 &&& 0x7FFF)) ∧
      (∀ j, j < 1 →
        wordAt flippedRegion (1 * 32768 + u32 (50 * j &&& 0x7FFF)) =
          wordAt zeroRegion (1 * 32768 + u32 (50 * j &&& 0x7FFF)))) ∧
    ((testRandomReadROM flippedRegion zeroRegion 1 3 (fun j => 50 * j)).ret = 1 ∧
      mismatchesOf (testRandomReadROM flippedRegion zeroRegion 1 3 (fun j => 50 * j)).out =
        [(0xFB0064, 0, 256)] ∧
      readsOf (testRandomReadROM flippedRegion zeroRegion 1 3 (fun j => 50 * j)).out =
        [0, 50]) ∧
    (2 < Int.toNat 3 ∧
      byteAt flippedRegion (1 * 65536 + u32 (50 * 2 &&& (64 * 1024 - 1))) ≠
        byteAt zeroRegion (1 * 65536 + u32 (50 * 2 &&& (64 * 1024 - 1))) ∧
      (∀ j, j < 2 →
        byteAt flippedRegion (1 * 65536 + u32 (50 * j &&& (64 * 1024 - 1))) =
          byteAt zeroRegion (1 * 65536 + u32 (50 * j &&& (64 * 1024 - 1))))) ∧
    ((testRandomReadROMBytes flippedRegion zeroRegion 1 3 (fun j => 50 * j)).ret = 1 ∧
      mismatchesOf (testRandomReadROMBytes flippedRegion zeroRegion 1 3 (fun j => 50 * j)).out =
        [(0xFB0064, 0, 1)] ∧
      readsOf (testRandomReadROMBytes flippedRegion zeroRegion 1 3 (fun j => 50 * j)).out =
        [0, 50, 100]) :=
  have hw : ∀ j, j < 1 →
      wordAt flippedRegion (1 * 32768 + u32 (50 * j &&& 0x7FFF)) =
        wordAt zeroRegion (1 * 32768 + u32 (50 * j &&& 0x7FFF)) := by
    intro j hj
    interval_cases j
    decide
  have hbt : ∀ j, j < 2 →
      byteAt flippedRegion (1 * 65536 + u32 (50 * j &&& (64 * 1024 - 1))) =
        byteAt zeroRegion (1 * 65536 + u32 (50 * j &&& (64 * 1024 - 1))) := by
    intro j hj
    interval_cases j <;> decide
  have h := random_failfast_reports_first_sampled_mismatch flippedRegion zeroRegion 1 3
    (fun j => 50 * j) (Nat.le_refl 1)
  have h1 := h.1.2.2.2 1 (by decide) (by decide) hw
  have h2 := h.2.2.2.2 2 (by decide) (by decide) hbt
  ⟨⟨Nat.le_refl 1, by decide, by decide, hw⟩, ⟨h1.1, h1.2.1, h1.2.2.1⟩,
   ⟨by decide, by decide, hbt⟩, ⟨h2.1, h2.2.1, h2.2.2.1⟩⟩

/-- C17: the repetition in the address-line test is a no-op.  For `num_requests >= 1`,
`testAddressLinesSequentialReadROM` returns the same value and prints the same mismatch line
(address, line, expected, actual) as with `num_requests = 1`, and reads the same words (only
more often). -/
theorem address_line_repetition_is_noop (rom_data file_data : Region) (rombank : Nat)
    (num_requests : Int) (hreq : 1 ≤ num_requests) :
    (testAddressLinesSequentialReadROM rom_data file_data rombank num_requests).ret =
      (testAddressLinesSequentialReadROM rom_data file_data rombank 1).ret ∧
    lineMismatchesOf
        (testAddressLinesSequentialReadROM rom_data file_data rombank num_requests).out =
      lineMismatchesOf (testAddressLinesSequentialReadROM rom_data file_data rombank 1).out ∧
    (∀ w,
      w ∈ readsOf
          (testAddressLinesSequentialReadROM rom_data file_data rombank num_requests).out ↔
        w ∈ readsOf (testAddressLinesSequentialReadROM rom_data file_data rombank 1).out) := by
  have hn1 : 0 < num_requests.toNat := by omega
  have hn2 : 0 < (1 : Int).toNat := by decide
  by_cases hall : ∀ l, 1 ≤ l → l ≤ 14 →
      wordAt rom_data (rombank * 32768 + lineWord l) =
        wordAt file_data (rombank * 32768 + lineWord l)
  · rw [testAddressLinesSequentialReadROM_pass rom_data file_data rombank num_requests hall,
      testAddressLinesSequentialReadROM_pass rom_data file_data rombank 1 hall]
    refine ⟨rfl, ?_, ?_⟩
    · rw [lineMismatchesOf_line_pass_events, lineMismatchesOf_line_pass_events]
    · intro w
      rw [readsOf_line_pass_events, readsOf_line_pass_events,
        mem_readsOf_lineEvents_iff _ _ _ _ hn1, mem_readsOf_lineEvents_iff _ _ _ _ hn2]
  · obtain ⟨k, hk1, hk2, hne, hlt⟩ := exists_first_failure
      (fun l => wordAt rom_data (rombank * 32768 + lineWord l) =
        wordAt file_data (rombank * 32768 + lineWord l))
      1 14 (fun hc => hall (fun l h1 h2 => hc l h1 (by omega)))
    rw [testAddressLinesSequentialReadROM_fail rom_data file_data rombank num_requests k
        hn1 hk1 (by omega) hne hlt,
      testAddressLinesSequentialReadROM_fail rom_data file_data rombank 1 k
        hn2 hk1 (by omega) hne hlt]
    refine ⟨rfl, ?_, ?_⟩
    · rw [lineMismatchesOf_line_fail_events, lineMismatchesOf_line_fail_events]
    · intro w
      rw [readsOf_line_fail_events, readsOf_line_fail_events, List.mem_append,
        List.mem_append, mem_readsOf_lineEvents_iff _ _ _ _ hn1,
        mem_readsOf_lineEvents_iff _ _ _ _ hn2]

/-- Instance of C17: five requests per line, the device differing from the zero-filled
reference in the byte at address `1 << 3` of bank 0. -/
theorem address_line_repetition_is_noop_witness :
    (1 : Int) ≤ 5 ∧
    (testAddressLinesSequentialReadROM lineThreeRegion zeroRegion 0 5).ret =
      (testAddressLinesSequentialReadROM lineThreeRegion zeroRegion 0 1).ret ∧
    lineMismatchesOf (testAddressLinesSequentialReadROM lineThreeRegion zeroRegion 0 5).out =
      lineMismatchesOf (testAddressLinesSequentialReadROM lineThreeRegion zeroRegion 0 1).out ∧
    (∀ w,
      w ∈ readsOf (testAddressLinesSequentialReadROM lineThreeRegion zeroRegion 0 5).out ↔
        w ∈ readsOf (testAddressLinesSequentialReadROM lineThreeRegion zeroRegion 0 1).out) :=
  ⟨by decide, address_line_repetition_is_noop lineThreeRegion zeroRegion 0 5 (by decide)⟩

/-- C19: word and byte granularity agree on pass or fail.  `testSequentialReadROM` returns 0
exactly when `testSequentialReadROMBytes` does; the failure counts `W` (words) and `B` (bytes)
printed by the two sequential stats routines satisfy `W <= B <= 2 * W`; and whether two words
are equal does not depend on the byte order used to form them. -/
theorem word_and_byte_granularity_agree (rom_data file_data : Region) (rombank : Nat) :
    ((testSequentialReadROM rom_data file_data rombank).ret = 0 ↔
      (testSequentialReadROMBytes rom_data file_data rombank).ret = 0) ∧
    (∃ sw W sb B,
      statsOf (testSequentialReadROMStats rom_data file_data rombank).out = [(sw, W)] ∧
      statsOf (testSequentialReadROMBytesStats rom_data file_data rombank).out = [(sb, B)] ∧
      W ≤ B ∧ B ≤ 2 * W) ∧
    (∀ w, wordAt rom_data w = wordAt file_data w ↔
      wordAtLittleEndian rom_data w = wordAtLittleEndian file_data w) := by
  refine ⟨?_, ?_, ?_⟩
  · rw [testSequentialReadROM_ret_zero_iff, testSequentialReadROMBytes_ret_zero_iff]
    exact bank_words_eq_iff_bytes_eq rom_data file_data rombank
  · have hc := countP_pairs
      (fun w => wordAt rom_data (rombank * 32768 + w) ≠ wordAt file_data (rombank * 32768 + w))
      (fun a => byteAt rom_data (rombank * 65536 + a) ≠ byteAt file_data (rombank * 65536 + a))
      (fun w => bank_word_ne_iff rom_data file_data rombank w) 32768
    have e : 2 * 32768 = 65536 := rfl
    rw [e] at hc
    refine ⟨(List.range 32768).countP (fun w =>
        wordAt rom_data (rombank * 32768 + w) = wordAt file_data (rombank * 32768 + w)),
      _, (List.range 65536).countP (fun a =>
        byteAt rom_data (rombank * 65536 + a) = byteAt file_data (rombank * 65536 + a)),
      _, ?_, ?_, hc.1, hc.2⟩
    · rw [testSequentialReadROMStats_eq,
        statsOf_reportStats _ _ _ (statsOf_label_visitEvents _ _ _ _ _)]
    · rw [testSequentialReadROMBytesStats_eq,
        statsOf_reportStats _ _ _ (statsOf_label_visitEvents _ _ _ _ _)]
  · intro w
    rw [wordAt_eq_iff, wordAtLittleEndian_eq_iff]

/-- C20: the sampling tests are sound with respect to the exhaustive one.  If
`testSequentialReadROM` returns 0 then, for every `num_requests` and every sequence of values
of `rand()`, `testRandomReadROM`, `testRandomReadROMBytes` and
`testAddressLinesSequentialReadROM` return 0 and the two sampling stats routines report
failure count 0; equivalently, a failure of any of them implies that the sequential test
returns 1. -/
theorem sampling_sound_for_sequential (rom_data file_data : Region) (rombank : Nat) :
    ((testSequentialReadROM rom_data file_data rombank).ret = 0 →
      ∀ (num_requests : Int) (rand : Nat → Nat),
      (testRandomReadROM rom_data file_data rombank num_requests rand).ret = 0 ∧
      (testRandomReadROMBytes rom_data file_data rombank num_requests rand).ret = 0 ∧
      (testAddressLinesSequentialReadROM rom_data file_data rombank num_requests).ret = 0 ∧
      statsOf (testRandomReadROMStats rom_data file_data rombank num_requests rand).out =
        [(Int.toNat num_requests, 0)] ∧
      statsOf (testRandomReadROMBytesStats rom_data file_data rombank num_requests rand).out =
        [(Int.toNat num_requests, 0)]) ∧
    (∀ (num_requests : Int) (rand : Nat → Nat),
      ((testRandomReadROM rom_data file_data rombank num_requests rand).ret = 1 ∨
        (testRandomReadROMBytes rom_data file_data rombank num_requests rand).ret = 1 ∨
        (testAddressLinesSequentialReadROM rom_data file_data rombank num_requests).ret = 1 ∨
        (testRandomReadROMStats rom_data file_data rombank num_requests rand).ret = 1 ∨
        (testRandomReadROMBytesStats rom_data file_data rombank num_requests rand).ret = 1) →
      (testSequentialReadROM rom_data file_data rombank).ret = 1) := by
  constructor
  · intro h num_requests rand
    have hs := sampling_passes_of_sequential_pass rom_data file_data rombank h num_requests rand
    exact ⟨hs.1, hs.2.1, hs.2.2.1, hs.2.2.2.1.1, hs.2.2.2.2.1⟩
  · intro num_requests rand hfail
    rcases testSequentialReadROM_ret_le_one rom_data file_data rombank with h0 | h1
    · have hs := sampling_passes_of_sequential_pass rom_data file_data rombank h0
        num_requests rand
      have a1 := hs.1
      have a2 := hs.2.1
      have a3 := hs.2.2.1
      have a4 := hs.2.2.2.1.2
      have a5 := hs.2.2.2.2.2
      omega
    · exact h1

/-- Instance of C20: the zero-filled regions pass the sequential test on bank 0, so all sampling
tests pass; on bank 1 the device with one flipped byte fails the sampling test that draws
word 50, and the sequential test fails too. -/
theorem sampling_sound_for_sequential_witness :
    ((testSequentialReadROM zeroRegion zeroRegion 0).ret = 0 ∧
      (testRandomReadROM zeroRegion zeroRegion 0 1000 (fun j => 7 * j)).ret = 0 ∧
      (testRandomReadROMBytes zeroRegion zeroRegion 0 1000 (fun j => 7 * j)).ret = 0 ∧
      (testAddressLinesSequentialReadROM zeroRegion zeroRegion 0 1000).ret = 0 ∧
      statsOf (testRandomReadROMStats zeroRegion zeroRegion 0 1000 (fun j => 7 * j)).out =
        [(Int.toNat 1000, 0)] ∧
      statsOf (testRandomReadROMBytesStats zeroRegion zeroRegion 0 1000 (fun j => 7 * j)).out =
        [(Int.toNat 1000, 0)]) ∧
    ((testRandomReadROM flippedRegion zeroRegion 1 1 (fun _ => 50)).ret = 1 ∧
      (testSequentialReadROM flippedRegion zeroRegion 1).ret = 1) :=
  have h0 : (testSequentialReadROM zeroRegion zeroRegion 0).ret = 0 :=
    (testSequentialReadROM_ret_zero_iff zeroRegion zeroRegion 0).2 (fun _ _ => rfl)
  have h1 : (testRandomReadROM flippedRegion zeroRegion 1 1 (fun _ => 50)).ret = 1 := by
    rw [testRandomReadROM_fail flippedRegion zeroRegion 1 1 (fun _ => 50) 0 (by decide)
      (by decide) (fun j hj => absurd hj (Nat.not_lt_zero j))]
  ⟨⟨h0, (sampling_sound_for_sequential zeroRegion zeroRegion 0).1 h0 1000 (fun j => 7 * j)⟩,
   ⟨h1, (sampling_sound_for_sequential flippedRegion zeroRegion 1).2 1 (fun _ => 50)
     (Or.inl h1)⟩⟩

/-- C13: when the reference image is loaded but its length is not 128 KiB, `run` prints the
wrong-size error, and when loading fails it prints the load error; in both cases no check is
made at all, neither the version check nor any comparison routine. -/
theorem run_without_image_runs_no_test (VERSION : List Nat) (debug highRes : Bool)
    (env : LoadEnv) (rom_memory : Region) (rand : Nat → Nat → Nat) :
    (∀ (data : Region) (file_size : Nat),
      load_binary_file env = Except.ok (data, file_size) → file_size ≠ 128 * 1024 →
      run VERSION debug highRes env rom_memory rand =
        [RunEvent.screenSetup highRes, RunEvent.banner VERSION, RunEvent.wrongSize,
          RunEvent.pressAnyKey, RunEvent.screenRestore] ∧
      checksOf (run VERSION debug highRes env rom_memory rand) = []) ∧
    (∀ e : LoadError, load_binary_file env = Except.error e →
      run VERSION debug highRes env rom_memory rand =
        [RunEvent.screenSetup highRes, RunEvent.banner VERSION, RunEvent.loadError e,
          RunEvent.notFound, RunEvent.pressAnyKey, RunEvent.screenRestore] ∧
      checksOf (run VERSION debug highRes env rom_memory rand) = []) := by
  constructor
  · intro data file_size hload hsize
    have h := run_wrong_size VERSION debug highRes env data rom_memory file_size rand hload
      hsize
    refine ⟨h, ?_⟩
    rw [h]
    rfl
  · intro e hload
    have h := run_load_failed VERSION debug highRes env rom_memory rand e hload
    refine ⟨h, ?_⟩
    rw [h]
    rfl

/-- Instance of C13: an image of 64 KiB, and an image that cannot be opened. -/
theorem run_without_image_runs_no_test_witness :
    (load_binary_file (LoadEnv.file (64 * 1024) zeroRegion true true) =
        Except.ok (zeroRegion, 64 * 1024) ∧ 64 * 1024 ≠ 128 * 1024 ∧
      run [49] false false (LoadEnv.file (64 * 1024) zeroRegion true true) flippedRegion
          (fun _ j => j) =
        [RunEvent.screenSetup false, RunEvent.banner [49], RunEvent.wrongSize,
          RunEvent.pressAnyKey, RunEvent.screenRestore] ∧
      checksOf (run [49] false false (LoadEnv.file (64 * 1024) zeroRegion true true)
        flippedRegion (fun _ j => j)) = []) ∧
    (load_binary_file LoadEnv.cannotOpen = Except.error LoadError.openFailed ∧
      checksOf (run [49] false false LoadEnv.cannotOpen flippedRegion (fun _ j => j)) =
        []) :=
  have h1 := (run_without_image_runs_no_test [49] false false
    (LoadEnv.file (64 * 1024) zeroRegion true true) flippedRegion (fun _ j => j)).1
    zeroRegion (64 * 1024) rfl (by decide)
  have h2 := (run_without_image_runs_no_test [49] false false LoadEnv.cannotOpen
    flippedRegion (fun _ j => j)).2 LoadError.openFailed rfl
  ⟨⟨rfl, by decide, h1.1, h1.2⟩, ⟨rfl, h2.2⟩⟩

/-- Counterexample to C14 as stated (a `VERSION` of three characters, `1.0`): the buffer holds
`1.0` followed by a zero byte at offset 4, `testDifferentVersions` returns 0, yet the 11 bytes
at offsets 4 to 14 are not the `VERSION` string. -/
theorem version_check_short_version_counterexample :
    (testDifferentVersions [49, 46, 48] shortVersionRegion).ret = 0 ∧
    (List.range 11).map (fun i => byteAt shortVersionRegion (4 + i)) ≠ [49, 46, 48] := by
  constructor
  · decide
  · decide

/-- C14 as amended: for a `VERSION` of exactly 11 characters (none of them zero),
`testDifferentVersions` returns 0 exactly when the 11 bytes at offsets 4 to 14 of the buffer
are the `VERSION` string, printing `Matches`, and returns 1 otherwise, printing the expected
string `VERSION` and the actual string; for any `VERSION` it returns 0 exactly when those
bytes, read as a C string, equal `VERSION` read as a C string. -/
theorem version_check_compares_eleven_bytes (VERSION : List Nat) (rom_data : Region)
    (hlen : VERSION.length = 11) (hnz : ∀ c, c ∈ VERSION → c ≠ 0) :
    ((testDifferentVersions VERSION rom_data).ret = 0 ↔ ((List.range 11).map (fun i => byteAt rom_data (4 + i))) = VERSION) ∧
    ((testDifferentVersions VERSION rom_data).ret = 1 ↔ ((List.range 11).map (fun i => byteAt rom_data (4 + i))) ≠ VERSION) ∧
    (((List.range 11).map (fun i => byteAt rom_data (4 + i))) = VERSION →
      (testDifferentVersions VERSION rom_data).out =
        [VersionEvent.label, VersionEvent.matches VERSION]) ∧
    (((List.range 11).map (fun i => byteAt rom_data (4 + i))) ≠ VERSION →
      (testDifferentVersions VERSION rom_data).out =
        [VersionEvent.label,
         VersionEvent.mismatch VERSION (cString (((List.range 11).map (fun i => byteAt rom_data (4 + i))) ++ [0]))]) ∧
    (∀ anyVersion : List Nat,
      (testDifferentVersions anyVersion rom_data).ret = 0 ↔
        cString (((List.range 11).map (fun i => byteAt rom_data (4 + i))) ++ [0]) = cString (anyVersion ++ [0])) := by
  have hv : cString (VERSION ++ [0]) = VERSION := cString_append_zero VERSION hnz
  have hlb : (((List.range 11).map (fun i => byteAt rom_data (4 + i)))).length = 11 := by
    rw [List.length_map, List.length_range]
  have hiff : cString (((List.range 11).map (fun i => byteAt rom_data (4 + i))) ++ [0]) = cString (VERSION ++ [0]) ↔ ((List.range 11).map (fun i => byteAt rom_data (4 + i))) = VERSION := by
    rw [hv]
    constructor
    · intro h
      have hl : (cString (((List.range 11).map (fun i => byteAt rom_data (4 + i))) ++ [0])).length = (((List.range 11).map (fun i => byteAt rom_data (4 + i)))).length := by
        rw [h, hlen, hlb]
      rw [cString_eq_of_length _ hl] at h
      exact h
    · intro h
      rw [h]
      exact hv
  have hz := testDifferentVersions_ret_zero_iff VERSION rom_data
  have hl := testDifferentVersions_ret_le_one VERSION rom_data
  refine ⟨hz.trans hiff, ?_, ?_, ?_, fun v => testDifferentVersions_ret_zero_iff v rom_data⟩
  · have h0 := hz.trans hiff
    constructor
    · intro h1 hb
      have := h0.2 hb
      omega
    · intro hne
      rcases hl with h | h
      · exact absurd (h0.1 h) hne
      · exact h
  · intro h
    have hc := hiff.2 h
    unfold testDifferentVersions strcmp_differs
    simp [hc, hv]
  · intro h
    have hc : ¬ cString (((List.range 11).map (fun i => byteAt rom_data (4 + i))) ++ [0]) =
        cString (VERSION ++ [0]) := fun hc => h (hiff.1 hc)
    rw [hv] at hc
    unfold testDifferentVersions strcmp_differs
    simp [hc, hv]

/-- Instance of the amended C14: the version `11111111111` against a device holding it. -/
theorem version_check_compares_eleven_bytes_witness :
    ([49, 49, 49, 49, 49, 49, 49, 49, 49, 49, 49] : List Nat).length = 11 ∧
    (∀ c, c ∈ ([49, 49, 49, 49, 49, 49, 49, 49, 49, 49, 49] : List Nat) → c ≠ 0) ∧
    (List.range 11).map (fun i => byteAt versionOnesRegion (4 + i)) = [49, 49, 49, 49, 49, 49, 49, 49, 49, 49, 49] ∧
    (testDifferentVersions [49, 49, 49, 49, 49, 49, 49, 49, 49, 49, 49] versionOnesRegion).ret = 0 :=
  have hnz : ∀ c, c ∈ ([49, 49, 49, 49, 49, 49, 49, 49, 49, 49, 49] : List Nat) → c ≠ 0 := by decide
  have hb : (List.range 11).map (fun i => byteAt versionOnesRegion (4 + i)) = [49, 49, 49, 49, 49, 49, 49, 49, 49, 49, 49] := by
    decide
  ⟨rfl, hnz, hb,
   (version_check_compares_eleven_bytes [49, 49, 49, 49, 49, 49, 49, 49, 49, 49, 49] versionOnesRegion rfl hnz).1.2 hb⟩

/-- Evaluation for C15: on identical zero-filled regions `testSequentialReadROMBytesStats`
counts 65536 successful requests and returns 0, not that count; in general it returns 0
or 1. -/
theorem bytes_stats_returns_flag_not_count :
    statsOf (testSequentialReadROMBytesStats zeroRegion zeroRegion 0).out = [(65536, 0)] ∧
    (testSequentialReadROMBytesStats zeroRegion zeroRegion 0).ret = 0 ∧
    (∀ (rom_data file_data : Region) (rombank : Nat),
      (testSequentialReadROMBytesStats rom_data file_data rombank).ret = 0 ∨
        (testSequentialReadROMBytesStats rom_data file_data rombank).ret = 1) :=
  ⟨testSequentialReadROMBytesStats_same zeroRegion zeroRegion 0 (fun _ _ => rfl),
   (testSequentialReadROMBytesStats_ret_zero_iff zeroRegion zeroRegion 0).2 (fun _ _ => rfl),
   testSequentialReadROMBytesStats_ret_le_one⟩

/-- Counterexample to C18 as stated: with the version `11111111111`, a reference image that
holds this string at offset 4 and a device that does not, the version check of `run` fails;
with a reference image that does not hold it and a device that does, it succeeds. -/
theorem version_check_ignores_reference_image :
    (versionOutcomesOf (run [49, 49, 49, 49, 49, 49, 49, 49, 49, 49, 49] false false
        (LoadEnv.file (128 * 1024) versionOnesRegion true true) zeroRegion
        (fun _ j => j))).map (fun o => o.ret) = [1] ∧
    (versionOutcomesOf (run [49, 49, 49, 49, 49, 49, 49, 49, 49, 49, 49] false false
        (LoadEnv.file (128 * 1024) zeroRegion true true) versionOnesRegion
        (fun _ j => j))).map (fun o => o.ret) = [0] := by
  rw [versionOutcomesOf_run_loaded [49, 49, 49, 49, 49, 49, 49, 49, 49, 49, 49] false false
      (LoadEnv.file (128 * 1024) versionOnesRegion true true) versionOnesRegion zeroRegion
      (fun _ j => j) rfl,
    versionOutcomesOf_run_loaded [49, 49, 49, 49, 49, 49, 49, 49, 49, 49, 49] false false
      (LoadEnv.file (128 * 1024) zeroRegion true true) zeroRegion versionOnesRegion
      (fun _ j => j) rfl]
  constructor
  · decide
  · decide

/-- C18 as amended: in `run`, the version check is made on the device region `rom_memory`: its
outcome is `testDifferentVersions VERSION rom_memory`, determined by `VERSION` and the 11
bytes at offsets 4 to 14 of the device region, and it does not depend on the content of the
loaded reference image. -/
theorem version_check_reads_device_region (VERSION : List Nat) (debug highRes : Bool)
    (env : LoadEnv) (data rom_memory : Region) (rand : Nat → Nat → Nat)
    (hload : load_binary_file env = Except.ok (data, 128 * 1024)) :
    versionOutcomesOf (run VERSION debug highRes env rom_memory rand) =
      [testDifferentVersions VERSION rom_memory] ∧
    (∀ (debug2 highRes2 : Bool) (env2 : LoadEnv) (data2 rom_memory2 : Region)
      (rand2 : Nat → Nat → Nat),
      load_binary_file env2 = Except.ok (data2, 128 * 1024) →
      (∀ i, i < 11 → rom_memory2 (4 + i) = rom_memory (4 + i)) →
      versionOutcomesOf (run VERSION debug2 highRes2 env2 rom_memory2 rand2) =
        versionOutcomesOf (run VERSION debug highRes env rom_memory rand)) := by
  have h := versionOutcomesOf_run_loaded VERSION debug highRes env data rom_memory rand hload
  refine ⟨h, ?_⟩
  intro debug2 highRes2 env2 data2 rom_memory2 rand2 hload2 hsame
  rw [h, versionOutcomesOf_run_loaded VERSION debug2 highRes2 env2 data2 rom_memory2 rand2
    hload2, testDifferentVersions_congr VERSION rom_memory rom_memory2 hsame]

/-- Instance of the amended C18: the same device, two different reference images. -/
theorem version_check_reads_device_region_witness :
    (load_binary_file (LoadEnv.file (128 * 1024) zeroRegion true true) =
        Except.ok (zeroRegion, 128 * 1024) ∧
      load_binary_file (LoadEnv.file (128 * 1024) versionOnesRegion true true) =
        Except.ok (versionOnesRegion, 128 * 1024) ∧
      (∀ i, i < 11 → versionOnesRegion (4 + i) = versionOnesRegion (4 + i))) ∧
    versionOutcomesOf (run [49, 49, 49, 49, 49, 49, 49, 49, 49, 49, 49] true false
        (LoadEnv.file (128 * 1024) versionOnesRegion true true) versionOnesRegion
        (fun _ j => 3 * j)) =
      versionOutcomesOf (run [49, 49, 49, 49, 49, 49, 49, 49, 49, 49, 49] false false
        (LoadEnv.file (128 * 1024) zeroRegion true true) versionOnesRegion (fun _ j => j)) :=
  ⟨⟨rfl, rfl, fun _ _ => rfl⟩,
   (version_check_reads_device_region [49, 49, 49, 49, 49, 49, 49, 49, 49, 49, 49] false false
      (LoadEnv.file (128 * 1024) zeroRegion true true) zeroRegion versionOnesRegion
      (fun _ j => j) rfl).2 true false
      (LoadEnv.file (128 * 1024) versionOnesRegion true true) versionOnesRegion
      versionOnesRegion (fun _ j => 3 * j) rfl (fun _ _ => rfl)⟩

/-- C21: vacuous pass.  For `num_requests <= 0`, whatever the bank and the regions hold
(matching or not), the four sampling routines and `testAddressLinesSequentialReadROM` read no
data and return 0, printing no mismatch, the stats routines reporting 0 successes and 0
failures. -/
theorem nonpositive_requests_pass_vacuously (rom_data file_data : Region) (rombank : Nat)
    (num_requests : Int) (rand : Nat → Nat) (hreq : num_requests ≤ 0) :
    ((testRandomReadROM rom_data file_data rombank num_requests rand).ret = 0 ∧
      readsOf (testRandomReadROM rom_data file_data rombank num_requests rand).out = [] ∧
      mismatchesOf (testRandomReadROM rom_data file_data rombank num_requests rand).out = []) ∧
    ((testRandomReadROMBytes rom_data file_data rombank num_requests rand).ret = 0 ∧
      readsOf (testRandomReadROMBytes rom_data file_data rombank num_requests rand).out = [] ∧
      mismatchesOf (testRandomReadROMBytes rom_data file_data rombank num_requests rand).out = []) ∧
    ((testRandomReadROMStats rom_data file_data rombank num_requests rand).ret = 0 ∧
      readsOf (testRandomReadROMStats rom_data file_data rombank num_requests rand).out = [] ∧
      statsOf (testRandomReadROMStats rom_data file_data rombank num_requests rand).out = [(0, 0)]) ∧
    ((testRandomReadROMBytesStats rom_data file_data rombank num_requests rand).ret = 0 ∧
      readsOf (testRandomReadROMBytesStats rom_data file_data rombank num_requests rand).out = [] ∧
      statsOf (testRandomReadROMBytesStats rom_data file_data rombank num_requests rand).out = [(0, 0)]) ∧
    ((testAddressLinesSequentialReadROM rom_data file_data rombank num_requests).ret = 0 ∧
      readsOf (testAddressLinesSequentialReadROM rom_data file_data rombank num_requests).out = [] ∧
      mismatchesOf (testAddressLinesSequentialReadROM rom_data file_data rombank num_requests).out = []) := by
  have ht := toNat_eq_zero_of_nonpos num_requests hreq
  have hw : ∀ j, j < num_requests.toNat →
      wordAt rom_data (rombank * 32768 + randomWord rand j) =
        wordAt file_data (rombank * 32768 + randomWord rand j) := by
    intro j hj
    omega
  have hb : ∀ j, j < num_requests.toNat →
      byteAt rom_data (rombank * 65536 + randomByte rand j) =
        byteAt file_data (rombank * 65536 + randomByte rand j) := by
    intro j hj
    omega
  have hsw := testRandomReadROMStats_same rom_data file_data rombank num_requests rand hw
  have hsb := testRandomReadROMBytesStats_same rom_data file_data rombank num_requests rand hb
  rw [ht] at hsw hsb
  refine ⟨⟨?_, ?_, ?_⟩, ⟨?_, ?_, ?_⟩, ⟨hsw.2, ?_, hsw.1⟩, ⟨hsb.2, ?_, hsb.1⟩, ⟨?_, ?_, ?_⟩⟩
  · rw [testRandomReadROM_pass rom_data file_data rombank num_requests rand hw]
  · rw [testRandomReadROM_pass rom_data file_data rombank num_requests rand hw,
      readsOf_pass_events_pos, ht]
    rfl
  · rw [testRandomReadROM_pass rom_data file_data rombank num_requests rand hw]
    exact mismatchesOf_pass_events _ _ _ _ _
  · rw [testRandomReadROMBytes_pass rom_data file_data rombank num_requests rand hb]
  · rw [testRandomReadROMBytes_pass rom_data file_data rombank num_requests rand hb,
      readsOf_pass_events_pos, ht]
    rfl
  · rw [testRandomReadROMBytes_pass rom_data file_data rombank num_requests rand hb]
    exact mismatchesOf_pass_events _ _ _ _ _
  · rw [testRandomReadROMStats_reads, ht]
    rfl
  · rw [testRandomReadROMBytesStats_reads, ht]
    rfl
  · rw [testAddressLinesSequentialReadROM_idle rom_data file_data rombank num_requests ht]
  · rw [testAddressLinesSequentialReadROM_idle rom_data file_data rombank num_requests ht,
      readsOf_line_pass_events, readsOf_lineEvents_idle]
  · rw [testAddressLinesSequentialReadROM_idle rom_data file_data rombank num_requests ht]
    exact mismatchesOf_line_pass_events _ _ _ _ _

/-- Instance of C21: `num_requests = -5` on bank 1, where the device with one byte flipped does
not match the zero-filled reference. -/
theorem nonpositive_requests_pass_vacuously_witness :
    ((-5 : Int) ≤ 0 ∧
      flippedRegion (1 * 65536 + 100) ≠ zeroRegion (1 * 65536 + 100)) ∧
    (((testRandomReadROM flippedRegion zeroRegion 1 (-5) (fun _ => 50)).ret = 0 ∧
      readsOf (testRandomReadROM flippedRegion zeroRegion 1 (-5) (fun _ => 50)).out = [] ∧
      mismatchesOf (testRandomReadROM flippedRegion zeroRegion 1 (-5) (fun _ => 50)).out = []) ∧
    ((testRandomReadROMBytes flippedRegion zeroRegion 1 (-5) (fun _ => 50)).ret = 0 ∧
      readsOf (testRandomReadROMBytes flippedRegion zeroRegion 1 (-5) (fun _ => 50)).out = [] ∧
      mismatchesOf (testRandomReadROMBytes flippedRegion zeroRegion 1 (-5) (fun _ => 50)).out = []) ∧
    ((testRandomReadROMStats flippedRegion zeroRegion 1 (-5) (fun _ => 50)).ret = 0 ∧
      readsOf (testRandomReadROMStats flippedRegion zeroRegion 1 (-5) (fun _ => 50)).out = [] ∧
      statsOf (testRandomReadROMStats flippedRegion zeroRegion 1 (-5) (fun _ => 50)).out = [(0, 0)]) ∧
    ((testRandomReadROMBytesStats flippedRegion zeroRegion 1 (-5) (fun _ => 50)).ret = 0 ∧
      readsOf (testRandomReadROMBytesStats flippedRegion zeroRegion 1 (-5) (fun _ => 50)).out = [] ∧
      statsOf (testRandomReadROMBytesStats flippedRegion zeroRegion 1 (-5) (fun _ => 50)).out = [(0, 0)]) ∧
    ((testAddressLinesSequentialReadROM flippedRegion zeroRegion 1 (-5)).ret = 0 ∧
      readsOf (testAddressLinesSequentialReadROM flippedRegion zeroRegion 1 (-5)).out = [] ∧
      mismatchesOf (testAddressLinesSequentialReadROM flippedRegion zeroRegion 1 (-5)).out = [])) :=
  ⟨⟨by decide, flippedRegion_byte_differs⟩,
   nonpositive_requests_pass_vacuously flippedRegion zeroRegion 1 (-5) (fun _ => 50)
     (by decide)⟩

/-- C22: the address-line test never shows the progress spinner: its update condition
`line % 4096 == 0` is false for every line from 1 to 14, and it emits no glyph whatever its
inputs.  In the sequential and sampling routines the glyph `spinner[(i / 4096) % 4]`, whose
index is always inside the four-element array, is emitted exactly for the completed
iterations `i` that are multiples of 4096: all iterations of a stats routine or of a fail-fast
routine that finds no mismatch, and the iterations before the first mismatching one
otherwise. -/
theorem spinner_shown_every_4096_iterations (rom_data file_data : Region) (rombank : Nat)
    (num_requests : Int) (rand : Nat → Nat) :
    spinsOf (testAddressLinesSequentialReadROM rom_data file_data rombank num_requests).out = [] ∧
    (∀ line, 1 ≤ line → line ≤ 14 →
      line % SPINNER_UPDATE_FREQUENCY ≠ 0 ∧ lineSpinnerUpdate line = []) ∧
    (∀ i, (i / SPINNER_UPDATE_FREQUENCY) % 4 < spinner.length ∧
      spinner.getD ((i / SPINNER_UPDATE_FREQUENCY) % 4) 0 ∈ spinner ∧
      (i % SPINNER_UPDATE_FREQUENCY = 0 →
        spinnerUpdate i =
          [Event.spin (spinner.getD ((i / SPINNER_UPDATE_FREQUENCY) % 4) 0)]) ∧
      (i % SPINNER_UPDATE_FREQUENCY ≠ 0 → spinnerUpdate i = [])) ∧
    (∀ n, spinnerGlyphs n =
      ((List.range n).filter (fun i => i % 4096 = 0)).map
        (fun i => spinner.getD ((i / 4096) % 4) 0)) ∧
    spinsOf (testSequentialReadROMStats rom_data file_data rombank).out = spinnerGlyphs 32768 ∧
    spinsOf (testSequentialReadROMBytesStats rom_data file_data rombank).out = spinnerGlyphs 65536 ∧
    spinsOf (testRandomReadROMStats rom_data file_data rombank num_requests rand).out =
      spinnerGlyphs (Int.toNat num_requests) ∧
    spinsOf (testRandomReadROMBytesStats rom_data file_data rombank num_requests rand).out =
      spinnerGlyphs (Int.toNat num_requests) ∧
    ((∀ w, w < 32768 →
        wordAt rom_data (rombank * 32768 + w) = wordAt file_data (rombank * 32768 + w)) →
      spinsOf (testSequentialReadROM rom_data file_data rombank).out = spinnerGlyphs 32768) ∧
    (∀ k, k < 32768 →
      wordAt rom_data (rombank * 32768 + k) ≠ wordAt file_data (rombank * 32768 + k) →
      (∀ j, j < k → wordAt rom_data (rombank * 32768 + j) = wordAt file_data (rombank * 32768 + j)) →
      spinsOf (testSequentialReadROM rom_data file_data rombank).out = spinnerGlyphs k) ∧
    ((∀ a, a < 65536 → rom_data (rombank * 65536 + a) = file_data (rombank * 65536 + a)) →
      spinsOf (testSequentialReadROMBytes rom_data file_data rombank).out = spinnerGlyphs 65536) ∧
    (∀ k, k < 65536 →
      rom_data (rombank * 65536 + k) ≠ file_data (rombank * 65536 + k) →
      (∀ j, j < k → rom_data (rombank * 65536 + j) = file_data (rombank * 65536 + j)) →
      spinsOf (testSequentialReadROMBytes rom_data file_data rombank).out = spinnerGlyphs k) ∧
    ((∀ j, j < Int.toNat num_requests →
        wordAt rom_data (rombank * 32768 + randomWord rand j) =
          wordAt file_data (rombank * 32768 + randomWord rand j)) →
      spinsOf (testRandomReadROM rom_data file_data rombank num_requests rand).out =
        spinnerGlyphs (Int.toNat num_requests)) ∧
    (∀ k, k < Int.toNat num_requests →
      wordAt rom_data (rombank * 32768 + randomWord rand k) ≠
        wordAt file_data (rombank * 32768 + randomWord rand k) →
      (∀ j, j < k →
        wordAt rom_data (rombank * 32768 + randomWord rand j) =
          wordAt file_data (rombank * 32768 + randomWord rand j)) →
      spinsOf (testRandomReadROM rom_data file_data rombank num_requests rand).out = spinnerGlyphs k) ∧
    ((∀ j, j < Int.toNat num_requests →
        byteAt rom_data (rombank * 65536 + randomByte rand j) =
          byteAt file_data (rombank * 65536 + randomByte rand j)) →
      spinsOf (testRandomReadROMBytes rom_data file_data rombank num_requests rand).out =
        spinnerGlyphs (Int.toNat num_requests)) ∧
    (∀ k, k < Int.toNat num_requests →
      byteAt rom_data (rombank * 65536 + randomByte rand k) ≠
        byteAt file_data (rombank * 65536 + randomByte rand k) →
      (∀ j, j < k →
        byteAt rom_data (rombank * 65536 + randomByte rand j) =
          byteAt file_data (rombank * 65536 + randomByte rand j)) →
      spinsOf (testRandomReadROMBytes rom_data file_data rombank num_requests rand).out = spinnerGlyphs k) := by
  refine ⟨testAddressLinesSequentialReadROM_spins rom_data file_data rombank num_requests,
    ?_, ?_, fun n => rfl, ?_, ?_, ?_, ?_, ?_, ?_, ?_, ?_, ?_, ?_, ?_, ?_⟩
  · intro line h1 h2
    refine ⟨?_, lineSpinnerUpdate_eq_nil line h1 (by omega)⟩
    unfold SPINNER_UPDATE_FREQUENCY
    omega
  · intro i
    refine ⟨spinner_index_lt i, spinner_getD_mem _ (spinner_index_lt i), ?_, ?_⟩
    · intro h
      unfold spinnerUpdate
      simp [h]
    · intro h
      unfold spinnerUpdate
      simp [h]
  · rw [testSequentialReadROMStats_eq, spinsOf_reportStats]
  · rw [testSequentialReadROMBytesStats_eq, spinsOf_reportStats]
  · rw [testRandomReadROMStats_eq, spinsOf_reportStats]
  · rw [testRandomReadROMBytesStats_eq, spinsOf_reportStats]
  · intro h
    rw [testSequentialReadROM_pass rom_data file_data rombank h, spinsOf_pass_events]
  · intro k hk hne hlt
    rw [testSequentialReadROM_fail rom_data file_data rombank k hk hne hlt,
      spinsOf_fail_events]
  · intro h
    rw [testSequentialReadROMBytes_pass rom_data file_data rombank h, spinsOf_pass_events]
  · intro k hk hne hlt
    rw [testSequentialReadROMBytes_fail rom_data file_data rombank k hk hne hlt,
      spinsOf_fail_events]
  · intro h
    rw [testRandomReadROM_pass rom_data file_data rombank num_requests rand h,
      spinsOf_pass_events]
  · intro k hk hne hlt
    rw [testRandomReadROM_fail rom_data file_data rombank num_requests rand k hk hne hlt,
      spinsOf_fail_events]
  · intro h
    rw [testRandomReadROMBytes_pass rom_data file_data rombank num_requests rand h,
      spinsOf_pass_events]
  · intro k hk hne hlt
    rw [testRandomReadROMBytes_fail rom_data file_data rombank num_requests rand k hk hne hlt,
      spinsOf_fail_events]

/-- Instance of C22: line A3 and the iterations 8192 and 5; the zero-filled regions on bank 0,
where every routine completes all its iterations; and bank 1 of the device with one byte
flipped, where the sequential routines stop at word 50 and byte 100 and the sampling routines,
drawing `0, 50, 100`, stop at the second and at the third draw. -/
theorem spinner_shown_every_4096_iterations_witness :
    (((1 : Nat) ≤ 3 ∧ 3 ≤ 14) ∧
      3 % SPINNER_UPDATE_FREQUENCY ≠ 0 ∧ lineSpinnerUpdate 3 = []) ∧
    (8192 % SPINNER_UPDATE_FREQUENCY = 0 ∧
      spinnerUpdate 8192 =
        [Event.spin (spinner.getD ((8192 / SPINNER_UPDATE_FREQUENCY) % 4) 0)]) ∧
    (5 % SPINNER_UPDATE_FREQUENCY ≠ 0 ∧ spinnerUpdate 5 = []) ∧
    (((∀ w, w < 32768 →
        wordAt zeroRegion (0 * 32768 + w) = wordAt zeroRegion (0 * 32768 + w)) ∧
      (∀ a, a < 65536 → zeroRegion (0 * 65536 + a) = zeroRegion (0 * 65536 + a)) ∧
      (∀ j, j < Int.toNat 3 →
        wordAt zeroRegion (0 * 32768 + randomWord (fun j => 50 * j) j) =
          wordAt zeroRegion (0 * 32768 + randomWord (fun j => 50 * j) j)) ∧
      (∀ j, j < Int.toNat 3 →
        byteAt zeroRegion (0 * 65536 + randomByte (fun j => 50 * j) j) =
          byteAt zeroRegion (0 * 65536 + randomByte (fun j => 50 * j) j))) ∧
      spinsOf (testSequentialReadROM zeroRegion zeroRegion 0).out = spinnerGlyphs 32768 ∧
      spinsOf (testSequentialReadROMBytes zeroRegion zeroRegion 0).out =
        spinnerGlyphs 65536 ∧
      spinsOf (testRandomReadROM zeroRegion zeroRegion 0 3 (fun j => 50 * j)).out =
        spinnerGlyphs (Int.toNat 3) ∧
      spinsOf (testRandomReadROMBytes zeroRegion zeroRegion 0 3 (fun j => 50 * j)).out =
        spinnerGlyphs (Int.toNat 3)) ∧
    ((50 < 32768 ∧
        wordAt flippedRegion (1 * 32768 + 50) ≠ wordAt zeroRegion (1 * 32768 + 50) ∧
        (∀ j, j < 50 →
          wordAt flippedRegion (1 * 32768 + j) = wordAt zeroRegion (1 * 32768 + j))) ∧
      spinsOf (testSequentialReadROM flippedRegion zeroRegion 1).out = spinnerGlyphs 50) ∧
    ((100 < 65536 ∧ flippedRegion (1 * 65536 + 100) ≠ zeroRegion (1 * 65536 + 100) ∧
        (∀ j, j < 100 → flippedRegion (1 * 65536 + j) = zeroRegion (1 * 65536 + j))) ∧
      spinsOf (testSequentialReadROMBytes flippedRegion zeroRegion 1).out =
        spinnerGlyphs 100) ∧
    ((1 < Int.toNat 3 ∧
        wordAt flippedRegion (1 * 32768 + randomWord (fun j => 50 * j) 1) ≠
          wordAt zeroRegion (1 * 32768 + randomWord (fun j => 50 * j) 1) ∧
        (∀ j, j < 1 →
          wordAt flippedRegion (1 * 32768 + randomWord (fun j => 50 * j) j) =
            wordAt zeroRegion (1 * 32768 + randomWord (fun j => 50 * j) j))) ∧
      spinsOf (testRandomReadROM flippedRegion zeroRegion 1 3 (fun j => 50 * j)).out =
        spinnerGlyphs 1) ∧
    ((2 < Int.toNat 3 ∧
        byteAt flippedRegion (1 * 65536 + randomByte (fun j => 50 * j) 2) ≠
          byteAt zeroRegion (1 * 65536 + randomByte (fun j => 50 * j) 2) ∧
        (∀ j, j < 2 →
          byteAt flippedRegion (1 * 65536 + randomByte (fun j => 50 * j) j) =
            byteAt zeroRegion (1 * 65536 + randomByte (fun j => 50 * j) j))) ∧
      spinsOf (testRandomReadROMBytes flippedRegion zeroRegion 1 3 (fun j => 50 * j)).out =
        spinnerGlyphs 2) :=
  have hz := spinner_shown_every_4096_iterations zeroRegion zeroRegion 0 3 (fun j => 50 * j)
  have hf := spinner_shown_every_4096_iterations flippedRegion zeroRegion 1 3
    (fun j => 50 * j)
  have hw : ∀ j, j < 50 →
      wordAt flippedRegion (1 * 32768 + j) = wordAt zeroRegion (1 * 32768 + j) :=
    fun j hj => flippedRegion_word_agrees _ (by omega)
  have hb : ∀ j, j < 100 → flippedRegion (1 * 65536 + j) = zeroRegion (1 * 65536 + j) :=
    fun j hj => flippedRegion_byte_agrees _ (by omega)
  have hrw : ∀ j, j < 1 →
      wordAt flippedRegion (1 * 32768 + randomWord (fun j => 50 * j) j) =
        wordAt zeroRegion (1 * 32768 + randomWord (fun j => 50 * j) j) := by
    intro j hj
    interval_cases j
    decide
  have hrb : ∀ j, j < 2 →
      byteAt flippedRegion (1 * 65536 + randomByte (fun j => 50 * j) j) =
        byteAt zeroRegion (1 * 65536 + randomByte (fun j => 50 * j) j) := by
    intro j hj
    interval_cases j <;> decide
  ⟨⟨⟨by decide, by decide⟩, hz.2.1 3 (by decide) (by decide)⟩,
   ⟨by decide, (hz.2.2.1 8192).2.2.1 (by decide)⟩,
   ⟨by decide, (hz.2.2.1 5).2.2.2 (by decide)⟩,
   ⟨⟨fun _ _ => rfl, fun _ _ => rfl, fun _ _ => rfl, fun _ _ => rfl⟩,
    hz.2.2.2.2.2.2.2.2.1 (fun _ _ => rfl),
    hz.2.2.2.2.2.2.2.2.2.2.1 (fun _ _ => rfl),
    hz.2.2.2.2.2.2.2.2.2.2.2.2.1 (fun _ _ => rfl),
    hz.2.2.2.2.2.2.2.2.2.2.2.2.2.2.1 (fun _ _ => rfl)⟩,
   ⟨⟨by decide, flippedRegion_word_differs, hw⟩,
    hf.2.2.2.2.2.2.2.2.2.1 50 (by decide) flippedRegion_word_differs hw⟩,
   ⟨⟨by decide, flippedRegion_byte_differs, hb⟩,
    hf.2.2.2.2.2.2.2.2.2.2.2.1 100 (by decide) flippedRegion_byte_differs hb⟩,
   ⟨⟨by decide, by decide, hrw⟩,
    hf.2.2.2.2.2.2.2.2.2.2.2.2.2.1 1 (by decide) (by decide) hrw⟩,
   ⟨⟨by decide, by decide, hrb⟩,
    hf.2.2.2.2.2.2.2.2.2.2.2.2.2.2.2 2 (by decide) (by decide) hrb⟩⟩

end RomTest
